import Mathlib

/-!
go-lb: the backend registry, peer selection and the retry / failover router.

A shallow embedding of `lb/main.go`.

Conventions of the embedding.

* A `*Backend` held in `ServerPool.backends` is represented by its position in
  the slice (the slice is append-only and `main` allocates a fresh `Backend`
  for every configured address, so position and pointer identity coincide).
  `nil` is `none`.
* A `*url.URL` is represented by its `String()` rendering, the only thing the
  registry ever compares.
* `uint64` values are naturals reduced modulo `2 ^ 64` at every operation
  that can wrap.  Go `int` values that index the slice are naturals: a slice
  length is far below `2 ^ 62`, so `len + next` cannot overflow.
* A runtime panic (integer divide by zero, index out of range) is the outer
  `none` of a result; the state reached when the panic fires is kept.
* Locks, `log.Printf` and `time.Sleep` have no effect on the values computed
  and are left out.
-/

namespace GoLB

/-! ## Backend and ServerPool -/

/-- Backend holds the data about a server. -/
structure Backend where
  Name : String
  URL : String
  Alive : Bool
deriving DecidableEq, Repr

/-- SetAlive for this backend. -/
def Backend.SetAlive (b : Backend) (alive : Bool) : Backend :=
  { b with Alive := alive }

/-- IsAlive returns true when backend is alive. -/
def Backend.IsAlive (b : Backend) : Bool :=
  b.Alive

/-- ServerPool holds information about reachable backends. -/
structure ServerPool where
  backends : List Backend
  current : Nat
deriving DecidableEq, Repr

/-- AddBackend to the server pool. -/
def ServerPool.AddBackend (s : ServerPool) (backend : Backend) : ServerPool :=
  { s with backends := s.backends ++ [backend] }

/-- NextIndex atomically increases the counter and returns an index:
`atomic.AddUint64(&s.current, 1) % uint64(len(s.backends))`.
The increment happens first; the modulo panics on an empty slice. -/
def ServerPool.NextIndex (s : ServerPool) : Option Nat × ServerPool :=
  let v := (s.current + 1) % 2 ^ 64
  let s1 : ServerPool := { s with current := v }
  if s.backends.length = 0 then (none, s1)
  else (some (v % s.backends.length), s1)

/-- MarkBackendStatus, the `range` loop: the first backend whose URL string
equals `backendUrl` gets `SetAlive(alive)` and the loop breaks. -/
def ServerPool.MarkBackendStatus.loop (backendUrl : String) (alive : Bool) :
    List Backend → List Backend
  | [] => []
  | b :: bs =>
    if b.URL = backendUrl then b.SetAlive alive :: bs
    else b :: ServerPool.MarkBackendStatus.loop backendUrl alive bs

/-- MarkBackendStatus changes a status of a backend. -/
def ServerPool.MarkBackendStatus (s : ServerPool) (backendUrl : String) (alive : Bool) :
    ServerPool :=
  { s with backends := ServerPool.MarkBackendStatus.loop backendUrl alive s.backends }

/-- GetNextPeer, the loop `for i := next; i < l; i++`.  The first argument is
the number of iterations left, `l - i`; the second is `i`.  The result is
`some (some idx)` for the returned backend, `some none` for `nil`, and `none`
for an index-out-of-range panic. -/
def ServerPool.GetNextPeer.loop (s : ServerPool) (next : Nat) :
    Nat → Nat → Option (Option Nat) × ServerPool
  | 0, _ => (some none, s)
  | n + 1, i =>
    let idx := i % s.backends.length
    match s.backends[idx]? with
    | none => (none, s)
    | some b =>
      if b.IsAlive then
        (some (some idx), if i ≠ next then { s with current := idx % 2 ^ 64 } else s)
      else ServerPool.GetNextPeer.loop s next n (i + 1)

/-- GetNextPeer returns next active peer to take a connection. -/
def ServerPool.GetNextPeer (s : ServerPool) : Option (Option Nat) × ServerPool :=
  match s.NextIndex with
  | (none, s1) => (none, s1)
  | (some next, s1) =>
    let l := s1.backends.length + next
    ServerPool.GetNextPeer.loop s1 next (l - next) next

/-- HealthCheck pings the backends and updates the status; `isBackendAlive`
is the TCP probe. -/
def ServerPool.HealthCheck (isBackendAlive : String → Bool) (s : ServerPool) : ServerPool :=
  { s with backends := s.backends.map (fun b => b.SetAlive (isBackendAlive b.URL)) }

/-- The liveness flag of the backend at position `idx` (false out of range). -/
def ServerPool.aliveAt (s : ServerPool) (idx : Nat) : Bool :=
  match s.backends[idx]? with
  | some b => b.IsAlive
  | none => false

/-- The state after `n` sequential `GetNextPeer` calls. -/
def ServerPool.afterCalls (s : ServerPool) : Nat → ServerPool
  | 0 => s
  | n + 1 => (ServerPool.afterCalls s n).GetNextPeer.2

/-- The result of call number `n` (counted from 0) in a run of sequential
`GetNextPeer` calls. -/
def ServerPool.nthCall (s : ServerPool) (n : Nat) : Option (Option Nat) :=
  (ServerPool.afterCalls s n).GetNextPeer.1

/-! ## The request router -/

/-- Go `int` addition on a 64-bit platform (two's complement wrap-around). -/
def intAdd (a b : Int) : Int :=
  (a + b + 2 ^ 63) % 2 ^ 64 - 2 ^ 63

/-- What the router reads from and writes to an `*http.Request`: the values
under the context keys `Attempts` and `Retry` (present only when they are
`int`s) and the `X-Request-ID` header. -/
structure Request where
  attempts : Option Int
  retry : Option Int
  requestID : Option String
deriving DecidableEq, Repr

/-- A request as the HTTP server hands it to `lb`: nothing in its context. -/
def Request.fresh : Request :=
  { attempts := none, retry := none, requestID := none }

/-- GetAttemptsFromContext returns the attempts for request. -/
def GetAttemptsFromContext (r : Request) : Int :=
  match r.attempts with
  | some attempts => attempts
  | none => 1

/-- GetRetryFromContext returns the retries for request. -/
def GetRetryFromContext (r : Request) : Int :=
  match r.retry with
  | some retry => retry
  | none => 0

/-- Observable steps of the router, in the order they happen. -/
inductive Event where
  /-- `r.Header.Set("X-Request-ID", ...)` with the new counter value. -/
  | stamped (reqID : Nat)
  /-- `serverPool.GetNextPeer()` was called from `lb` and returned `peer`. -/
  | selected (attempts : Int) (peer : Option Nat)
  /-- `ReverseProxy.ServeHTTP` of backend `peer` was invoked with request `r`. -/
  | forward (peer : Nat) (r : Request)
  /-- `serverPool.MarkBackendStatus(url, false)` was called. -/
  | marked (url : String)
deriving DecidableEq, Repr

/-- Is the event a `ReverseProxy.ServeHTTP` invocation. -/
def Event.isForward : Event → Bool
  | Event.forward _ _ => true
  | _ => false

/-- Is the event a `GetNextPeer` call made by `lb`. -/
def Event.isSelected : Event → Bool
  | Event.selected _ _ => true
  | _ => false

/-- Is the event a `MarkBackendStatus` call. -/
def Event.isMarked : Event → Bool
  | Event.marked _ => true
  | _ => false

/-- Number of `ReverseProxy.ServeHTTP` invocations recorded in a trace. -/
def forwardCount (tr : List Event) : Nat :=
  (tr.filter Event.isForward).length

/-- What ends up on the `http.ResponseWriter`. -/
inductive Response where
  /-- `http.Error(w, msg, code)`. -/
  | error (msg : String) (code : Nat)
  /-- The reverse proxy of backend `peer` copied the backend's response. -/
  | proxied (peer : Nat)
  /-- The handler goroutine panicked. -/
  | panicked
deriving DecidableEq, Repr

/-- `http.StatusServiceUnavailable`. -/
def StatusServiceUnavailable : Nat := 503

/-- The package-level variables `serverPool` and `requestCounter`, and the
trace of the router's observable steps. -/
structure State where
  serverPool : ServerPool
  requestCounter : Nat
  trace : List Event
deriving DecidableEq, Repr

/-- The outcome of the forwards: `net k peer` tells whether the forward to
backend `peer` succeeds when `k` forwards were made before it. -/
abbrev Transport := Nat → Nat → Bool

mutual

/-- lb load balances the incoming request.  The first argument bounds the
depth of the recursion through the error handler; `none` means the bound
was reached. -/
def lb (net : Transport) : Nat → State → Request → Option (Response × State)
  | 0, _, _ => none
  | fuel + 1, σ, r =>
    let attempts := GetAttemptsFromContext r
    if attempts > 3 then
      some (Response.error "Service not available" StatusServiceUnavailable, σ)
    else
      let reqID := (σ.requestCounter + 1) % 2 ^ 64
      let r1 : Request := { r with requestID := some (toString reqID) }
      let σ1 : State :=
        { σ with requestCounter := reqID, trace := σ.trace ++ [Event.stamped reqID] }
      match σ1.serverPool.GetNextPeer with
      | (none, pool) => some (Response.panicked, { σ1 with serverPool := pool })
      | (some peer, pool) =>
        let σ2 : State :=
          { σ1 with serverPool := pool, trace := σ1.trace ++ [Event.selected attempts peer] }
        match peer with
        | some p =>
          match pool.backends[p]? with
          | some b => ServeHTTP net fuel p b.URL σ2 r1
          | none => some (Response.panicked, σ2)
        | none =>
          some (Response.error "Service not available" StatusServiceUnavailable, σ2)

/-- `ReverseProxy.ServeHTTP` of the proxy built for backend `peer`, whose
error handler captured `serverUrl`: the request is forwarded; on success the
backend's response is written, on failure the error handler is called with
the outgoing request, which carries the same context and headers. -/
def ServeHTTP (net : Transport) : Nat → Nat → String → State → Request →
    Option (Response × State)
  | 0, _, _, _, _ => none
  | fuel + 1, peer, serverUrl, σ, r =>
    let σ1 : State := { σ with trace := σ.trace ++ [Event.forward peer r] }
    if net (forwardCount σ.trace) peer then some (Response.proxied peer, σ1)
    else ErrorHandler net fuel peer serverUrl σ1 r

/-- The `proxy.ErrorHandler` closure installed in `main` for the backend
`peer`, with its captured `serverUrl`. -/
def ErrorHandler (net : Transport) : Nat → Nat → String → State → Request →
    Option (Response × State)
  | 0, _, _, _, _ => none
  | fuel + 1, peer, serverUrl, σ, request =>
    let retries := GetRetryFromContext request
    if retries < 3 then
      ServeHTTP net fuel peer serverUrl σ { request with retry := some (intAdd retries 1) }
    else
      -- after 3 retries, mark this backend as down
      let σ1 : State :=
        { σ with serverPool := σ.serverPool.MarkBackendStatus serverUrl false,
                 trace := σ.trace ++ [Event.marked serverUrl] }
      let attempts := GetAttemptsFromContext request
      lb net fuel σ1 { request with attempts := some (intAdd attempts 1) }

end

/-- A pool as `main` builds it from the `-backends` flag: one backend per
address (given by the `String()` rendering of its parsed URL), named
`server-<i>`, alive, and the cursor at zero. -/
def configuredPool (urls : List String) : ServerPool :=
  { backends := urls.enum.map (fun x => { Name := "server-" ++ toString (x.1 + 1),
                                          URL := x.2, Alive := true }),
    current := 0 }

/-- The process state right after start-up. -/
def initialState (urls : List String) : State :=
  { serverPool := configuredPool urls, requestCounter := 0, trace := [] }

/-! ## Concrete registries and probes used as test inputs -/

/-- Three backends with distinct addresses, all alive, cursor at `cursor`. -/
def threeAlive (cursor : Nat) : ServerPool :=
  { backends := [⟨"server-1", "http://a", true⟩, ⟨"server-2", "http://b", true⟩,
                 ⟨"server-3", "http://c", true⟩],
    current := cursor }

/-- Two backends, the first dead and the second alive, cursor at `cursor`. -/
def deadThenAlive (cursor : Nat) : ServerPool :=
  { backends := [⟨"server-1", "http://a", false⟩, ⟨"server-2", "http://b", true⟩],
    current := cursor }

/-- Three alive backends, the last two configured with the same address. -/
def duplicatedB : ServerPool :=
  { backends := [⟨"server-1", "http://a", true⟩, ⟨"server-2", "http://b", true⟩,
                 ⟨"server-3", "http://b", true⟩],
    current := 4 }

/-- A probe that fails for `http://b` only. -/
def probeBDown (url : String) : Bool :=
  decide (url ≠ "http://b")

/-- A probe that succeeds for every address. -/
def probeAllUp (_ : String) : Bool :=
  true

/-- A transport on which every forward fails. -/
def allFail : Transport :=
  fun _ _ => false

/-- A transport on which the first three forwards fail and all later ones
succeed. -/
def failThrice : Transport :=
  fun n _ => decide (3 ≤ n)

/-- The process state after start-up with two configured backends. -/
def twoBackends : State :=
  initialState ["http://a", "http://b"]

/-- The empty registry with the cursor at `cursor`. -/
def emptyPool (cursor : Nat) : ServerPool :=
  { backends := [], current := cursor }

/-- A transport on which every forward succeeds. -/
def allSucceed : Transport :=
  fun _ _ => true

/-- A process state in which the request counter has reached `2^64 - 1`,
the id stamped on the latest request. -/
def counterAtMax : State :=
  { serverPool := threeAlive 0, requestCounter := 2 ^ 64 - 1,
    trace := [Event.stamped (2 ^ 64 - 1)] }

/-- A process state whose registry holds the same address twice, both
backends alive. -/
def twinB : State :=
  { serverPool :=
      { backends := [⟨"server-1", "http://b", true⟩, ⟨"server-2", "http://b", true⟩],
        current := 0 },
    requestCounter := 0, trace := [] }

/-- Four backends of which the second is dead, cursor at `cursor`. -/
def oneDeadOfFour (cursor : Nat) : ServerPool :=
  { backends := [⟨"server-1", "http://a", true⟩, ⟨"server-2", "http://b", false⟩,
                 ⟨"server-3", "http://c", true⟩, ⟨"server-4", "http://d", true⟩],
    current := cursor }

/-! ## Observations on a scan and on a trace -/

/-- The slice indices at which the loop of `GetNextPeer` evaluates
`s.backends[idx]`, in the order of the lookups.  The recursion is that of
`ServerPool.GetNextPeer.loop`. -/
def ServerPool.GetNextPeer.examined (s : ServerPool) : Nat → Nat → List Nat
  | 0, _ => []
  | n + 1, i =>
    let idx := i % s.backends.length
    match s.backends[idx]? with
    | none => [idx]
    | some b =>
      if b.IsAlive then [idx]
      else idx :: ServerPool.GetNextPeer.examined s n (i + 1)

/-- The slice indices one `GetNextPeer` call looks up, in order (none when
`NextIndex` panics). -/
def ServerPool.examined (s : ServerPool) : List Nat :=
  match s.NextIndex with
  | (none, _) => []
  | (some next, s1) =>
    let l := s1.backends.length + next
    ServerPool.GetNextPeer.examined s1 (l - next) next

/-- The `N` candidate indices of a scan that starts at `start`, in scan
order: `start, start + 1, ..., start + N - 1`, each modulo `N`. -/
def ServerPool.candidates (s : ServerPool) (start : Nat) : List Nat :=
  (List.range s.backends.length).map (fun j => (start + j) % s.backends.length)

/-- The request ids stamped in a trace, in order. -/
def stampedIds : List Event → List Nat
  | [] => []
  | Event.stamped reqID :: es => reqID :: stampedIds es
  | _ :: es => stampedIds es

/-- The attempts values with which `lb` called `GetNextPeer`, in order. -/
def selectedAttempts : List Event → List Int
  | [] => []
  | Event.selected attempts _ :: es => attempts :: selectedAttempts es
  | _ :: es => selectedAttempts es

/-- The backends `GetNextPeer` returned to `lb`, in order. -/
def selectedPeers : List Event → List Nat
  | [] => []
  | Event.selected _ (some p) :: es => p :: selectedPeers es
  | _ :: es => selectedPeers es

/-- The backends the request was forwarded to, one entry per forward. -/
def forwardPeers : List Event → List Nat
  | [] => []
  | Event.forward p _ :: es => p :: forwardPeers es
  | _ :: es => forwardPeers es

/-- The requests handed to `ReverseProxy.ServeHTTP`, one per forward. -/
def forwardedRequests : List Event → List Request
  | [] => []
  | Event.forward _ r :: es => r :: forwardedRequests es
  | _ :: es => forwardedRequests es

/-- The addresses passed to `MarkBackendStatus(_, false)`, in order. -/
def markedUrls : List Event → List String
  | [] => []
  | Event.marked u :: es => u :: markedUrls es
  | _ :: es => markedUrls es

/-- The request ids stamped so far are positive, strictly increasing in the
order they were stamped, and none exceeds the request counter. -/
def State.stampsIncreasing (σ : State) : Prop :=
  (stampedIds σ.trace).Pairwise (fun a b => a < b) ∧
    ∀ id, id ∈ stampedIds σ.trace → 0 < id ∧ id ≤ σ.requestCounter

instance State.decidableStampsIncreasing (σ : State) : Decidable σ.stampsIncreasing := by
  unfold State.stampsIncreasing
  infer_instance

/-- The steps of the first backend of a request when every forward fails:
the stamp, the selection of backend `p`, the forward and its three retries,
and the marking of its address `u`. -/
def firstBackendSteps (id : Nat) (p : Nat) (u : String) : List Event :=
  [Event.stamped id, Event.selected 1 (some p),
   Event.forward p { attempts := none, retry := none, requestID := some (toString id) },
   Event.forward p { attempts := none, retry := some 1, requestID := some (toString id) },
   Event.forward p { attempts := none, retry := some 2, requestID := some (toString id) },
   Event.forward p { attempts := none, retry := some 3, requestID := some (toString id) },
   Event.marked u]

/-- The steps of a backend selected after a failover when every forward
fails: the stamp, the selection of backend `p` with the attempts value, one
forward with the retries value still 3, and the marking of its address `u`. -/
def failoverSteps (id : Nat) (attempts : Int) (p : Nat) (u : String) : List Event :=
  [Event.stamped id, Event.selected attempts (some p),
   Event.forward p
     { attempts := some attempts, retry := some 3, requestID := some (toString id) },
   Event.marked u]

/-- The steps of an `lb` invocation for which `GetNextPeer` returns nil. -/
def noPeerSteps (id : Nat) (attempts : Int) : List Event :=
  [Event.stamped id, Event.selected attempts none]

/-! ## Peer selection: lemmas -/

theorem ServerPool.aliveAt_lt {s : ServerPool} {idx : Nat} (h : s.aliveAt idx = true) :
    idx < s.backends.length := by
  unfold ServerPool.aliveAt at h
  by_contra hlt
  rw [List.getElem?_eq_none (by omega)] at h
  simp at h

/-- Symbolic execution of the scan loop: either every one of the `n`
candidates is dead and the loop returns `nil` leaving the pool untouched, or
the first alive candidate (offset `j`) is returned and the cursor is
overwritten exactly when `i + j ≠ next`. -/
theorem ServerPool.GetNextPeer.loop_cases (s : ServerPool) (next : Nat)
    (hN : 0 < s.backends.length) : ∀ n i,
    (ServerPool.GetNextPeer.loop s next n i = (some none, s) ∧
      ∀ j, j < n → s.aliveAt ((i + j) % s.backends.length) = false) ∨
    (∃ j, j < n ∧ s.aliveAt ((i + j) % s.backends.length) = true ∧
      (∀ k, k < j → s.aliveAt ((i + k) % s.backends.length) = false) ∧
      ServerPool.GetNextPeer.loop s next n i =
        (some (some ((i + j) % s.backends.length)),
          if i + j ≠ next then { s with current := (i + j) % s.backends.length % 2 ^ 64 }
          else s)) := by
  intro n
  induction n with
  | zero =>
    intro i
    left
    exact ⟨rfl, fun j hj => absurd hj (Nat.not_lt_zero j)⟩
  | succ n ih =>
    intro i
    have hidx : i % s.backends.length < s.backends.length := Nat.mod_lt _ hN
    have hget : s.backends[i % s.backends.length]? = some (s.backends[i % s.backends.length]) :=
      List.getElem?_eq_getElem hidx
    cases hb : (s.backends[i % s.backends.length]).Alive with
    | true =>
      right
      refine ⟨0, Nat.succ_pos n, ?_, fun k hk => absurd hk (Nat.not_lt_zero k), ?_⟩
      · simp [ServerPool.aliveAt, hget, Backend.IsAlive, hb]
      · simp [ServerPool.GetNextPeer.loop, hget, Backend.IsAlive, hb]
    | false =>
      have hstep : ServerPool.GetNextPeer.loop s next (n + 1) i =
          ServerPool.GetNextPeer.loop s next n (i + 1) := by
        simp [ServerPool.GetNextPeer.loop, hget, Backend.IsAlive, hb]
      have hdead : s.aliveAt ((i + 0) % s.backends.length) = false := by
        simp [ServerPool.aliveAt, hget, Backend.IsAlive, hb]
      have hshift : ∀ k, i + 1 + k = i + (k + 1) := fun k => by omega
      rcases ih (i + 1) with ⟨hret, hall⟩ | ⟨j, hj, halive, hbefore, hret⟩
      · left
        refine ⟨hstep.trans hret, fun j hj => ?_⟩
        cases j with
        | zero => exact hdead
        | succ j => rw [← hshift]; exact hall j (by omega)
      · right
        refine ⟨j + 1, by omega, ?_, ?_, ?_⟩
        · rw [← hshift]; exact halive
        · intro k hk
          cases k with
          | zero => exact hdead
          | succ k => rw [← hshift]; exact hbefore k (by omega)
        · rw [hstep, hret, hshift]

theorem ServerPool.NextIndex_pos (s : ServerPool) (hN : 0 < s.backends.length) :
    s.NextIndex = (some ((s.current + 1) % 2 ^ 64 % s.backends.length),
      { s with current := (s.current + 1) % 2 ^ 64 }) := by
  unfold ServerPool.NextIndex
  simp [Nat.pos_iff_ne_zero.mp hN]

/-- With a non-empty registry `GetNextPeer` is the scan of `N` candidates
from the start index on the pool whose cursor has been incremented. -/
theorem ServerPool.GetNextPeer_pos (s : ServerPool) (hN : 0 < s.backends.length) :
    s.GetNextPeer =
      ServerPool.GetNextPeer.loop { s with current := (s.current + 1) % 2 ^ 64 }
        ((s.current + 1) % 2 ^ 64 % s.backends.length) s.backends.length
        ((s.current + 1) % 2 ^ 64 % s.backends.length) := by
  unfold ServerPool.GetNextPeer
  rw [ServerPool.NextIndex_pos s hN]
  simp

/-- Every index of the registry is one of the `N` candidates of a scan. -/
theorem exists_offset (N start idx : Nat) (hs : start < N) (hi : idx < N) :
    ∃ j, j < N ∧ (start + j) % N = idx := by
  by_cases h : start ≤ idx
  · exact ⟨idx - start, by omega, by rw [Nat.add_sub_cancel' h]; exact Nat.mod_eq_of_lt hi⟩
  · refine ⟨idx + N - start, by omega, ?_⟩
    have : start + (idx + N - start) = idx + N := by omega
    rw [this, Nat.add_mod_right]
    exact Nat.mod_eq_of_lt hi

theorem ServerPool.aliveAt_setCurrent (s : ServerPool) (c idx : Nat) :
    ServerPool.aliveAt { s with current := c } idx = s.aliveAt idx := rfl

theorem ServerPool.aliveAt_ge {s : ServerPool} {idx : Nat} (h : s.backends.length ≤ idx) :
    s.aliveAt idx = false := by
  unfold ServerPool.aliveAt
  rw [List.getElem?_eq_none h]

/-- The outcome of `GetNextPeer` on a non-empty registry, with
`start = ((current + 1) mod 2^64) mod N`: either no backend is alive, `nil`
is returned and the cursor is the incremented one; or the backend at the
least offset `j` from `start` that is alive is returned, and the cursor is
the incremented one when `j = 0` and the returned index otherwise. -/
theorem ServerPool.GetNextPeer_cases (s : ServerPool) (hN : 0 < s.backends.length) :
    (s.GetNextPeer = (some none, { s with current := (s.current + 1) % 2 ^ 64 }) ∧
      ∀ i, s.aliveAt i = false) ∨
    (∃ j, j < s.backends.length ∧
      s.aliveAt (((s.current + 1) % 2 ^ 64 % s.backends.length + j) % s.backends.length) = true ∧
      (∀ k, k < j →
        s.aliveAt (((s.current + 1) % 2 ^ 64 % s.backends.length + k) % s.backends.length)
          = false) ∧
      s.GetNextPeer =
        (some (some (((s.current + 1) % 2 ^ 64 % s.backends.length + j) % s.backends.length)),
          if j ≠ 0 then
            { s with current :=
                ((s.current + 1) % 2 ^ 64 % s.backends.length + j) % s.backends.length % 2 ^ 64 }
          else { s with current := (s.current + 1) % 2 ^ 64 })) := by
  have hstart : (s.current + 1) % 2 ^ 64 % s.backends.length < s.backends.length :=
    Nat.mod_lt _ hN
  rw [ServerPool.GetNextPeer_pos s hN]
  rcases ServerPool.GetNextPeer.loop_cases { s with current := (s.current + 1) % 2 ^ 64 }
      ((s.current + 1) % 2 ^ 64 % s.backends.length) hN s.backends.length
      ((s.current + 1) % 2 ^ 64 % s.backends.length) with ⟨hret, hall⟩ | ⟨j, hj, halive, hbefore, hret⟩
  · left
    refine ⟨hret, fun i => ?_⟩
    by_cases hi : i < s.backends.length
    · obtain ⟨j, hj, hji⟩ := exists_offset _ _ _ hstart hi
      have h2 : s.aliveAt (((s.current + 1) % 2 ^ 64 % s.backends.length + j)
          % s.backends.length) = false := hall j hj
      rw [hji] at h2
      exact h2
    · exact ServerPool.aliveAt_ge (Nat.le_of_not_lt hi)
  · right
    refine ⟨j, hj, halive, hbefore, ?_⟩
    rw [hret]
    by_cases hj0 : j = 0
    · subst hj0; simp
    · have : (s.current + 1) % 2 ^ 64 % s.backends.length + j ≠
          (s.current + 1) % 2 ^ 64 % s.backends.length := by omega
      simp [this, hj0]

theorem ServerPool.GetNextPeer.loop_backends (s : ServerPool) (next : Nat) : ∀ n i,
    (ServerPool.GetNextPeer.loop s next n i).2.backends = s.backends := by
  intro n
  induction n with
  | zero => intro i; rfl
  | succ n ih =>
    intro i
    unfold ServerPool.GetNextPeer.loop
    dsimp only
    split
    · rfl
    · split
      · split <;> rfl
      · exact ih (i + 1)

/-- `GetNextPeer` never changes the registry: neither the order nor any
liveness flag. -/
theorem ServerPool.GetNextPeer_backends (s : ServerPool) :
    s.GetNextPeer.2.backends = s.backends := by
  by_cases hN : s.backends.length = 0
  · simp [ServerPool.GetNextPeer, ServerPool.NextIndex, hN]
  · rw [ServerPool.GetNextPeer_pos s (Nat.pos_of_ne_zero hN)]
    exact ServerPool.GetNextPeer.loop_backends _ _ _ _

theorem ServerPool.afterCalls_backends (s : ServerPool) (n : Nat) :
    (s.afterCalls n).backends = s.backends := by
  induction n with
  | zero => rfl
  | succ n ih =>
    show (s.afterCalls n).GetNextPeer.2.backends = s.backends
    rw [ServerPool.GetNextPeer_backends, ih]

theorem ServerPool.aliveAt_congr {s t : ServerPool} (h : s.backends = t.backends) (i : Nat) :
    s.aliveAt i = t.aliveAt i := by
  unfold ServerPool.aliveAt
  rw [h]

/-- C1: on a registry with at least one backend, whatever the liveness flags
and the cursor, `GetNextPeer` returns normally; it returns a backend if and
only if some backend is alive; a returned backend is in range and alive (the
call changes no liveness flag); with no backend alive it returns nil; and
with exactly one backend alive it returns that one. -/
theorem ServerPool.GetNextPeer_returns_alive_iff (s : ServerPool)
    (hN : 1 ≤ s.backends.length) :
    ∃ r : Option Nat, s.GetNextPeer.1 = some r ∧
      s.GetNextPeer.2.backends = s.backends ∧
      (r.isSome = true ↔ ∃ i, s.aliveAt i = true) ∧
      (∀ idx, r = some idx → idx < s.backends.length ∧ s.aliveAt idx = true) ∧
      ((∀ i, s.aliveAt i = false) → r = none) ∧
      (∀ k, s.aliveAt k = true → (∀ i, i ≠ k → s.aliveAt i = false) → r = some k) := by
  rcases ServerPool.GetNextPeer_cases s hN with ⟨hret, hall⟩ | ⟨j, hj, halive, _, hret⟩
  · refine ⟨none, by rw [hret], ServerPool.GetNextPeer_backends s, ?_, ?_, ?_, ?_⟩
    · constructor
      · intro h; simp at h
      · rintro ⟨i, hi⟩; rw [hall i] at hi; simp at hi
    · intro idx h; simp at h
    · intro _; rfl
    · intro k hk _; rw [hall k] at hk; simp at hk
  · refine ⟨some _, by rw [hret], ServerPool.GetNextPeer_backends s, ?_, ?_, ?_, ?_⟩
    · constructor
      · intro _; exact ⟨_, halive⟩
      · intro _; rfl
    · intro idx h
      cases h
      exact ⟨ServerPool.aliveAt_lt halive, halive⟩
    · intro h; rw [h] at halive; simp at halive
    · intro k _ hothers
      by_contra hne
      have hk : ((s.current + 1) % 2 ^ 64 % s.backends.length + j) % s.backends.length ≠ k := by
        intro h; exact hne (by rw [h])
      rw [hothers _ hk] at halive
      simp at halive

/-- C1 at the registry [dead, alive] with the cursor at 5. -/
theorem ServerPool.GetNextPeer_returns_alive_iff_witness :
    ∃ r : Option Nat, (deadThenAlive 5).GetNextPeer.1 = some r ∧
      (deadThenAlive 5).GetNextPeer.2.backends = (deadThenAlive 5).backends ∧
      (r.isSome = true ↔ ∃ i, (deadThenAlive 5).aliveAt i = true) ∧
      (∀ idx, r = some idx →
        idx < (deadThenAlive 5).backends.length ∧ (deadThenAlive 5).aliveAt idx = true) ∧
      ((∀ i, (deadThenAlive 5).aliveAt i = false) → r = none) ∧
      (∀ k, (deadThenAlive 5).aliveAt k = true →
        (∀ i, i ≠ k → (deadThenAlive 5).aliveAt i = false) → r = some k) :=
  ServerPool.GetNextPeer_returns_alive_iff (deadThenAlive 5) (by decide)

/-- When the backend at the start index is alive it is returned and the
cursor is the incremented one. -/
theorem ServerPool.GetNextPeer_start_alive (s : ServerPool) (hN : 0 < s.backends.length)
    (h : s.aliveAt ((s.current + 1) % 2 ^ 64 % s.backends.length) = true) :
    s.GetNextPeer = (some (some ((s.current + 1) % 2 ^ 64 % s.backends.length)),
      { s with current := (s.current + 1) % 2 ^ 64 }) := by
  have hstart : (s.current + 1) % 2 ^ 64 % s.backends.length < s.backends.length :=
    Nat.mod_lt _ hN
  rcases ServerPool.GetNextPeer_cases s hN with ⟨_, hall⟩ | ⟨j, _, _, hbefore, hret⟩
  · rw [hall] at h; simp at h
  · have hj0 : j = 0 := by
      by_contra hne
      have := hbefore 0 (Nat.pos_of_ne_zero hne)
      rw [Nat.add_zero, Nat.mod_eq_of_lt hstart, h] at this
      simp at this
    subst hj0
    rw [hret, Nat.add_zero, Nat.mod_eq_of_lt hstart]
    simp

/-- With every backend alive, `n` calls leave the cursor at `current + n`
modulo `2^64`. -/
theorem ServerPool.afterCalls_current_allAlive (s : ServerPool) (hN : 0 < s.backends.length)
    (hall : ∀ i, i < s.backends.length → s.aliveAt i = true) (n : Nat) :
    (s.afterCalls n).current % 2 ^ 64 = (s.current + n) % 2 ^ 64 := by
  induction n with
  | zero => rfl
  | succ n ih =>
    have hb := ServerPool.afterCalls_backends s n
    have hN' : 0 < (s.afterCalls n).backends.length := by rw [hb]; exact hN
    have halive : (s.afterCalls n).aliveAt
        (((s.afterCalls n).current + 1) % 2 ^ 64 % (s.afterCalls n).backends.length) = true := by
      rw [ServerPool.aliveAt_congr hb]
      exact hall _ (by rw [hb]; exact Nat.mod_lt _ hN)
    show (s.afterCalls n).GetNextPeer.2.current % 2 ^ 64 = _
    rw [ServerPool.GetNextPeer_start_alive _ hN' halive]
    show ((s.afterCalls n).current + 1) % 2 ^ 64 % 2 ^ 64 = _
    rw [Nat.mod_mod, Nat.add_mod, ih, ← Nat.add_assoc]
    simp [Nat.add_mod]

/-- With every backend alive, call number `n` returns the backend at index
`((current + n + 1) mod 2^64) mod N`. -/
theorem ServerPool.nthCall_allAlive (s : ServerPool) (hN : 0 < s.backends.length)
    (hall : ∀ i, i < s.backends.length → s.aliveAt i = true) (n : Nat) :
    s.nthCall n = some (some ((s.current + n + 1) % 2 ^ 64 % s.backends.length)) := by
  have hb := ServerPool.afterCalls_backends s n
  have hN' : 0 < (s.afterCalls n).backends.length := by rw [hb]; exact hN
  have halive : (s.afterCalls n).aliveAt
      (((s.afterCalls n).current + 1) % 2 ^ 64 % (s.afterCalls n).backends.length) = true := by
    rw [ServerPool.aliveAt_congr hb]
    exact hall _ (by rw [hb]; exact Nat.mod_lt _ hN)
  show (s.afterCalls n).GetNextPeer.1 = _
  rw [ServerPool.GetNextPeer_start_alive _ hN' halive]
  show some (some (((s.afterCalls n).current + 1) % 2 ^ 64 % (s.afterCalls n).backends.length)) = _
  rw [hb, Nat.add_mod ((s.afterCalls n).current), ServerPool.afterCalls_current_allAlive s hN hall n]
  simp [Nat.add_mod]

/-- Two offsets below `N` that land on the same index are equal. -/
theorem offset_inj (N start j k : Nat) (hj : j < N) (hk : k < N)
    (h : (start + j) % N = (start + k) % N) : j = k := by
  have h1 : j ≡ k [MOD N] := Nat.ModEq.add_left_cancel' start h
  exact Nat.ModEq.eq_of_lt_of_lt h1 hj hk

/-- The index arithmetic of a run of calls that does not wrap inside. -/
theorem rotation_index (c N j : Nat) (hj : j < N)
    (hwrap : c + N < 2 ^ 64 ∨ (c + 1 = 2 ^ 64 ∧ N ≤ 2 ^ 64) ∨ N ∣ 2 ^ 64) :
    (c + j + 1) % 2 ^ 64 % N = ((c + 1) % 2 ^ 64 % N + j) % N := by
  rcases hwrap with h | ⟨h1, h2⟩ | h
  · rw [Nat.mod_eq_of_lt (by omega : c + j + 1 < 2 ^ 64),
      Nat.mod_eq_of_lt (by omega : c + 1 < 2 ^ 64), Nat.mod_add_mod]
    congr 1; omega
  · have e1 : c + j + 1 = j + 2 ^ 64 := by omega
    rw [e1, h1, Nat.add_mod_right, Nat.mod_self, Nat.zero_mod, Nat.zero_add,
      Nat.mod_eq_of_lt (by omega : j < 2 ^ 64)]
  · rw [Nat.mod_mod_of_dvd _ h, Nat.mod_mod_of_dvd _ h, Nat.mod_add_mod]
    congr 1; omega

/-! ## Peer selection: round robin -/

/-- C2, as stated, fails: with three backends, all alive, and the cursor at
`2^64 - 2`, three consecutive calls return the backends 0, 0 and 1, so
backend 0 is returned twice and backend 2 not at all (the increment wraps
from `2^64 - 1` to `0`, and both are `0` modulo 3). -/
theorem ServerPool.roundRobin_wrap_counterexample :
    (∀ i, i < 3 → (threeAlive (2 ^ 64 - 2)).aliveAt i = true) ∧
    (List.range 3).map (threeAlive (2 ^ 64 - 2)).nthCall
      = [some (some 0), some (some 0), some (some 1)] ∧
    ¬ ((List.range 3).map (threeAlive (2 ^ 64 - 2)).nthCall).Nodup := by
  decide

/-- C2, amended: for `N ≥ 1` backends, all alive, and a cursor `c` such that
the increment does not wrap around `2^64` strictly inside the run (`c + N <
2^64`, or `c = 2^64 - 1` so that the wrap falls on the first call, or `N`
divides `2^64`), call number `j < N` of `N` consecutive calls returns the
backend at index `(start + j) mod N` with `start = ((c + 1) mod 2^64) mod N`;
hence every backend is returned by exactly one of the `N` calls. -/
theorem ServerPool.roundRobin_allAlive (s : ServerPool) (hN : 1 ≤ s.backends.length)
    (hall : ∀ i, i < s.backends.length → s.aliveAt i = true)
    (hwrap : s.current + s.backends.length < 2 ^ 64 ∨
      (s.current + 1 = 2 ^ 64 ∧ s.backends.length ≤ 2 ^ 64) ∨ s.backends.length ∣ 2 ^ 64) :
    (∀ j, j < s.backends.length →
      s.nthCall j =
        some (some (((s.current + 1) % 2 ^ 64 % s.backends.length + j) % s.backends.length))) ∧
    (∀ idx, idx < s.backends.length →
      ∃ j, j < s.backends.length ∧ s.nthCall j = some (some idx) ∧
        ∀ k, k < s.backends.length → s.nthCall k = some (some idx) → k = j) := by
  have hcall : ∀ j, j < s.backends.length →
      s.nthCall j =
        some (some (((s.current + 1) % 2 ^ 64 % s.backends.length + j) % s.backends.length)) := by
    intro j hj
    rw [ServerPool.nthCall_allAlive s hN hall j, rotation_index _ _ _ hj hwrap]
  refine ⟨hcall, fun idx hidx => ?_⟩
  obtain ⟨j, hj, hji⟩ := exists_offset _ _ _ (Nat.mod_lt ((s.current + 1) % 2 ^ 64) hN) hidx
  refine ⟨j, hj, by rw [hcall j hj, hji], fun k hk hkidx => ?_⟩
  rw [hcall k hk] at hkidx
  have hkidx' := Option.some.inj (Option.some.inj hkidx)
  exact offset_inj _ _ _ _ hk hj (hkidx'.trans hji.symm)

/-- C2, amended, at three alive backends and cursor 7: the calls return the
backends 2, 0, 1. -/
theorem ServerPool.roundRobin_allAlive_witness :
    (∀ j, j < (threeAlive 7).backends.length →
      (threeAlive 7).nthCall j =
        some (some ((((threeAlive 7).current + 1) % 2 ^ 64 % (threeAlive 7).backends.length + j)
          % (threeAlive 7).backends.length))) ∧
    (∀ idx, idx < (threeAlive 7).backends.length →
      ∃ j, j < (threeAlive 7).backends.length ∧ (threeAlive 7).nthCall j = some (some idx) ∧
        ∀ k, k < (threeAlive 7).backends.length →
          (threeAlive 7).nthCall k = some (some idx) → k = j) :=
  ServerPool.roundRobin_allAlive (threeAlive 7) (by decide) (by decide) (Or.inl (by decide))

/-! ## MarkBackendStatus and HealthCheck -/

theorem ServerPool.MarkBackendStatus.loop_no_match (backendUrl : String) (alive : Bool) :
    ∀ bs : List Backend, (∀ b, b ∈ bs → b.URL ≠ backendUrl) →
      ServerPool.MarkBackendStatus.loop backendUrl alive bs = bs := by
  intro bs
  induction bs with
  | nil => intro _; rfl
  | cons b bs ih =>
    intro h
    have hb : b.URL ≠ backendUrl := h b (List.mem_cons_self b bs)
    have hrest : ∀ x, x ∈ bs → x.URL ≠ backendUrl := fun x hx => h x (List.mem_cons_of_mem b hx)
    simp [ServerPool.MarkBackendStatus.loop, hb, ih hrest]

theorem ServerPool.MarkBackendStatus.loop_first_match (backendUrl : String) (alive : Bool) :
    ∀ (bs : List Backend) (i : Nat) (b : Backend), bs[i]? = some b → b.URL = backendUrl →
      (∀ k c, k < i → bs[k]? = some c → c.URL ≠ backendUrl) →
      ServerPool.MarkBackendStatus.loop backendUrl alive bs = bs.set i (b.SetAlive alive) := by
  intro bs
  induction bs with
  | nil => intro i b h; simp at h
  | cons x xs ih =>
    intro i b hget hurl hbefore
    cases i with
    | zero =>
      simp at hget
      subst hget
      simp [ServerPool.MarkBackendStatus.loop, hurl]
    | succ i =>
      have hx : x.URL ≠ backendUrl := hbefore 0 x (Nat.succ_pos i) (by simp)
      have hget' : xs[i]? = some b := by simpa using hget
      have hbefore' : ∀ k c, k < i → xs[k]? = some c → c.URL ≠ backendUrl :=
        fun k c hk hc => hbefore (k + 1) c (by omega) (by simpa using hc)
      simp [ServerPool.MarkBackendStatus.loop, hx, ih i b hget' hurl hbefore']

/-- C7: `MarkBackendStatus` with an address that no registered backend has
returns the pool as it was: same backends in the same order with the same
liveness, same cursor. -/
theorem ServerPool.MarkBackendStatus_unknown_address (s : ServerPool) (backendUrl : String)
    (alive : Bool) (h : ∀ b, b ∈ s.backends → b.URL ≠ backendUrl) :
    s.MarkBackendStatus backendUrl alive = s := by
  unfold ServerPool.MarkBackendStatus
  rw [ServerPool.MarkBackendStatus.loop_no_match backendUrl alive s.backends h]

/-- C7 at the registry [dead, alive] and the address `http://c`. -/
theorem ServerPool.MarkBackendStatus_unknown_address_witness :
    (deadThenAlive 4).MarkBackendStatus "http://c" false = deadThenAlive 4 :=
  ServerPool.MarkBackendStatus_unknown_address (deadThenAlive 4) "http://c" false (by decide)

/-- C8: if `b`, at position `i`, is the first backend in registry order whose
address equals `backendUrl`, then `MarkBackendStatus(backendUrl, alive)`
replaces exactly that entry by `b` with liveness `alive`: the backend at `i`
keeps name and address, every other position (later backends with the same
address included) holds the same backend with the same liveness, the number
and order of backends and the cursor are unchanged. -/
theorem ServerPool.MarkBackendStatus_first_match (s : ServerPool) (backendUrl : String)
    (alive : Bool) (i : Nat) (b : Backend) (hget : s.backends[i]? = some b)
    (hurl : b.URL = backendUrl)
    (hfirst : ∀ k c, k < i → s.backends[k]? = some c → c.URL ≠ backendUrl) :
    (s.MarkBackendStatus backendUrl alive).backends[i]? =
        some { Name := b.Name, URL := b.URL, Alive := alive } ∧
      (∀ k, k ≠ i → (s.MarkBackendStatus backendUrl alive).backends[k]? = s.backends[k]?) ∧
      (s.MarkBackendStatus backendUrl alive).backends.length = s.backends.length ∧
      (s.MarkBackendStatus backendUrl alive).current = s.current := by
  have hi : i < s.backends.length := by
    by_contra hlt
    rw [List.getElem?_eq_none (by omega)] at hget
    simp at hget
  have hloop : (s.MarkBackendStatus backendUrl alive).backends =
      s.backends.set i (b.SetAlive alive) :=
    ServerPool.MarkBackendStatus.loop_first_match backendUrl alive s.backends i b hget hurl hfirst
  refine ⟨?_, ?_, ?_, rfl⟩
  · rw [hloop]
    simp [hi, Backend.SetAlive]
  · intro k hk
    rw [hloop]
    simp [List.getElem?_set, hk.symm]
  · rw [hloop]
    simp

/-- C8 at a registry in which the address `http://b` is configured twice, at
positions 1 and 2: only position 1 is marked. -/
theorem ServerPool.MarkBackendStatus_first_match_witness :
    (duplicatedB.MarkBackendStatus "http://b" false).backends[1]? =
        some { Name := "server-2", URL := "http://b", Alive := false } ∧
      (∀ k, k ≠ 1 →
        (duplicatedB.MarkBackendStatus "http://b" false).backends[k]? =
          duplicatedB.backends[k]?) ∧
      (duplicatedB.MarkBackendStatus "http://b" false).backends.length =
        duplicatedB.backends.length ∧
      (duplicatedB.MarkBackendStatus "http://b" false).current = duplicatedB.current :=
  ServerPool.MarkBackendStatus_first_match duplicatedB "http://b" false 1
    ⟨"server-2", "http://b", true⟩ (by decide) (by decide)
    (by
      intro k c hk hc
      have hk0 : k = 0 := by omega
      subst hk0
      have hc0 : c = ⟨"server-1", "http://a", true⟩ := by
        simpa [duplicatedB] using hc.symm
      subst hc0
      decide)

/-- A backend returned by `GetNextPeer` is alive. -/
theorem ServerPool.GetNextPeer_some_alive (s : ServerPool) (k : Nat)
    (h : s.GetNextPeer.1 = some (some k)) : s.aliveAt k = true := by
  by_cases hN : s.backends.length = 0
  · simp [ServerPool.GetNextPeer, ServerPool.NextIndex, hN] at h
  · rcases ServerPool.GetNextPeer_cases s (Nat.pos_of_ne_zero hN) with
      ⟨hret, _⟩ | ⟨j, _, halive, _, hret⟩
    · rw [hret] at h; simp at h
    · rw [hret] at h
      have hk := Option.some.inj (Option.some.inj h)
      rw [← hk]; exact halive

theorem ServerPool.HealthCheck_getElem? (p : String → Bool) (s : ServerPool) (k : Nat) :
    (s.HealthCheck p).backends[k]? =
      (s.backends[k]?).map
        (fun c => ({ Name := c.Name, URL := c.URL, Alive := p c.URL } : Backend)) := by
  simp [ServerPool.HealthCheck, Backend.SetAlive, List.getElem?_map]

/-- C9: with the probe modelled as a function `p` of the address, after
`HealthCheck` every backend keeps its position, name and address and has
liveness `p address`, and the cursor is unchanged; in any run of subsequent
`GetNextPeer` calls every returned backend is one whose probe succeeded; and
if a later `HealthCheck` runs with a probe `q` that succeeds for the backend
at position `i`, that backend is alive again and `GetNextPeer` returns it
whenever the scan starts at `i`, which some cursor value makes happen. -/
theorem ServerPool.HealthCheck_liveness (p q : String → Bool) (s : ServerPool) (i : Nat)
    (b : Backend) (hget : s.backends[i]? = some b) (hup : q b.URL = true)
    (hlen : s.backends.length < 2 ^ 63) :
    (∀ (k : Nat) (c : Backend), s.backends[k]? = some c →
      (s.HealthCheck p).backends[k]? =
        some ({ Name := c.Name, URL := c.URL, Alive := p c.URL } : Backend)) ∧
    (s.HealthCheck p).backends.length = s.backends.length ∧
    (s.HealthCheck p).current = s.current ∧
    (∀ (n k : Nat), (s.HealthCheck p).nthCall n = some (some k) →
      ∃ c, s.backends[k]? = some c ∧ p c.URL = true) ∧
    (∀ n,
      (((s.HealthCheck p).afterCalls n).HealthCheck q).aliveAt i = true ∧
      (∀ c, (c + 1) % 2 ^ 64 % s.backends.length = i →
        (ServerPool.GetNextPeer
          { ((s.HealthCheck p).afterCalls n).HealthCheck q with current := c }).1
          = some (some i)) ∧
      ∃ c, c < 2 ^ 64 ∧
        (ServerPool.GetNextPeer
          { ((s.HealthCheck p).afterCalls n).HealthCheck q with current := c }).1
          = some (some i)) := by
  have hi : i < s.backends.length := by
    by_contra hlt
    rw [List.getElem?_eq_none (by omega)] at hget
    simp at hget
  refine ⟨?_, ?_, rfl, ?_, ?_⟩
  · intro k c hk
    rw [ServerPool.HealthCheck_getElem?, hk]; rfl
  · simp [ServerPool.HealthCheck]
  · intro n k hcall
    have halive := ServerPool.GetNextPeer_some_alive _ k hcall
    rw [ServerPool.aliveAt_congr (ServerPool.afterCalls_backends _ n)] at halive
    unfold ServerPool.aliveAt at halive
    rw [ServerPool.HealthCheck_getElem?] at halive
    cases hk : s.backends[k]? with
    | none => rw [hk] at halive; simp at halive
    | some c =>
      rw [hk] at halive
      exact ⟨c, rfl, by simpa [Backend.IsAlive] using halive⟩
  · intro n
    have hb : ((s.HealthCheck p).afterCalls n).backends = (s.HealthCheck p).backends :=
      ServerPool.afterCalls_backends _ n
    have hgetq : (((s.HealthCheck p).afterCalls n).HealthCheck q).backends[i]? =
        some ({ Name := b.Name, URL := b.URL, Alive := true } : Backend) := by
      rw [ServerPool.HealthCheck_getElem?, hb, ServerPool.HealthCheck_getElem?, hget]
      simp [hup]
    have hlenq : (((s.HealthCheck p).afterCalls n).HealthCheck q).backends.length =
        s.backends.length := by
      show (List.map _ ((s.HealthCheck p).afterCalls n).backends).length = _
      rw [List.length_map, hb]
      simp [ServerPool.HealthCheck]
    have haliveq : (((s.HealthCheck p).afterCalls n).HealthCheck q).aliveAt i = true := by
      unfold ServerPool.aliveAt
      rw [hgetq]; rfl
    have hsel : ∀ c, (c + 1) % 2 ^ 64 % s.backends.length = i →
        (ServerPool.GetNextPeer
          { ((s.HealthCheck p).afterCalls n).HealthCheck q with current := c }).1
          = some (some i) := by
      intro c hc
      have hstart : (c + 1) % 2 ^ 64 %
          (((s.HealthCheck p).afterCalls n).HealthCheck q).backends.length = i := by
        rw [hlenq]; exact hc
      have h := ServerPool.GetNextPeer_start_alive
        { ((s.HealthCheck p).afterCalls n).HealthCheck q with current := c }
        (by show 0 < (((s.HealthCheck p).afterCalls n).HealthCheck q).backends.length
            rw [hlenq]; omega)
        (by show ServerPool.aliveAt _ ((c + 1) % 2 ^ 64 %
              (((s.HealthCheck p).afterCalls n).HealthCheck q).backends.length) = true
            rw [hstart]; exact haliveq)
      rw [h]
      show some (some ((c + 1) % 2 ^ 64 %
          (((s.HealthCheck p).afterCalls n).HealthCheck q).backends.length)) = _
      rw [hstart]
    refine ⟨haliveq, hsel, i + s.backends.length - 1, by omega, hsel _ ?_⟩
    have e : i + s.backends.length - 1 + 1 = i + s.backends.length := by omega
    rw [e, Nat.mod_eq_of_lt (by omega : i + s.backends.length < 2 ^ 64), Nat.add_mod_right,
      Nat.mod_eq_of_lt hi]

/-- C9 at three backends of which `http://b` is unreachable in the first
health check and reachable in the second. -/
theorem ServerPool.HealthCheck_liveness_witness :
    (∀ (k : Nat) (c : Backend), (threeAlive 0).backends[k]? = some c →
      ((threeAlive 0).HealthCheck probeBDown).backends[k]? =
        some ({ Name := c.Name, URL := c.URL, Alive := probeBDown c.URL } : Backend)) ∧
    ((threeAlive 0).HealthCheck probeBDown).backends.length = (threeAlive 0).backends.length ∧
    ((threeAlive 0).HealthCheck probeBDown).current = (threeAlive 0).current ∧
    (∀ (n k : Nat), ((threeAlive 0).HealthCheck probeBDown).nthCall n = some (some k) →
      ∃ c, (threeAlive 0).backends[k]? = some c ∧ probeBDown c.URL = true) ∧
    (∀ n,
      ((((threeAlive 0).HealthCheck probeBDown).afterCalls n).HealthCheck probeAllUp).aliveAt 1
        = true ∧
      (∀ c, (c + 1) % 2 ^ 64 % (threeAlive 0).backends.length = 1 →
        (ServerPool.GetNextPeer
          { (((threeAlive 0).HealthCheck probeBDown).afterCalls n).HealthCheck probeAllUp
            with current := c }).1 = some (some 1)) ∧
      ∃ c, c < 2 ^ 64 ∧
        (ServerPool.GetNextPeer
          { (((threeAlive 0).HealthCheck probeBDown).afterCalls n).HealthCheck probeAllUp
            with current := c }).1 = some (some 1)) :=
  ServerPool.HealthCheck_liveness probeBDown probeAllUp (threeAlive 0) 1
    ⟨"server-2", "http://b", true⟩ (by decide) (by decide) (by decide)

/-! ## The cursor -/

/-- C10, as stated, fails: with backends [dead, alive] and the cursor at 5,
the scan starts at index 0, skips it, returns backend 1 and overwrites the
cursor with 1: the cursor after the call is not 5 + 1 and is below 5. -/
theorem ServerPool.GetNextPeer_cursor_counterexample :
    (deadThenAlive 5).GetNextPeer.1 = some (some 1) ∧
    (deadThenAlive 5).GetNextPeer.2.current = 1 ∧
    (deadThenAlive 5).GetNextPeer.2.current ≠ (deadThenAlive 5).current + 1 ∧
    (deadThenAlive 5).GetNextPeer.2.current < (deadThenAlive 5).current := by
  decide

/-- C10, amended: on a registry with `N ≥ 1` backends a `GetNextPeer` call
increments the cursor exactly once, modulo `2^64`, in `NextIndex`; when it
returns nil or the backend at the start index, the cursor after the call is
`(cursor before + 1) mod 2^64`, which is `cursor before + 1` unless the
cursor was `2^64 - 1`; when dead backends were skipped and a backend at
another index is returned, the cursor after the call is that index. -/
theorem ServerPool.GetNextPeer_cursor (s : ServerPool) (hN : 1 ≤ s.backends.length) :
    s.NextIndex.2.current = (s.current + 1) % 2 ^ 64 ∧
    (s.GetNextPeer.1 = some none → s.GetNextPeer.2.current = (s.current + 1) % 2 ^ 64) ∧
    (s.GetNextPeer.1 = some (some ((s.current + 1) % 2 ^ 64 % s.backends.length)) →
      s.GetNextPeer.2.current = (s.current + 1) % 2 ^ 64) ∧
    (s.current + 1 < 2 ^ 64 → (s.current + 1) % 2 ^ 64 = s.current + 1) ∧
    (∀ idx, idx ≠ (s.current + 1) % 2 ^ 64 % s.backends.length →
      s.GetNextPeer.1 = some (some idx) → s.GetNextPeer.2.current = idx % 2 ^ 64) := by
  have hstart : (s.current + 1) % 2 ^ 64 % s.backends.length < s.backends.length :=
    Nat.mod_lt _ hN
  refine ⟨by rw [ServerPool.NextIndex_pos s hN], ?_, ?_, fun h => Nat.mod_eq_of_lt h, ?_⟩
  · intro h
    rcases ServerPool.GetNextPeer_cases s hN with ⟨hret, _⟩ | ⟨j, _, _, _, hret⟩
    · rw [hret]
    · rw [hret] at h; simp at h
  · intro h
    rcases ServerPool.GetNextPeer_cases s hN with ⟨hret, _⟩ | ⟨j, hj, _, _, hret⟩
    · rw [hret]
    · rw [hret] at h
      have hidx := Option.some.inj (Option.some.inj h)
      have hj0 : j = 0 := by
        apply offset_inj s.backends.length ((s.current + 1) % 2 ^ 64 % s.backends.length) j 0 hj hN
        exact hidx.trans (by simp [Nat.mod_eq_of_lt hstart])
      rw [hret]; simp [hj0]
  · intro idx hne h
    rcases ServerPool.GetNextPeer_cases s hN with ⟨hret, _⟩ | ⟨j, hj, _, _, hret⟩
    · rw [hret] at h; simp at h
    · rw [hret] at h
      have hidx := Option.some.inj (Option.some.inj h)
      have hj0 : j ≠ 0 := by
        intro h0
        apply hne
        rw [← hidx, h0, Nat.add_zero, Nat.mod_eq_of_lt hstart]
      rw [hret, if_pos hj0]
      show _ % 2 ^ 64 = _
      rw [hidx]

/-- C10, amended, at the registry [dead, alive] with the cursor at 5. -/
theorem ServerPool.GetNextPeer_cursor_witness :
    (deadThenAlive 5).NextIndex.2.current = ((deadThenAlive 5).current + 1) % 2 ^ 64 ∧
    ((deadThenAlive 5).GetNextPeer.1 = some none →
      (deadThenAlive 5).GetNextPeer.2.current = ((deadThenAlive 5).current + 1) % 2 ^ 64) ∧
    ((deadThenAlive 5).GetNextPeer.1 =
        some (some (((deadThenAlive 5).current + 1) % 2 ^ 64 % (deadThenAlive 5).backends.length)) →
      (deadThenAlive 5).GetNextPeer.2.current = ((deadThenAlive 5).current + 1) % 2 ^ 64) ∧
    ((deadThenAlive 5).current + 1 < 2 ^ 64 →
      ((deadThenAlive 5).current + 1) % 2 ^ 64 = (deadThenAlive 5).current + 1) ∧
    (∀ idx, idx ≠ ((deadThenAlive 5).current + 1) % 2 ^ 64 % (deadThenAlive 5).backends.length →
      (deadThenAlive 5).GetNextPeer.1 = some (some idx) →
      (deadThenAlive 5).GetNextPeer.2.current = idx % 2 ^ 64) :=
  ServerPool.GetNextPeer_cursor (deadThenAlive 5) (by decide)

/-! ## The request router: lemmas -/

theorem intAdd_one (a : Int) (h1 : -2 ^ 63 ≤ a + 1) (h2 : a + 1 < 2 ^ 63) : intAdd a 1 = a + 1 := by
  unfold intAdd
  omega

theorem lb_succ (net : Transport) (fuel : Nat) (σ : State) (r : Request) :
    lb net (fuel + 1) σ r =
      if GetAttemptsFromContext r > 3 then
        some (Response.error "Service not available" StatusServiceUnavailable, σ)
      else
        match (ServerPool.GetNextPeer σ.serverPool) with
        | (none, pool) =>
          some (Response.panicked,
            { serverPool := pool, requestCounter := (σ.requestCounter + 1) % 2 ^ 64,
              trace := σ.trace ++ [Event.stamped ((σ.requestCounter + 1) % 2 ^ 64)] })
        | (some none, pool) =>
          some (Response.error "Service not available" StatusServiceUnavailable,
            { serverPool := pool, requestCounter := (σ.requestCounter + 1) % 2 ^ 64,
              trace := σ.trace ++ [Event.stamped ((σ.requestCounter + 1) % 2 ^ 64)] ++
                [Event.selected (GetAttemptsFromContext r) none] })
        | (some (some p), pool) =>
          match pool.backends[p]? with
          | some b =>
            ServeHTTP net fuel p b.URL
              { serverPool := pool, requestCounter := (σ.requestCounter + 1) % 2 ^ 64,
                trace := σ.trace ++ [Event.stamped ((σ.requestCounter + 1) % 2 ^ 64)] ++
                  [Event.selected (GetAttemptsFromContext r) (some p)] }
              { r with requestID := some (toString ((σ.requestCounter + 1) % 2 ^ 64)) }
          | none =>
            some (Response.panicked,
              { serverPool := pool, requestCounter := (σ.requestCounter + 1) % 2 ^ 64,
                trace := σ.trace ++ [Event.stamped ((σ.requestCounter + 1) % 2 ^ 64)] ++
                  [Event.selected (GetAttemptsFromContext r) (some p)] }) := by
  rw [lb]
  dsimp only
  split
  · rfl
  · split <;> rename_i h
    · rw [h]
    · rw [h]
      split <;> rfl

theorem ServeHTTP_succ (net : Transport) (fuel peer : Nat) (serverUrl : String) (σ : State)
    (r : Request) :
    ServeHTTP net (fuel + 1) peer serverUrl σ r =
      if net (forwardCount σ.trace) peer then
        some (Response.proxied peer, { σ with trace := σ.trace ++ [Event.forward peer r] })
      else
        ErrorHandler net fuel peer serverUrl
          { σ with trace := σ.trace ++ [Event.forward peer r] } r := by
  rw [ServeHTTP]

theorem ErrorHandler_succ (net : Transport) (fuel peer : Nat) (serverUrl : String) (σ : State)
    (request : Request) :
    ErrorHandler net (fuel + 1) peer serverUrl σ request =
      if GetRetryFromContext request < 3 then
        ServeHTTP net fuel peer serverUrl σ
          { request with retry := some (intAdd (GetRetryFromContext request) 1) }
      else
        lb net fuel
          { σ with serverPool := σ.serverPool.MarkBackendStatus serverUrl false,
                   trace := σ.trace ++ [Event.marked serverUrl] }
          { request with attempts := some (intAdd (GetAttemptsFromContext request) 1) } := by
  rw [ErrorHandler]

theorem forwardCount_append (a b : List Event) :
    forwardCount (a ++ b) = forwardCount a + forwardCount b := by
  simp [forwardCount]

theorem forwardCount_forward (peer : Nat) (r : Request) :
    forwardCount [Event.forward peer r] = 1 := rfl

theorem forwardCount_stamped (n : Nat) : forwardCount [Event.stamped n] = 0 := rfl

theorem forwardCount_selected (a : Int) (p : Option Nat) :
    forwardCount [Event.selected a p] = 0 := rfl

theorem forwardCount_marked (u : String) : forwardCount [Event.marked u] = 0 := rfl

theorem forwardCount_nil : forwardCount [] = 0 := rfl

theorem forwardCount_cons_forward (peer : Nat) (r : Request) (es : List Event) :
    forwardCount (Event.forward peer r :: es) = forwardCount es + 1 := by
  simp [forwardCount, Event.isForward]

theorem forwardCount_cons_stamped (n : Nat) (es : List Event) :
    forwardCount (Event.stamped n :: es) = forwardCount es := by
  simp [forwardCount, Event.isForward]

theorem forwardCount_cons_selected (a : Int) (p : Option Nat) (es : List Event) :
    forwardCount (Event.selected a p :: es) = forwardCount es := by
  simp [forwardCount, Event.isForward]

theorem forwardCount_cons_marked (u : String) (es : List Event) :
    forwardCount (Event.marked u :: es) = forwardCount es := by
  simp [forwardCount, Event.isForward]

theorem GetRetryFromContext_none (a : Option Int) (i : Option String) :
    GetRetryFromContext { attempts := a, retry := none, requestID := i } = 0 := rfl

theorem GetRetryFromContext_some (a : Option Int) (x : Int) (i : Option String) :
    GetRetryFromContext { attempts := a, retry := some x, requestID := i } = x := rfl

theorem GetAttemptsFromContext_none (x : Option Int) (i : Option String) :
    GetAttemptsFromContext { attempts := none, retry := x, requestID := i } = 1 := rfl

theorem GetAttemptsFromContext_some (a : Int) (x : Option Int) (i : Option String) :
    GetAttemptsFromContext { attempts := some a, retry := x, requestID := i } = a := rfl

theorem ServerPool.MarkBackendStatus.loop_length (backendUrl : String) (alive : Bool) :
    ∀ bs : List Backend,
      (ServerPool.MarkBackendStatus.loop backendUrl alive bs).length = bs.length := by
  intro bs
  induction bs with
  | nil => rfl
  | cons b bs ih =>
    unfold ServerPool.MarkBackendStatus.loop
    split
    · rfl
    · simp [ih]

theorem ServerPool.MarkBackendStatus_length (s : ServerPool) (backendUrl : String)
    (alive : Bool) :
    (s.MarkBackendStatus backendUrl alive).backends.length = s.backends.length :=
  ServerPool.MarkBackendStatus.loop_length backendUrl alive s.backends

/-- On a non-empty registry `GetNextPeer` does not panic, and a backend it
returns can be dereferenced in the pool it leaves. -/
theorem ServerPool.GetNextPeer_ok (s : ServerPool) (hN : 0 < s.backends.length)
    (x : Option (Option Nat)) (pool : ServerPool) (h : s.GetNextPeer = (x, pool)) :
    pool.backends = s.backends ∧
    ((x = some none) ∨ (∃ p b, x = some (some p) ∧ pool.backends[p]? = some b ∧
      s.aliveAt p = true)) := by
  have hb : pool.backends = s.backends := by
    have := ServerPool.GetNextPeer_backends s
    rw [h] at this
    exact this
  refine ⟨hb, ?_⟩
  rcases ServerPool.GetNextPeer_cases s hN with ⟨hret, _⟩ | ⟨j, _, halive, _, hret⟩
  · left
    rw [hret] at h
    exact (Prod.mk.inj h).1.symm
  · right
    rw [hret] at h
    have hx := (Prod.mk.inj h).1
    have hlt := ServerPool.aliveAt_lt halive
    refine ⟨_, s.backends[((s.current + 1) % 2 ^ 64 % s.backends.length + j) % s.backends.length],
      hx.symm, ?_, halive⟩
    rw [hb]
    exact List.getElem?_eq_getElem hlt

/-- The failover stage.  A request whose retries are used up (`Retry ≥ 3`)
and whose attempts value is at least `4 - k` is answered by `lb` after at
most `k` further forwards, given fuel `3 * k + 1`.  The answer is the 503,
the response of a backend whose forward succeeded, or, on an empty registry
only, a panic. -/
theorem lb_failover_bound (net : Transport) : ∀ (k fuel : Nat) (σ : State) (r : Request),
    1 ≤ GetAttemptsFromContext r → 3 ≤ GetRetryFromContext r →
    4 - GetAttemptsFromContext r ≤ (k : Int) → 3 * k + 1 ≤ fuel →
    ∃ resp σ', lb net fuel σ r = some (resp, σ') ∧
      forwardCount σ'.trace ≤ forwardCount σ.trace + k ∧
      σ'.serverPool.backends.length = σ.serverPool.backends.length ∧
      (resp = Response.error "Service not available" StatusServiceUnavailable ∨
        (∃ p n, resp = Response.proxied p ∧ net n p = true) ∨
        (resp = Response.panicked ∧ σ.serverPool.backends.length = 0)) := by
  intro k
  induction k with
  | zero =>
    intro fuel σ r hα _ hk hfuel
    obtain ⟨f, rfl⟩ : ∃ f, fuel = f + 1 := ⟨fuel - 1, by omega⟩
    have hgt : GetAttemptsFromContext r > 3 := by omega
    rw [lb_succ, if_pos hgt]
    exact ⟨_, _, rfl, Nat.le_refl _, rfl, Or.inl rfl⟩
  | succ k ih =>
    intro fuel σ r hα hρ hk hfuel
    obtain ⟨f, rfl⟩ : ∃ f, fuel = f + 3 := ⟨fuel - 3, by omega⟩
    by_cases hgt : GetAttemptsFromContext r > 3
    · rw [lb_succ, if_pos hgt]
      exact ⟨_, _, rfl, Nat.le_add_right _ _, rfl, Or.inl rfl⟩
    · rw [lb_succ, if_neg hgt]
      by_cases hN : σ.serverPool.backends.length = 0
      · have hpanic : σ.serverPool.GetNextPeer.1 = none := by
          simp [ServerPool.GetNextPeer, ServerPool.NextIndex, hN]
        rcases hg : σ.serverPool.GetNextPeer with ⟨x, pool⟩
        rw [hg] at hpanic
        have hx : x = none := hpanic
        subst hx
        have hb : pool.backends = σ.serverPool.backends := by
          have := ServerPool.GetNextPeer_backends σ.serverPool
          rw [hg] at this
          exact this
        refine ⟨_, _, rfl, ?_, by simp [hb], Or.inr (Or.inr ⟨rfl, hN⟩)⟩
        simp only [forwardCount_append, forwardCount_stamped]
        omega
      · rcases hg : σ.serverPool.GetNextPeer with ⟨x, pool⟩
        obtain ⟨hb, hx | ⟨p, b, hx, hpb, _⟩⟩ :=
          ServerPool.GetNextPeer_ok σ.serverPool (Nat.pos_of_ne_zero hN) x pool hg
        · subst hx
          refine ⟨_, _, rfl, ?_, by simp [hb], Or.inl rfl⟩
          simp only [forwardCount_append, forwardCount_stamped, forwardCount_selected]
          omega
        · subst hx
          simp only [hpb]
          rw [ServeHTTP_succ]
          by_cases hnet : net (forwardCount (σ.trace ++
              [Event.stamped ((σ.requestCounter + 1) % 2 ^ 64)] ++
              [Event.selected (GetAttemptsFromContext r) (some p)])) p = true
          · rw [if_pos hnet]
            refine ⟨_, _, rfl, ?_, by simp [hb], Or.inr (Or.inl ⟨p, _, rfl, hnet⟩)⟩
            simp only [forwardCount_append, forwardCount_stamped, forwardCount_selected,
              forwardCount_forward]
            omega
          · rw [if_neg hnet, ErrorHandler_succ]
            have hρ' : ¬ GetRetryFromContext
                { r with requestID := some (toString ((σ.requestCounter + 1) % 2 ^ 64)) } < 3 := by
              show ¬ GetRetryFromContext r < 3
              omega
            rw [if_neg hρ']
            have hα' : GetAttemptsFromContext
                { r with requestID := some (toString ((σ.requestCounter + 1) % 2 ^ 64)) } =
                GetAttemptsFromContext r := rfl
            rw [hα', intAdd_one _ (by omega) (by omega)]
            obtain ⟨resp, σ', hrun, hcount, hlen, hresp⟩ := ih f
              { serverPool := pool.MarkBackendStatus b.URL false,
                requestCounter := (σ.requestCounter + 1) % 2 ^ 64,
                trace := σ.trace ++ [Event.stamped ((σ.requestCounter + 1) % 2 ^ 64)] ++
                  [Event.selected (GetAttemptsFromContext r) (some p)] ++
                  [Event.forward p
                    { r with requestID := some (toString ((σ.requestCounter + 1) % 2 ^ 64)) }] ++
                  [Event.marked b.URL] }
              { attempts := some (GetAttemptsFromContext r + 1), retry := r.retry,
                requestID := some (toString ((σ.requestCounter + 1) % 2 ^ 64)) }
              (by show 1 ≤ GetAttemptsFromContext r + 1; omega)
              (by show 3 ≤ GetRetryFromContext r; exact hρ)
              (by show 4 - (GetAttemptsFromContext r + 1) ≤ (k : Int); omega)
              (by omega)
            refine ⟨resp, σ', hrun, ?_, ?_, ?_⟩
            · simp only [forwardCount_append, forwardCount_stamped, forwardCount_selected,
                forwardCount_forward, forwardCount_marked] at hcount
              omega
            · rw [hlen]
              show (pool.MarkBackendStatus b.URL false).backends.length = _
              rw [ServerPool.MarkBackendStatus_length, hb]
            · rcases hresp with h | h | ⟨_, h0⟩
              · exact Or.inl h
              · exact Or.inr (Or.inl h)
              · exfalso
                apply hN
                rw [← hb, ← ServerPool.MarkBackendStatus_length pool b.URL false]
                exact h0

/-- The retry stage.  A forward made with `Retry = ρ`, `0 ≤ ρ`, `3 - ρ ≤ d`,
and attempts `α`, `1 ≤ α ≤ 3`, `3 - α ≤ k`, is answered after at most
`(d + 1) + k` forwards, this one included, given fuel `2 * (d + 1) + 3 * k + 1`. -/
theorem ServeHTTP_retry_bound (net : Transport) :
    ∀ (d k fuel peer : Nat) (serverUrl : String) (σ : State) (r : Request),
    1 ≤ GetAttemptsFromContext r → GetAttemptsFromContext r ≤ 3 →
    0 ≤ GetRetryFromContext r → 3 - GetRetryFromContext r ≤ (d : Int) →
    3 - GetAttemptsFromContext r ≤ (k : Int) → 2 * (d + 1) + 3 * k + 1 ≤ fuel →
    ∃ resp σ', ServeHTTP net fuel peer serverUrl σ r = some (resp, σ') ∧
      forwardCount σ'.trace ≤ forwardCount σ.trace + (d + 1) + k ∧
      σ'.serverPool.backends.length = σ.serverPool.backends.length ∧
      (resp = Response.error "Service not available" StatusServiceUnavailable ∨
        (∃ p n, resp = Response.proxied p ∧ net n p = true) ∨
        (resp = Response.panicked ∧ σ.serverPool.backends.length = 0)) := by
  intro d
  induction d with
  | zero =>
    intro k fuel peer serverUrl σ r hα hα3 _ hd hk hfuel
    obtain ⟨f, rfl⟩ : ∃ f, fuel = f + 2 := ⟨fuel - 2, by omega⟩
    rw [ServeHTTP_succ]
    by_cases hnet : net (forwardCount σ.trace) peer = true
    · rw [if_pos hnet]
      refine ⟨_, _, rfl, ?_, rfl, Or.inr (Or.inl ⟨peer, _, rfl, hnet⟩)⟩
      simp only [forwardCount_append, forwardCount_forward]
      omega
    · rw [if_neg hnet, ErrorHandler_succ, if_neg (by omega : ¬ GetRetryFromContext r < 3),
        intAdd_one _ (by omega) (by omega)]
      obtain ⟨resp, σ', hrun, hcount, hlen, hresp⟩ := lb_failover_bound net k f
        { σ with serverPool := σ.serverPool.MarkBackendStatus serverUrl false,
                 trace := σ.trace ++ [Event.forward peer r] ++ [Event.marked serverUrl] }
        { r with attempts := some (GetAttemptsFromContext r + 1) }
        (by show 1 ≤ GetAttemptsFromContext r + 1; omega)
        (by show 3 ≤ GetRetryFromContext r; omega)
        (by show 4 - (GetAttemptsFromContext r + 1) ≤ (k : Int); omega)
        (by omega)
      refine ⟨resp, σ', hrun, ?_, ?_, ?_⟩
      · simp only [forwardCount_append, forwardCount_forward, forwardCount_marked] at hcount
        omega
      · rw [hlen]
        exact ServerPool.MarkBackendStatus_length _ _ _
      · rcases hresp with h | h | ⟨h, h0⟩
        · exact Or.inl h
        · exact Or.inr (Or.inl h)
        · refine Or.inr (Or.inr ⟨h, ?_⟩)
          rw [← ServerPool.MarkBackendStatus_length σ.serverPool serverUrl false]
          exact h0
  | succ d ih =>
    intro k fuel peer serverUrl σ r hα hα3 hρ0 hd hk hfuel
    obtain ⟨f, rfl⟩ : ∃ f, fuel = f + 2 := ⟨fuel - 2, by omega⟩
    rw [ServeHTTP_succ]
    by_cases hnet : net (forwardCount σ.trace) peer = true
    · rw [if_pos hnet]
      refine ⟨_, _, rfl, ?_, rfl, Or.inr (Or.inl ⟨peer, _, rfl, hnet⟩)⟩
      simp only [forwardCount_append, forwardCount_forward]
      omega
    · rw [if_neg hnet, ErrorHandler_succ]
      by_cases hρ : GetRetryFromContext r < 3
      · rw [if_pos hρ, intAdd_one _ (by omega) (by omega)]
        obtain ⟨resp, σ', hrun, hcount, hlen, hresp⟩ := ih k f peer serverUrl
          { σ with trace := σ.trace ++ [Event.forward peer r] }
          { r with retry := some (GetRetryFromContext r + 1) }
          (by show 1 ≤ GetAttemptsFromContext r; exact hα)
          (by show GetAttemptsFromContext r ≤ 3; exact hα3)
          (by show 0 ≤ GetRetryFromContext r + 1; omega)
          (by show 3 - (GetRetryFromContext r + 1) ≤ (d : Int); omega)
          (by show 3 - GetAttemptsFromContext r ≤ (k : Int); exact hk)
          (by omega)
        refine ⟨resp, σ', hrun, ?_, hlen, hresp⟩
        simp only [forwardCount_append, forwardCount_forward] at hcount
        omega
      · rw [if_neg hρ, intAdd_one _ (by omega) (by omega)]
        obtain ⟨resp, σ', hrun, hcount, hlen, hresp⟩ := lb_failover_bound net k f
          { σ with serverPool := σ.serverPool.MarkBackendStatus serverUrl false,
                   trace := σ.trace ++ [Event.forward peer r] ++ [Event.marked serverUrl] }
          { r with attempts := some (GetAttemptsFromContext r + 1) }
          (by show 1 ≤ GetAttemptsFromContext r + 1; omega)
          (by show 3 ≤ GetRetryFromContext r; omega)
          (by show 4 - (GetAttemptsFromContext r + 1) ≤ (k : Int); omega)
          (by omega)
        refine ⟨resp, σ', hrun, ?_, ?_, ?_⟩
        · simp only [forwardCount_append, forwardCount_forward, forwardCount_marked] at hcount
          omega
        · rw [hlen]
          exact ServerPool.MarkBackendStatus_length _ _ _
        · rcases hresp with h | h | ⟨h, h0⟩
          · exact Or.inl h
          · exact Or.inr (Or.inl h)
          · refine Or.inr (Or.inr ⟨h, ?_⟩)
            rw [← ServerPool.MarkBackendStatus_length σ.serverPool serverUrl false]
            exact h0

/-- Every request whose context holds attempts `≥ 1` and retries `≥ 0` (a
fresh request, or one re-entered by the error handler) is answered by `lb`
within recursion depth 16, after at most 6 forwards. -/
theorem lb_run_bound (net : Transport) (fuel : Nat) (σ : State) (r : Request)
    (hα : 1 ≤ GetAttemptsFromContext r) (hρ : 0 ≤ GetRetryFromContext r) (hfuel : 16 ≤ fuel) :
    ∃ resp σ', lb net fuel σ r = some (resp, σ') ∧
      forwardCount σ'.trace ≤ forwardCount σ.trace + 6 ∧
      σ'.serverPool.backends.length = σ.serverPool.backends.length ∧
      (resp = Response.error "Service not available" StatusServiceUnavailable ∨
        (∃ p n, resp = Response.proxied p ∧ net n p = true) ∨
        (resp = Response.panicked ∧ σ.serverPool.backends.length = 0)) := by
  obtain ⟨f, rfl⟩ : ∃ f, fuel = f + 1 := ⟨fuel - 1, by omega⟩
  by_cases hgt : GetAttemptsFromContext r > 3
  · rw [lb_succ, if_pos hgt]
    exact ⟨_, _, rfl, Nat.le_add_right _ _, rfl, Or.inl rfl⟩
  · rw [lb_succ, if_neg hgt]
    rcases hg : σ.serverPool.GetNextPeer with ⟨x, pool⟩
    have hb : pool.backends = σ.serverPool.backends := by
      have := ServerPool.GetNextPeer_backends σ.serverPool
      rw [hg] at this
      exact this
    by_cases hN : σ.serverPool.backends.length = 0
    · have hpanic : σ.serverPool.GetNextPeer.1 = none := by
        simp [ServerPool.GetNextPeer, ServerPool.NextIndex, hN]
      rw [hg] at hpanic
      have hx : x = none := hpanic
      subst hx
      refine ⟨_, _, rfl, ?_, by simp [hb], Or.inr (Or.inr ⟨rfl, hN⟩)⟩
      simp only [forwardCount_append, forwardCount_stamped]
      omega
    · obtain ⟨_, hx | ⟨p, b, hx, hpb, _⟩⟩ :=
        ServerPool.GetNextPeer_ok σ.serverPool (Nat.pos_of_ne_zero hN) x pool hg
      · subst hx
        refine ⟨_, _, rfl, ?_, by simp [hb], Or.inl rfl⟩
        simp only [forwardCount_append, forwardCount_stamped, forwardCount_selected]
        omega
      · subst hx
        simp only [hpb]
        obtain ⟨resp, σ', hrun, hcount, hlen, hresp⟩ := ServeHTTP_retry_bound net 3 2 f p b.URL
          { serverPool := pool, requestCounter := (σ.requestCounter + 1) % 2 ^ 64,
            trace := σ.trace ++ [Event.stamped ((σ.requestCounter + 1) % 2 ^ 64)] ++
              [Event.selected (GetAttemptsFromContext r) (some p)] }
          { r with requestID := some (toString ((σ.requestCounter + 1) % 2 ^ 64)) }
          (by show 1 ≤ GetAttemptsFromContext r; exact hα)
          (by show GetAttemptsFromContext r ≤ 3; omega)
          (by show 0 ≤ GetRetryFromContext r; exact hρ)
          (by show 3 - GetRetryFromContext r ≤ ((3 : Nat) : Int); omega)
          (by show 3 - GetAttemptsFromContext r ≤ ((2 : Nat) : Int); omega)
          (by omega)
        refine ⟨resp, σ', hrun, ?_, ?_, ?_⟩
        · simp only [forwardCount_append, forwardCount_stamped, forwardCount_selected] at hcount
          omega
        · rw [hlen]
          show pool.backends.length = _
          rw [hb]
        · rcases hresp with h | h | ⟨_, h0⟩
          · exact Or.inl h
          · exact Or.inr (Or.inl h)
          · exfalso
            apply hN
            rw [← hb]
            exact h0

/-- Every event a run records is appended to the trace it started from, and
`ReverseProxy.ServeHTTP` records its forward first. -/
theorem trace_extends (net : Transport) : ∀ fuel : Nat,
    (∀ σ r resp σ', lb net fuel σ r = some (resp, σ') → σ.trace <+: σ'.trace) ∧
    (∀ p u σ r resp σ', ServeHTTP net fuel p u σ r = some (resp, σ') →
      (σ.trace ++ [Event.forward p r]) <+: σ'.trace) ∧
    (∀ p u σ r resp σ', ErrorHandler net fuel p u σ r = some (resp, σ') →
      σ.trace <+: σ'.trace) := by
  intro fuel
  induction fuel with
  | zero =>
    refine ⟨?_, ?_, ?_⟩
    · intro σ r resp σ' h; simp [lb] at h
    · intro p u σ r resp σ' h; simp [ServeHTTP] at h
    · intro p u σ r resp σ' h; simp [ErrorHandler] at h
  | succ fuel ih =>
    obtain ⟨ihlb, ihserve, iheh⟩ := ih
    refine ⟨?_, ?_, ?_⟩
    · intro σ r resp σ' h
      rw [lb_succ] at h
      split at h
      · cases h; exact List.prefix_refl _
      · split at h
        · cases h; exact List.prefix_append _ _
        · cases h; exact (List.prefix_append _ _).trans (List.prefix_append _ _)
        · split at h
          · exact ((List.prefix_append _ _).trans (List.prefix_append _ _)).trans
              ((List.prefix_append _ _).trans (ihserve _ _ _ _ _ _ h))
          · cases h; exact (List.prefix_append _ _).trans (List.prefix_append _ _)
    · intro p u σ r resp σ' h
      rw [ServeHTTP_succ] at h
      split at h
      · cases h; exact List.prefix_refl _
      · exact iheh _ _ _ _ _ _ h
    · intro p u σ r resp σ' h
      rw [ErrorHandler_succ] at h
      split at h
      · exact (List.prefix_append _ _).trans (ihserve _ _ _ _ _ _ h)
      · exact (List.prefix_append _ _).trans (ihlb _ _ _ _ h)

theorem forwardCount_mono {a b : List Event} (h : a <+: b) : forwardCount a ≤ forwardCount b := by
  obtain ⟨t, rfl⟩ := h
  rw [forwardCount_append]
  exact Nat.le_add_right _ _

/-! ## The request router: retry and failover -/

/-- C3: on a registry with at least one backend, a fresh request all of
whose forwards fail is answered: with recursion depth 16 or more the mutual
recursion of `lb`, `ReverseProxy.ServeHTTP` and the error handler returns,
the response is 503 "Service not available", and the run made at most
3 x 3 = 9 forwards. -/
theorem lb_all_forwards_fail (net : Transport) (fuel : Nat) (σ : State)
    (hN : 1 ≤ σ.serverPool.backends.length) (hfail : ∀ n p, net n p = false)
    (hfuel : 16 ≤ fuel) :
    ∃ σ', lb net fuel σ Request.fresh = some (Response.error "Service not available" 503, σ') ∧
      forwardCount σ'.trace ≤ forwardCount σ.trace + 3 * 3 := by
  obtain ⟨resp, σ', hrun, hcount, _, hresp⟩ :=
    lb_run_bound net fuel σ Request.fresh (by decide) (by decide) hfuel
  rcases hresp with h | ⟨p, n, _, h⟩ | ⟨_, h0⟩
  · subst h
    exact ⟨σ', hrun, by omega⟩
  · rw [hfail n p] at h; simp at h
  · omega

/-- C3 at two configured backends right after start-up. -/
theorem lb_all_forwards_fail_witness :
    ∃ σ', lb allFail 16 twoBackends Request.fresh =
        some (Response.error "Service not available" 503, σ') ∧
      forwardCount σ'.trace ≤ forwardCount twoBackends.trace + 3 * 3 :=
  lb_all_forwards_fail allFail 16 twoBackends (by decide) (fun _ _ => rfl) (by decide)

/-- C5: a fresh request for which `GetNextPeer` selects backend `p`, whose
first three forwards fail and whose fourth forward (the third retry)
succeeds, is answered by backend `p`: with recursion depth 8 or more `lb`
returns the proxied response of `p`; the run consists of one stamp, one peer
selection and four forwards, all to `p`, with retries absent, 1, 2 and 3; no
`MarkBackendStatus` call is made and the registry is the one `GetNextPeer`
left, with every liveness flag as before. -/
theorem lb_three_failures_then_success (net : Transport) (fuel : Nat) (σ : State) (p : Nat)
    (pool : ServerPool) (hsel : σ.serverPool.GetNextPeer = (some (some p), pool))
    (hfail : ∀ n, n < 3 → net (forwardCount σ.trace + n) p = false)
    (hok : net (forwardCount σ.trace + 3) p = true) (hfuel : 8 ≤ fuel) :
    lb net fuel σ Request.fresh =
      some (Response.proxied p,
        { serverPool := pool,
          requestCounter := (σ.requestCounter + 1) % 2 ^ 64,
          trace := σ.trace ++
            [Event.stamped ((σ.requestCounter + 1) % 2 ^ 64),
             Event.selected 1 (some p),
             Event.forward p
               { attempts := none, retry := none,
                 requestID := some (toString ((σ.requestCounter + 1) % 2 ^ 64)) },
             Event.forward p
               { attempts := none, retry := some 1,
                 requestID := some (toString ((σ.requestCounter + 1) % 2 ^ 64)) },
             Event.forward p
               { attempts := none, retry := some 2,
                 requestID := some (toString ((σ.requestCounter + 1) % 2 ^ 64)) },
             Event.forward p
               { attempts := none, retry := some 3,
                 requestID := some (toString ((σ.requestCounter + 1) % 2 ^ 64)) }] }) ∧
      pool.backends = σ.serverPool.backends ∧
      σ.serverPool.aliveAt p = true := by
  have hN : 0 < σ.serverPool.backends.length := by
    by_contra h0
    have hpanic : σ.serverPool.GetNextPeer.1 = none := by
      simp [ServerPool.GetNextPeer, ServerPool.NextIndex, Nat.eq_zero_of_not_pos h0]
    rw [hsel] at hpanic
    simp at hpanic
  obtain ⟨hb, hx | ⟨q, b, hx, hpb, halive⟩⟩ :=
    ServerPool.GetNextPeer_ok σ.serverPool hN _ pool hsel
  · simp at hx
  · have hq : q = p := (Option.some.inj (Option.some.inj hx)).symm
    subst hq
    refine ⟨?_, hb, halive⟩
    obtain ⟨f, rfl⟩ : ∃ f, fuel = f + 8 := ⟨fuel - 8, by omega⟩
    have h0 := hfail 0 (by decide)
    have h1 := hfail 1 (by decide)
    have h2 := hfail 2 (by decide)
    rw [Nat.add_zero] at h0
    have hgt : ¬ GetAttemptsFromContext Request.fresh > 3 := by decide
    have e1 : intAdd 0 1 = 1 := by decide
    have e2 : intAdd 1 1 = 2 := by decide
    have e3 : intAdd 2 1 = 3 := by decide
    have l0 : (0 : Int) < 3 := by decide
    have l1 : (1 : Int) < 3 := by decide
    have l2 : (2 : Int) < 3 := by decide
    rw [lb_succ, if_neg hgt]
    simp only [hsel, hpb, Request.fresh, ServeHTTP_succ, ErrorHandler_succ,
      GetRetryFromContext_none, GetRetryFromContext_some, GetAttemptsFromContext_none,
      forwardCount_append, forwardCount_nil, forwardCount_cons_forward,
      forwardCount_cons_stamped, forwardCount_cons_selected, Nat.zero_add,
      Nat.add_zero, Nat.add_assoc, Nat.reduceAdd, h0, h1, h2, hok,
      e1, e2, e3, l0, l1, l2, Bool.false_eq_true, if_false, if_true,
      List.append_assoc, List.singleton_append, List.cons_append, List.nil_append]

/-- C5 at two configured backends right after start-up: backend 1 is
selected and answers on its fourth forward. -/
theorem lb_three_failures_then_success_witness :
    lb failThrice 8 twoBackends Request.fresh =
      some (Response.proxied 1,
        { serverPool := twoBackends.serverPool.GetNextPeer.2,
          requestCounter := (twoBackends.requestCounter + 1) % 2 ^ 64,
          trace := twoBackends.trace ++
            [Event.stamped ((twoBackends.requestCounter + 1) % 2 ^ 64),
             Event.selected 1 (some 1),
             Event.forward 1
               { attempts := none, retry := none,
                 requestID := some (toString ((twoBackends.requestCounter + 1) % 2 ^ 64)) },
             Event.forward 1
               { attempts := none, retry := some 1,
                 requestID := some (toString ((twoBackends.requestCounter + 1) % 2 ^ 64)) },
             Event.forward 1
               { attempts := none, retry := some 2,
                 requestID := some (toString ((twoBackends.requestCounter + 1) % 2 ^ 64)) },
             Event.forward 1
               { attempts := none, retry := some 3,
                 requestID := some (toString ((twoBackends.requestCounter + 1) % 2 ^ 64)) }] }) ∧
      twoBackends.serverPool.GetNextPeer.2.backends = twoBackends.serverPool.backends ∧
      twoBackends.serverPool.aliveAt 1 = true :=
  lb_three_failures_then_success failThrice 8 twoBackends 1 twoBackends.serverPool.GetNextPeer.2
    (by decide) (by decide) (by decide) (by decide)

/-! ## The request router: one invocation of lb -/

/-- C6: one invocation of `lb`.  With attempts above 3 it answers 503
"Service not available" and touches nothing: no `GetNextPeer` call, no stamp.
With attempts at most 3 and no peer returned it answers 503 after the stamp
and the one `GetNextPeer` call, without a forward.  With a peer returned it
hands the request to that peer's `ReverseProxy.ServeHTTP`, whose outcome is
the outcome of `lb`, and a forward to that peer is recorded next.  Hence an
invocation that returns has answered 503 without any forward exactly when
attempts exceed 3 or no peer was returned; and an invocation returns
whenever attempts are at least 1, retries at least 0 and the depth is 16.
The attempts value is 1 when the context holds none. -/
theorem lb_single_invocation (net : Transport) (fuel : Nat) (σ : State) (r : Request) :
    (r.attempts = none → GetAttemptsFromContext r = 1) ∧
    (GetAttemptsFromContext r > 3 →
      lb net (fuel + 1) σ r = some (Response.error "Service not available" 503, σ)) ∧
    (GetAttemptsFromContext r ≤ 3 → ∀ pool, σ.serverPool.GetNextPeer = (some none, pool) →
      lb net (fuel + 1) σ r =
        some (Response.error "Service not available" 503,
          { serverPool := pool, requestCounter := (σ.requestCounter + 1) % 2 ^ 64,
            trace := σ.trace ++ [Event.stamped ((σ.requestCounter + 1) % 2 ^ 64)] ++
              [Event.selected (GetAttemptsFromContext r) none] })) ∧
    (GetAttemptsFromContext r ≤ 3 → ∀ p pool,
      σ.serverPool.GetNextPeer = (some (some p), pool) →
      ∃ b, pool.backends[p]? = some b ∧
        lb net (fuel + 1) σ r =
          ServeHTTP net fuel p b.URL
            { serverPool := pool, requestCounter := (σ.requestCounter + 1) % 2 ^ 64,
              trace := σ.trace ++ [Event.stamped ((σ.requestCounter + 1) % 2 ^ 64)] ++
                [Event.selected (GetAttemptsFromContext r) (some p)] }
            { r with requestID := some (toString ((σ.requestCounter + 1) % 2 ^ 64)) } ∧
        ∀ resp σ', lb net (fuel + 1) σ r = some (resp, σ') →
          (σ.trace ++ [Event.stamped ((σ.requestCounter + 1) % 2 ^ 64)] ++
            [Event.selected (GetAttemptsFromContext r) (some p)] ++
            [Event.forward p
              { r with requestID := some (toString ((σ.requestCounter + 1) % 2 ^ 64)) }])
            <+: σ'.trace) ∧
    (∀ resp σ', lb net (fuel + 1) σ r = some (resp, σ') →
      ((resp = Response.error "Service not available" 503 ∧
          forwardCount σ'.trace = forwardCount σ.trace) ↔
        (GetAttemptsFromContext r > 3 ∨
          (GetAttemptsFromContext r ≤ 3 ∧ σ.serverPool.GetNextPeer.1 = some none)))) ∧
    (1 ≤ GetAttemptsFromContext r → 0 ≤ GetRetryFromContext r → 15 ≤ fuel →
      (lb net (fuel + 1) σ r).isSome = true) := by
  have hreject : GetAttemptsFromContext r > 3 →
      lb net (fuel + 1) σ r = some (Response.error "Service not available" 503, σ) := by
    intro hgt
    rw [lb_succ, if_pos hgt]
    rfl
  have hnone : GetAttemptsFromContext r ≤ 3 → ∀ pool,
      σ.serverPool.GetNextPeer = (some none, pool) →
      lb net (fuel + 1) σ r =
        some (Response.error "Service not available" 503,
          { serverPool := pool, requestCounter := (σ.requestCounter + 1) % 2 ^ 64,
            trace := σ.trace ++ [Event.stamped ((σ.requestCounter + 1) % 2 ^ 64)] ++
              [Event.selected (GetAttemptsFromContext r) none] }) := by
    intro hle pool hsel
    rw [lb_succ, if_neg (by omega)]
    simp only [hsel]
    rfl
  have hpeer : GetAttemptsFromContext r ≤ 3 → ∀ p pool,
      σ.serverPool.GetNextPeer = (some (some p), pool) →
      ∃ b, pool.backends[p]? = some b ∧
        lb net (fuel + 1) σ r =
          ServeHTTP net fuel p b.URL
            { serverPool := pool, requestCounter := (σ.requestCounter + 1) % 2 ^ 64,
              trace := σ.trace ++ [Event.stamped ((σ.requestCounter + 1) % 2 ^ 64)] ++
                [Event.selected (GetAttemptsFromContext r) (some p)] }
            { r with requestID := some (toString ((σ.requestCounter + 1) % 2 ^ 64)) } := by
    intro hle p pool hsel
    have hN : 0 < σ.serverPool.backends.length := by
      by_contra h0
      have hpanic : σ.serverPool.GetNextPeer.1 = none := by
        simp [ServerPool.GetNextPeer, ServerPool.NextIndex, Nat.eq_zero_of_not_pos h0]
      rw [hsel] at hpanic
      simp at hpanic
    obtain ⟨_, hx | ⟨q, b, hx, hpb, _⟩⟩ := ServerPool.GetNextPeer_ok σ.serverPool hN _ pool hsel
    · simp at hx
    · have hq : q = p := (Option.some.inj (Option.some.inj hx)).symm
      subst hq
      refine ⟨b, hpb, ?_⟩
      rw [lb_succ, if_neg (by omega)]
      simp only [hsel, hpb]
  refine ⟨fun h => by simp [GetAttemptsFromContext, h], hreject, hnone, ?_, ?_, ?_⟩
  · intro hle p pool hsel
    obtain ⟨b, hpb, hrun⟩ := hpeer hle p pool hsel
    refine ⟨b, hpb, hrun, fun resp σ' hret => ?_⟩
    rw [hrun] at hret
    exact (trace_extends net fuel).2.1 _ _ _ _ _ _ hret
  · intro resp σ' hret
    constructor
    · rintro ⟨hresp, hcount⟩
      by_cases hgt : GetAttemptsFromContext r > 3
      · exact Or.inl hgt
      · right
        refine ⟨by omega, ?_⟩
        rcases hg : σ.serverPool.GetNextPeer with ⟨x, pool⟩
        rcases x with _ | _ | p
        · rw [lb_succ, if_neg hgt] at hret
          simp only [hg] at hret
          rw [hresp] at hret
          simp at hret
        · rfl
        · exfalso
          obtain ⟨b, _, hrun⟩ := hpeer (by omega) p pool hg
          rw [hrun] at hret
          have hpre := forwardCount_mono ((trace_extends net fuel).2.1 _ _ _ _ _ _ hret)
          simp only [forwardCount_append, forwardCount_stamped, forwardCount_selected,
            forwardCount_forward] at hpre
          omega
    · rintro (hgt | ⟨hle, hsel⟩)
      · rw [hreject hgt] at hret
        cases hret
        exact ⟨rfl, rfl⟩
      · rcases hg : σ.serverPool.GetNextPeer with ⟨x, pool⟩
        rw [hg] at hsel
        have hx : x = some none := hsel
        subst hx
        rw [hnone hle pool hg] at hret
        cases hret
        refine ⟨rfl, ?_⟩
        simp only [forwardCount_append, forwardCount_stamped, forwardCount_selected]
        omega
  · intro hα hρ hfuel
    obtain ⟨resp, σ', hrun, _⟩ := lb_run_bound net (fuel + 1) σ r hα hρ (by omega)
    rw [hrun]
    rfl

/-! ## The request router: the retries value across a failover -/

/-- C4, evaluated on two alive backends with distinct addresses, a fresh
request and a transport on which every forward fails.  The first selected
backend (index 1) is forwarded to four times, with retries absent, 1, 2 and
3, and is then marked down.  The backend selected after the failover
(index 0) is forwarded to once, with `Retry` still 3 in the context, and is
marked down on that first failure: it is never retried. -/
theorem lb_failover_backend_not_retried :
    (lb allFail 16 twoBackends Request.fresh).map (fun x => (x.1, x.2.trace)) =
      some (Response.error "Service not available" 503,
        [Event.stamped 1,
         Event.selected 1 (some 1),
         Event.forward 1 { attempts := none, retry := none, requestID := some "1" },
         Event.forward 1 { attempts := none, retry := some 1, requestID := some "1" },
         Event.forward 1 { attempts := none, retry := some 2, requestID := some "1" },
         Event.forward 1 { attempts := none, retry := some 3, requestID := some "1" },
         Event.marked "http://b",
         Event.stamped 2,
         Event.selected 2 (some 0),
         Event.forward 0 { attempts := some 2, retry := some 3, requestID := some "2" },
         Event.marked "http://a",
         Event.stamped 3,
         Event.selected 3 none]) := by
  decide!

/-! ## The empty registry -/

theorem ServerPool.GetNextPeer_empty (s : ServerPool) (h : s.backends.length = 0) :
    s.GetNextPeer = (none, { s with current := (s.current + 1) % 2 ^ 64 }) := by
  simp [ServerPool.GetNextPeer, ServerPool.NextIndex, h]

theorem ServerPool.configuredPool_length (urls : List String) :
    (configuredPool urls).backends.length = urls.length := by
  simp [configuredPool]

/-- C11, as stated, fails: on the empty registry `NextIndex` increments the
cursor and then panics on the modulo by zero, so `GetNextPeer` does not return
nil; it does not return at all. -/
theorem ServerPool.GetNextPeer_empty_counterexample :
    (emptyPool 0).backends.length = 0 ∧
    (emptyPool 0).NextIndex = (none, emptyPool 1) ∧
    (emptyPool 0).GetNextPeer = (none, emptyPool 1) ∧
    (emptyPool 0).GetNextPeer.1 ≠ some none := by
  decide

/-- C11, amended: on an empty registry every `GetNextPeer` call increments
the cursor and then faults in `NextIndex` on the modulo by zero, instead of
returning nil; on a registry with `N ≥ 1` no call faults; and the registry
`main` builds has one backend per configured address, so it is empty only
when no address is configured, which `main` refuses. -/
theorem ServerPool.GetNextPeer_faults_iff_empty (s : ServerPool) :
    (s.backends.length = 0 →
      s.NextIndex = (none, { s with current := (s.current + 1) % 2 ^ 64 }) ∧
      s.GetNextPeer = (none, { s with current := (s.current + 1) % 2 ^ 64 }) ∧
      ∀ n, s.nthCall n = none) ∧
    (1 ≤ s.backends.length → ∀ n, s.nthCall n ≠ none) ∧
    (s.GetNextPeer.1 = none ↔ s.backends.length = 0) ∧
    (∀ urls : List String, (configuredPool urls).backends.length = urls.length) := by
  have hfault : ∀ t : ServerPool, t.backends.length = 0 → t.GetNextPeer.1 = none := by
    intro t ht
    rw [ServerPool.GetNextPeer_empty t ht]
  have hok : ∀ t : ServerPool, 1 ≤ t.backends.length → t.GetNextPeer.1 ≠ none := by
    intro t ht hnone
    rcases ServerPool.GetNextPeer_cases t ht with ⟨hret, _⟩ | ⟨j, _, _, _, hret⟩
    · rw [hret] at hnone; simp at hnone
    · rw [hret] at hnone; simp at hnone
  refine ⟨?_, ?_, ?_, ServerPool.configuredPool_length⟩
  · intro h
    refine ⟨by simp [ServerPool.NextIndex, h], ServerPool.GetNextPeer_empty s h, fun n => ?_⟩
    apply hfault
    rw [ServerPool.afterCalls_backends]
    exact h
  · intro h n
    apply hok
    rw [ServerPool.afterCalls_backends]
    exact h
  · constructor
    · intro hnone
      by_contra hne
      exact hok s (Nat.pos_of_ne_zero hne) hnone
    · exact hfault s

/-! ## Peer selection: the scan -/

theorem range_map_shift (N i n : Nat) :
    (i % N) :: (List.range n).map (fun j => (i + 1 + j) % N) =
      (List.range (n + 1)).map (fun j => (i + j) % N) := by
  rw [List.range_succ_eq_map, List.map_cons, List.map_map]
  congr 1
  apply List.map_congr_left
  intro j _
  show (i + 1 + j) % N = (i + (j + 1)) % N
  congr 1
  omega

/-- The lookups of a scan in which the first `n` candidates are all dead. -/
theorem ServerPool.GetNextPeer.examined_dead (s : ServerPool)
    (hN : 0 < s.backends.length) : ∀ n i,
    (∀ j, j < n → s.aliveAt ((i + j) % s.backends.length) = false) →
    ServerPool.GetNextPeer.examined s n i =
      (List.range n).map (fun j => (i + j) % s.backends.length) := by
  intro n
  induction n with
  | zero => intro i _; rfl
  | succ n ih =>
    intro i hdead
    have hidx : i % s.backends.length < s.backends.length := Nat.mod_lt _ hN
    have hget : s.backends[i % s.backends.length]? = some (s.backends[i % s.backends.length]) :=
      List.getElem?_eq_getElem hidx
    have h0 : s.aliveAt ((i + 0) % s.backends.length) = false := hdead 0 (Nat.succ_pos n)
    have hb : (s.backends[i % s.backends.length]).IsAlive = false := by
      simpa [ServerPool.aliveAt, hget] using h0
    have hrest : ∀ j, j < n → s.aliveAt ((i + 1 + j) % s.backends.length) = false := by
      intro j hj
      have := hdead (j + 1) (by omega)
      rwa [show i + (j + 1) = i + 1 + j by omega] at this
    rw [← range_map_shift, ← ih (i + 1) hrest]
    simp [ServerPool.GetNextPeer.examined, hget, hb]

/-- The lookups of a scan whose first alive candidate is at offset `j`. -/
theorem ServerPool.GetNextPeer.examined_alive (s : ServerPool)
    (hN : 0 < s.backends.length) : ∀ j n i, j < n →
    s.aliveAt ((i + j) % s.backends.length) = true →
    (∀ k, k < j → s.aliveAt ((i + k) % s.backends.length) = false) →
    ServerPool.GetNextPeer.examined s n i =
      (List.range (j + 1)).map (fun k => (i + k) % s.backends.length) := by
  intro j
  induction j with
  | zero =>
    intro n i hn halive _
    obtain ⟨m, rfl⟩ : ∃ m, n = m + 1 := ⟨n - 1, by omega⟩
    have hidx : i % s.backends.length < s.backends.length := Nat.mod_lt _ hN
    have hget : s.backends[i % s.backends.length]? = some (s.backends[i % s.backends.length]) :=
      List.getElem?_eq_getElem hidx
    have hb : (s.backends[i % s.backends.length]).IsAlive = true := by
      simpa [ServerPool.aliveAt, hget] using halive
    simp [ServerPool.GetNextPeer.examined, hget, hb, List.range_succ]
  | succ j ih =>
    intro n i hn halive hdead
    obtain ⟨m, rfl⟩ : ∃ m, n = m + 1 := ⟨n - 1, by omega⟩
    have hidx : i % s.backends.length < s.backends.length := Nat.mod_lt _ hN
    have hget : s.backends[i % s.backends.length]? = some (s.backends[i % s.backends.length]) :=
      List.getElem?_eq_getElem hidx
    have h0 : s.aliveAt ((i + 0) % s.backends.length) = false := hdead 0 (Nat.succ_pos j)
    have hb : (s.backends[i % s.backends.length]).IsAlive = false := by
      simpa [ServerPool.aliveAt, hget] using h0
    have halive' : s.aliveAt ((i + 1 + j) % s.backends.length) = true := by
      rwa [show i + (j + 1) = i + 1 + j by omega] at halive
    have hdead' : ∀ k, k < j → s.aliveAt ((i + 1 + k) % s.backends.length) = false := by
      intro k hk
      have := hdead (k + 1) (by omega)
      rwa [show i + (k + 1) = i + 1 + k by omega] at this
    rw [← range_map_shift, ← ih m (i + 1) (by omega) halive' hdead']
    simp [ServerPool.GetNextPeer.examined, hget, hb]

theorem ServerPool.examined_pos (s : ServerPool) (hN : 0 < s.backends.length) :
    s.examined =
      ServerPool.GetNextPeer.examined { s with current := (s.current + 1) % 2 ^ 64 }
        s.backends.length ((s.current + 1) % 2 ^ 64 % s.backends.length) := by
  unfold ServerPool.examined
  rw [ServerPool.NextIndex_pos s hN]
  simp

/-- The candidates of a scan are pairwise distinct and are all the indices
of the registry. -/
theorem ServerPool.candidates_nodup (s : ServerPool) (start : Nat) :
    (s.candidates start).Nodup := by
  unfold ServerPool.candidates
  rw [List.nodup_map_iff_inj_on (List.nodup_range _)]
  intro j hj k hk h
  exact offset_inj _ start j k (List.mem_range.mp hj) (List.mem_range.mp hk) h

theorem ServerPool.mem_candidates (s : ServerPool) (start idx : Nat) :
    idx ∈ s.candidates start ↔ idx < s.backends.length := by
  unfold ServerPool.candidates
  constructor
  · intro h
    obtain ⟨j, hj, rfl⟩ := List.mem_map.mp h
    exact Nat.mod_lt _ (by have := List.mem_range.mp hj; omega)
  · intro h
    have hN : 0 < s.backends.length := by omega
    obtain ⟨j, hj, hji⟩ := exists_offset s.backends.length (start % s.backends.length) idx
      (Nat.mod_lt _ hN) h
    refine List.mem_map.mpr ⟨j, List.mem_range.mpr hj, ?_⟩
    rw [← hji, Nat.mod_add_mod]

/-- C13: on a registry with `N ≥ 1` and cursor `c`, with
`start = ((c + 1) mod 2^64) mod N`: the `N` candidates `(start + j) mod N`,
`j < N`, are pairwise distinct and are all the indices of the registry;
`GetNextPeer` returns the backend at `(start + j) mod N` for the least
offset `j < N` at which the backend is alive, having looked up exactly the
candidates at offsets `0..j`, each once; and it returns nil only when it has
looked up all `N` candidates and found every one dead. -/
theorem ServerPool.GetNextPeer_first_alive (s : ServerPool) (hN : 1 ≤ s.backends.length) :
    (s.candidates ((s.current + 1) % 2 ^ 64 % s.backends.length)).Nodup ∧
    (∀ idx, idx ∈ s.candidates ((s.current + 1) % 2 ^ 64 % s.backends.length) ↔
      idx < s.backends.length) ∧
    ((s.GetNextPeer.1 = some none ∧
        (∀ j, j < s.backends.length →
          s.aliveAt (((s.current + 1) % 2 ^ 64 % s.backends.length + j) % s.backends.length)
            = false) ∧
        s.examined = s.candidates ((s.current + 1) % 2 ^ 64 % s.backends.length)) ∨
      (∃ j, j < s.backends.length ∧
        s.aliveAt (((s.current + 1) % 2 ^ 64 % s.backends.length + j) % s.backends.length)
          = true ∧
        (∀ k, k < j →
          s.aliveAt (((s.current + 1) % 2 ^ 64 % s.backends.length + k) % s.backends.length)
            = false) ∧
        s.GetNextPeer.1 =
          some (some (((s.current + 1) % 2 ^ 64 % s.backends.length + j) % s.backends.length)) ∧
        s.examined =
          (s.candidates ((s.current + 1) % 2 ^ 64 % s.backends.length)).take (j + 1))) := by
  refine ⟨ServerPool.candidates_nodup s _, ServerPool.mem_candidates s _, ?_⟩
  rcases ServerPool.GetNextPeer_cases s hN with ⟨hret, hall⟩ | ⟨j, hj, halive, hbefore, hret⟩
  · left
    refine ⟨by rw [hret], fun j _ => hall _, ?_⟩
    rw [ServerPool.examined_pos s hN]
    exact ServerPool.GetNextPeer.examined_dead { s with current := (s.current + 1) % 2 ^ 64 }
      hN _ _ (fun j _ => hall _)
  · right
    refine ⟨j, hj, halive, hbefore, by rw [hret], ?_⟩
    rw [ServerPool.examined_pos s hN,
      ServerPool.GetNextPeer.examined_alive { s with current := (s.current + 1) % 2 ^ 64 }
        hN j _ _ hj halive hbefore]
    unfold ServerPool.candidates
    rw [← List.map_take, List.take_range]
    congr 2
    omega

/-- C13 at the registry [dead, alive] with the cursor at 5: the scan starts
at index 0, looks up 0 and 1 and returns backend 1. -/
theorem ServerPool.GetNextPeer_first_alive_witness :
    ((deadThenAlive 5).candidates
        (((deadThenAlive 5).current + 1) % 2 ^ 64 % (deadThenAlive 5).backends.length)).Nodup ∧
    (∀ idx, idx ∈ (deadThenAlive 5).candidates
        (((deadThenAlive 5).current + 1) % 2 ^ 64 % (deadThenAlive 5).backends.length) ↔
      idx < (deadThenAlive 5).backends.length) ∧
    (((deadThenAlive 5).GetNextPeer.1 = some none ∧
        (∀ j, j < (deadThenAlive 5).backends.length →
          (deadThenAlive 5).aliveAt
            ((((deadThenAlive 5).current + 1) % 2 ^ 64 % (deadThenAlive 5).backends.length + j)
              % (deadThenAlive 5).backends.length) = false) ∧
        (deadThenAlive 5).examined = (deadThenAlive 5).candidates
          (((deadThenAlive 5).current + 1) % 2 ^ 64 % (deadThenAlive 5).backends.length)) ∨
      (∃ j, j < (deadThenAlive 5).backends.length ∧
        (deadThenAlive 5).aliveAt
          ((((deadThenAlive 5).current + 1) % 2 ^ 64 % (deadThenAlive 5).backends.length + j)
            % (deadThenAlive 5).backends.length) = true ∧
        (∀ k, k < j →
          (deadThenAlive 5).aliveAt
            ((((deadThenAlive 5).current + 1) % 2 ^ 64 % (deadThenAlive 5).backends.length + k)
              % (deadThenAlive 5).backends.length) = false) ∧
        (deadThenAlive 5).GetNextPeer.1 =
          some (some
            ((((deadThenAlive 5).current + 1) % 2 ^ 64 % (deadThenAlive 5).backends.length + j)
              % (deadThenAlive 5).backends.length)) ∧
        (deadThenAlive 5).examined =
          ((deadThenAlive 5).candidates
            (((deadThenAlive 5).current + 1) % 2 ^ 64
              % (deadThenAlive 5).backends.length)).take (j + 1))) :=
  ServerPool.GetNextPeer_first_alive (deadThenAlive 5) (by decide)

/-- The lookups of one call are a prefix of the candidates of its scan. -/
theorem ServerPool.examined_prefix (s : ServerPool) (hN : 0 < s.backends.length) :
    s.examined <+: s.candidates ((s.current + 1) % 2 ^ 64 % s.backends.length) := by
  rcases ServerPool.GetNextPeer_cases s hN with ⟨_, hall⟩ | ⟨j, hj, halive, hbefore, _⟩
  · rw [ServerPool.examined_pos s hN,
      ServerPool.GetNextPeer.examined_dead { s with current := (s.current + 1) % 2 ^ 64 }
        hN _ _ (fun j _ => hall _)]
    exact List.prefix_refl _
  · rw [ServerPool.examined_pos s hN,
      ServerPool.GetNextPeer.examined_alive { s with current := (s.current + 1) % 2 ^ 64 }
        hN j _ _ hj halive hbefore]
    unfold ServerPool.candidates
    have : List.range (j + 1) = (List.range s.backends.length).take (j + 1) := by
      rw [List.take_range]
      congr 1
      omega
    rw [this, List.map_take]
    exact List.take_prefix _ _

/-- C19: on a registry with `N ≥ 1`, whatever the cursor, `NextIndex` returns
an index below `N`; every index `i mod N` with `i` in `[next, next + N)` is
below `N`; every slice index `GetNextPeer` looks up is below `N` and holds a
backend; and `GetNextPeer` does not fault. -/
theorem ServerPool.GetNextPeer_indices_in_range (s : ServerPool)
    (hN : 1 ≤ s.backends.length) :
    (∃ next, s.NextIndex.1 = some next ∧ next < s.backends.length ∧
      (∀ i, next ≤ i → i < next + s.backends.length → i % s.backends.length < s.backends.length) ∧
      s.examined <+: s.candidates next) ∧
    (∀ idx, idx ∈ s.examined →
      idx < s.backends.length ∧ ∃ b, s.backends[idx]? = some b) ∧
    s.GetNextPeer.1 ≠ none := by
  refine ⟨⟨(s.current + 1) % 2 ^ 64 % s.backends.length, by rw [ServerPool.NextIndex_pos s hN],
    Nat.mod_lt _ hN, fun i _ _ => Nat.mod_lt _ hN, ServerPool.examined_prefix s hN⟩, ?_, ?_⟩
  · intro idx hidx
    have hmem := (ServerPool.examined_prefix s hN).subset hidx
    have hlt : idx < s.backends.length := (ServerPool.mem_candidates s _ idx).mp hmem
    exact ⟨hlt, s.backends[idx], List.getElem?_eq_getElem hlt⟩
  · intro hnone
    rcases ServerPool.GetNextPeer_cases s hN with ⟨hret, _⟩ | ⟨j, _, _, _, hret⟩
    · rw [hret] at hnone; simp at hnone
    · rw [hret] at hnone; simp at hnone

/-- C19 at three alive backends with the cursor at `2^64 - 1`. -/
theorem ServerPool.GetNextPeer_indices_in_range_witness :
    (∃ next, (threeAlive (2 ^ 64 - 1)).NextIndex.1 = some next ∧
      next < (threeAlive (2 ^ 64 - 1)).backends.length ∧
      (∀ i, next ≤ i → i < next + (threeAlive (2 ^ 64 - 1)).backends.length →
        i % (threeAlive (2 ^ 64 - 1)).backends.length
          < (threeAlive (2 ^ 64 - 1)).backends.length) ∧
      (threeAlive (2 ^ 64 - 1)).examined <+: (threeAlive (2 ^ 64 - 1)).candidates next) ∧
    (∀ idx, idx ∈ (threeAlive (2 ^ 64 - 1)).examined →
      idx < (threeAlive (2 ^ 64 - 1)).backends.length ∧
      ∃ b, (threeAlive (2 ^ 64 - 1)).backends[idx]? = some b) ∧
    (threeAlive (2 ^ 64 - 1)).GetNextPeer.1 ≠ none :=
  ServerPool.GetNextPeer_indices_in_range (threeAlive (2 ^ 64 - 1)) (by decide)

/-- C14: on a registry with `N ≥ 1` (a slice length, so below `2^63`) and
cursor `c`, with `start = ((c + 1) mod 2^64) mod N`: when the backend at
`start` is alive or no backend is alive the cursor ends as `(c + 1) mod 2^64`;
when the returned backend is at an index other than `start` the cursor ends
as that index; and after every call that returns a backend the cursor modulo
`N` is the index of the returned backend. -/
theorem ServerPool.GetNextPeer_cursor_postcondition (s : ServerPool)
    (hN : 1 ≤ s.backends.length) (hlen : s.backends.length < 2 ^ 63) :
    ((s.aliveAt ((s.current + 1) % 2 ^ 64 % s.backends.length) = true ∨
        ∀ i, s.aliveAt i = false) →
      s.GetNextPeer.2.current = (s.current + 1) % 2 ^ 64) ∧
    (∀ idx, idx ≠ (s.current + 1) % 2 ^ 64 % s.backends.length →
      s.GetNextPeer.1 = some (some idx) → s.GetNextPeer.2.current = idx) ∧
    (∀ idx, s.GetNextPeer.1 = some (some idx) →
      s.GetNextPeer.2.current % s.backends.length = idx) := by
  have hstart : (s.current + 1) % 2 ^ 64 % s.backends.length < s.backends.length :=
    Nat.mod_lt _ hN
  have hother : ∀ idx, idx ≠ (s.current + 1) % 2 ^ 64 % s.backends.length →
      s.GetNextPeer.1 = some (some idx) → s.GetNextPeer.2.current = idx := by
    intro idx hne h
    rcases ServerPool.GetNextPeer_cases s hN with ⟨hret, _⟩ | ⟨j, hj, _, _, hret⟩
    · rw [hret] at h; simp at h
    · rw [hret] at h
      have hidx := Option.some.inj (Option.some.inj h)
      have hj0 : j ≠ 0 := by
        intro h0
        apply hne
        rw [← hidx, h0, Nat.add_zero, Nat.mod_eq_of_lt hstart]
      have hlt : idx < s.backends.length := by
        rw [← hidx]; exact Nat.mod_lt _ hN
      rw [hret, if_pos hj0]
      show _ % 2 ^ 64 = _
      rw [hidx]
      exact Nat.mod_eq_of_lt (by omega)
  refine ⟨?_, hother, ?_⟩
  · rintro (halive | hdead)
    · rw [ServerPool.GetNextPeer_start_alive s hN halive]
    · rcases ServerPool.GetNextPeer_cases s hN with ⟨hret, _⟩ | ⟨j, _, halive, _, _⟩
      · rw [hret]
      · rw [hdead] at halive; simp at halive
  · intro idx h
    by_cases hne : idx = (s.current + 1) % 2 ^ 64 % s.backends.length
    · have halive := ServerPool.GetNextPeer_some_alive s idx h
      rw [hne] at halive
      rw [ServerPool.GetNextPeer_start_alive s hN halive, hne]
    · have hlt : idx < s.backends.length := ServerPool.aliveAt_lt
        (ServerPool.GetNextPeer_some_alive s idx h)
      rw [hother idx hne h]
      exact Nat.mod_eq_of_lt hlt

/-- C14 at the registry [dead, alive] with the cursor at 5. -/
theorem ServerPool.GetNextPeer_cursor_postcondition_witness :
    (((deadThenAlive 5).aliveAt
          (((deadThenAlive 5).current + 1) % 2 ^ 64 % (deadThenAlive 5).backends.length) = true ∨
        ∀ i, (deadThenAlive 5).aliveAt i = false) →
      (deadThenAlive 5).GetNextPeer.2.current = ((deadThenAlive 5).current + 1) % 2 ^ 64) ∧
    (∀ idx,
      idx ≠ ((deadThenAlive 5).current + 1) % 2 ^ 64 % (deadThenAlive 5).backends.length →
      (deadThenAlive 5).GetNextPeer.1 = some (some idx) →
      (deadThenAlive 5).GetNextPeer.2.current = idx) ∧
    (∀ idx, (deadThenAlive 5).GetNextPeer.1 = some (some idx) →
      (deadThenAlive 5).GetNextPeer.2.current % (deadThenAlive 5).backends.length = idx) :=
  ServerPool.GetNextPeer_cursor_postcondition (deadThenAlive 5) (by decide) (by decide)

/-! ## Observations on a trace: lemmas -/

theorem stampedIds_append (a b : List Event) :
    stampedIds (a ++ b) = stampedIds a ++ stampedIds b := by
  induction a with
  | nil => rfl
  | cons e es ih => cases e <;> simp [stampedIds, ih]

theorem selectedAttempts_append (a b : List Event) :
    selectedAttempts (a ++ b) = selectedAttempts a ++ selectedAttempts b := by
  induction a with
  | nil => rfl
  | cons e es ih => cases e <;> simp [selectedAttempts, ih]

theorem selectedPeers_append (a b : List Event) :
    selectedPeers (a ++ b) = selectedPeers a ++ selectedPeers b := by
  induction a with
  | nil => rfl
  | cons e es ih =>
    cases e with
    | selected attempts peer => cases peer <;> simp [selectedPeers, ih]
    | stamped n => simp [selectedPeers, ih]
    | forward p r => simp [selectedPeers, ih]
    | marked u => simp [selectedPeers, ih]

theorem forwardPeers_append (a b : List Event) :
    forwardPeers (a ++ b) = forwardPeers a ++ forwardPeers b := by
  induction a with
  | nil => rfl
  | cons e es ih => cases e <;> simp [forwardPeers, ih]

theorem forwardedRequests_append (a b : List Event) :
    forwardedRequests (a ++ b) = forwardedRequests a ++ forwardedRequests b := by
  induction a with
  | nil => rfl
  | cons e es ih => cases e <;> simp [forwardedRequests, ih]

theorem markedUrls_append (a b : List Event) :
    markedUrls (a ++ b) = markedUrls a ++ markedUrls b := by
  induction a with
  | nil => rfl
  | cons e es ih => cases e <;> simp [markedUrls, ih]

theorem forwardCount_eq_length_forwardPeers (tr : List Event) :
    forwardCount tr = (forwardPeers tr).length := by
  induction tr with
  | nil => rfl
  | cons e es ih =>
    cases e <;> simp [forwardCount, forwardPeers, Event.isForward] at ih ⊢ <;> exact ih

/-! ## The request id -/

theorem State.stampsIncreasing_congr (σ τ : State)
    (hids : stampedIds τ.trace = stampedIds σ.trace)
    (hc : τ.requestCounter = σ.requestCounter) (h : σ.stampsIncreasing) :
    τ.stampsIncreasing := by
  unfold State.stampsIncreasing at h ⊢
  rw [hids, hc]
  exact h

theorem State.stampsIncreasing_stamp {σ : State} (h : σ.stampsIncreasing)
    (hwrap : σ.requestCounter + 1 < 2 ^ 64) (τ : State)
    (hids : stampedIds τ.trace = stampedIds σ.trace ++ [(σ.requestCounter + 1) % 2 ^ 64])
    (hc : τ.requestCounter = (σ.requestCounter + 1) % 2 ^ 64) :
    τ.stampsIncreasing := by
  unfold State.stampsIncreasing at h ⊢
  obtain ⟨hpw, hmem⟩ := h
  rw [hids, hc, Nat.mod_eq_of_lt hwrap]
  constructor
  · rw [List.pairwise_append]
    refine ⟨hpw, List.pairwise_singleton _ _, ?_⟩
    intro a ha b hb
    rw [List.mem_singleton] at hb
    have := (hmem a ha).2
    omega
  · intro id hid
    rw [List.mem_append, List.mem_singleton] at hid
    rcases hid with hid | hid
    · have := hmem id hid
      omega
    · omega

/-- As long as the counter cannot wrap during the run, a run keeps the
stamped ids positive and strictly increasing. -/
theorem stamps_increasing (net : Transport) : ∀ fuel : Nat,
    (∀ σ r resp σ' (n : Nat), 1 ≤ GetAttemptsFromContext r →
      4 - GetAttemptsFromContext r ≤ (n : Int) → σ.requestCounter + n < 2 ^ 64 →
      σ.stampsIncreasing → lb net fuel σ r = some (resp, σ') → σ'.stampsIncreasing) ∧
    (∀ p u σ r resp σ' (n : Nat), 1 ≤ GetAttemptsFromContext r →
      GetAttemptsFromContext r ≤ 3 →
      3 - GetAttemptsFromContext r ≤ (n : Int) → σ.requestCounter + n < 2 ^ 64 →
      σ.stampsIncreasing → ServeHTTP net fuel p u σ r = some (resp, σ') →
      σ'.stampsIncreasing) ∧
    (∀ p u σ r resp σ' (n : Nat), 1 ≤ GetAttemptsFromContext r →
      GetAttemptsFromContext r ≤ 3 →
      3 - GetAttemptsFromContext r ≤ (n : Int) → σ.requestCounter + n < 2 ^ 64 →
      σ.stampsIncreasing → ErrorHandler net fuel p u σ r = some (resp, σ') →
      σ'.stampsIncreasing) := by
  intro fuel
  induction fuel with
  | zero =>
    refine ⟨?_, ?_, ?_⟩
    · intro σ r resp σ' n _ _ _ _ h; simp [lb] at h
    · intro p u σ r resp σ' n _ _ _ _ _ h; simp [ServeHTTP] at h
    · intro p u σ r resp σ' n _ _ _ _ _ h; simp [ErrorHandler] at h
  | succ fuel ih =>
    obtain ⟨ihlb, ihserve, iheh⟩ := ih
    refine ⟨?_, ?_, ?_⟩
    · intro σ r resp σ' n hα hn hwrap hinv h
      rw [lb_succ] at h
      split at h
      · cases h; exact hinv
      · rename_i hgt
        have hn1 : 1 ≤ n := by omega
        split at h
        · cases h
          exact State.stampsIncreasing_stamp hinv (by omega) _
            (by simp [stampedIds_append, stampedIds]) rfl
        · cases h
          exact State.stampsIncreasing_stamp hinv (by omega) _
            (by simp [stampedIds_append, stampedIds]) rfl
        · split at h
          · refine ihserve _ _ _ _ _ _ (n - 1) (by exact hα) (by show GetAttemptsFromContext r ≤ 3; omega)
              (by show 3 - GetAttemptsFromContext r ≤ ((n - 1 : Nat) : Int); omega) ?_ ?_ h
            · show (σ.requestCounter + 1) % 2 ^ 64 + (n - 1) < 2 ^ 64
              rw [Nat.mod_eq_of_lt (by omega)]
              omega
            · exact State.stampsIncreasing_stamp hinv (by omega) _
                (by simp [stampedIds_append, stampedIds]) rfl
          · cases h
            exact State.stampsIncreasing_stamp hinv (by omega) _
              (by simp [stampedIds_append, stampedIds]) rfl
    · intro p u σ r resp σ' n hα hα3 hn hwrap hinv h
      rw [ServeHTTP_succ] at h
      have hinv1 : State.stampsIncreasing
          { σ with trace := σ.trace ++ [Event.forward p r] } :=
        State.stampsIncreasing_congr σ _ (by simp [stampedIds_append, stampedIds]) rfl hinv
      split at h
      · cases h; exact hinv1
      · exact iheh p u { σ with trace := σ.trace ++ [Event.forward p r] } r resp σ' n
          hα hα3 hn hwrap hinv1 h
    · intro p u σ r resp σ' n hα hα3 hn hwrap hinv h
      rw [ErrorHandler_succ] at h
      split at h
      · exact ihserve _ _ _ _ _ _ n (by exact hα) (by exact hα3) (by exact hn) hwrap hinv h
      · rw [intAdd_one _ (by omega) (by omega)] at h
        refine ihlb _ _ _ _ n (by show 1 ≤ GetAttemptsFromContext r + 1; omega)
          (by show 4 - (GetAttemptsFromContext r + 1) ≤ (n : Int); omega) (by exact hwrap)
          ?_ h
        exact State.stampsIncreasing_congr σ _ (by simp [stampedIds_append, stampedIds]) rfl hinv

/-- An invocation of `lb` that passes the attempts check records the stamp
first. -/
theorem lb_stamp_prefix (net : Transport) (fuel : Nat) (σ : State) (r : Request)
    (hle : GetAttemptsFromContext r ≤ 3) (resp : Response) (σ' : State)
    (h : lb net (fuel + 1) σ r = some (resp, σ')) :
    (σ.trace ++ [Event.stamped ((σ.requestCounter + 1) % 2 ^ 64)]) <+: σ'.trace ∧
    (∀ p pool, σ.serverPool.GetNextPeer = (some (some p), pool) →
      (σ.trace ++ [Event.stamped ((σ.requestCounter + 1) % 2 ^ 64)] ++
        [Event.selected (GetAttemptsFromContext r) (some p)] ++
        [Event.forward p
          { r with requestID := some (toString ((σ.requestCounter + 1) % 2 ^ 64)) }])
        <+: σ'.trace) := by
  rw [lb_succ, if_neg (by omega)] at h
  split at h
  · cases h
    rename_i hsel
    exact ⟨List.prefix_refl _, fun p pool hp => by rw [hp] at hsel; simp at hsel⟩
  · cases h
    rename_i hsel
    exact ⟨List.prefix_append _ _, fun p pool hp => by rw [hp] at hsel; simp at hsel⟩
  · rename_i q pool' hsel
    split at h
    · have hpre := (trace_extends net fuel).2.1 _ _ _ _ _ _ h
      refine ⟨((List.prefix_append _ _).trans (List.prefix_append _ _)).trans hpre, ?_⟩
      intro p pool hp
      rw [hp] at hsel
      have hq : p = q := Option.some.inj (Option.some.inj (Prod.mk.inj hsel).1)
      subst hq
      exact hpre
    · cases h
      rename_i hnone
      refine ⟨List.prefix_append _ _, fun p pool hp => ?_⟩
      exfalso
      rw [hp] at hsel
      have hq : p = q := Option.some.inj (Option.some.inj (Prod.mk.inj hsel).1)
      have hpool : pool = pool' := (Prod.mk.inj hsel).2
      subst hq hpool
      have hN : 0 < σ.serverPool.backends.length := by
        by_contra h0
        rw [ServerPool.GetNextPeer_empty _ (Nat.eq_zero_of_not_pos h0)] at hp
        simp at hp
      obtain ⟨_, hx | ⟨p', b, hx, hpb, _⟩⟩ := ServerPool.GetNextPeer_ok σ.serverPool hN _ _ hp
      · simp at hx
      · have : p' = p := (Option.some.inj (Option.some.inj hx)).symm
        subst this
        rw [hpb] at hnone
        simp at hnone

/-- C12, as stated, fails at the counter value `2^64 - 1`: the increment
wraps, the id stamped on the next request is 0 (header "0"), which is not
positive and is below the id `2^64 - 1` stamped on the request before. -/
theorem lb_request_id_wrap_counterexample :
    counterAtMax.stampsIncreasing ∧
    (lb allSucceed 2 counterAtMax Request.fresh).map
        (fun x => (x.1, stampedIds x.2.trace,
          (forwardedRequests x.2.trace).map Request.requestID, x.2.requestCounter)) =
      some (Response.proxied 1, [2 ^ 64 - 1, 0], [some "0"], 0) := by
  decide

/-- C12, amended: an `lb` invocation that passes the attempts check on a
state whose counter `c` is below `2^64 - 1` stamps the id `c + 1`, the
counter after the increment.  For a request whose context holds attempts
`≥ 1` and retries `≥ 0` (a fresh request, or one re-entered by the error
handler) the invocation returns within recursion depth 16, and the run it
returns starts with the stamp of `c + 1`; when a peer is selected, the
selection and the forward of the request carrying the header value
`toString (c + 1)`, the base-10 digits of `c + 1`, follow at once.  The id is
positive and, the stamped ids so far being increasing and at most `c`,
strictly greater than every id stamped before; when the counter cannot wrap
during the request (`c + 3 < 2^64`) the whole run keeps the stamped ids
positive and strictly increasing, as they are at start-up.  The same facts
hold of every returning run of a request that passes the check, whatever its
context holds. -/
theorem lb_stamps_request_id (net : Transport) (fuel : Nat) (σ : State) (r : Request)
    (hle : GetAttemptsFromContext r ≤ 3)
    (hwrap : σ.requestCounter + 1 < 2 ^ 64) (hinv : σ.stampsIncreasing) :
    (σ.requestCounter + 1) % 2 ^ 64 = σ.requestCounter + 1 ∧
    toString (σ.requestCounter + 1) = (Nat.toDigits 10 (σ.requestCounter + 1)).asString ∧
    0 < σ.requestCounter + 1 ∧
    (∀ id, id ∈ stampedIds σ.trace → id < σ.requestCounter + 1) ∧
    (1 ≤ GetAttemptsFromContext r → 0 ≤ GetRetryFromContext r → 15 ≤ fuel →
      ∃ resp σ' rest, lb net (fuel + 1) σ r = some (resp, σ') ∧
        σ'.trace = σ.trace ++ Event.stamped (σ.requestCounter + 1) :: rest ∧
        (∀ p pool, σ.serverPool.GetNextPeer = (some (some p), pool) →
          ∃ rest', rest = Event.selected (GetAttemptsFromContext r) (some p) ::
            Event.forward p { r with requestID := some (toString (σ.requestCounter + 1)) } ::
            rest') ∧
        (σ.requestCounter + 3 < 2 ^ 64 → σ'.stampsIncreasing)) ∧
    (∀ resp σ', lb net (fuel + 1) σ r = some (resp, σ') →
      (σ.trace ++ [Event.stamped (σ.requestCounter + 1)]) <+: σ'.trace ∧
      (∀ p pool, σ.serverPool.GetNextPeer = (some (some p), pool) →
        (σ.trace ++ [Event.stamped (σ.requestCounter + 1)] ++
          [Event.selected (GetAttemptsFromContext r) (some p)] ++
          [Event.forward p { r with requestID := some (toString (σ.requestCounter + 1)) }])
          <+: σ'.trace) ∧
      (1 ≤ GetAttemptsFromContext r → σ.requestCounter + 3 < 2 ^ 64 →
        σ'.stampsIncreasing)) ∧
    (∀ urls : List String, (initialState urls).stampsIncreasing) := by
  have hmod : (σ.requestCounter + 1) % 2 ^ 64 = σ.requestCounter + 1 :=
    Nat.mod_eq_of_lt (by omega)
  have hpart : ∀ resp σ', lb net (fuel + 1) σ r = some (resp, σ') →
      (σ.trace ++ [Event.stamped (σ.requestCounter + 1)]) <+: σ'.trace ∧
      (∀ p pool, σ.serverPool.GetNextPeer = (some (some p), pool) →
        (σ.trace ++ [Event.stamped (σ.requestCounter + 1)] ++
          [Event.selected (GetAttemptsFromContext r) (some p)] ++
          [Event.forward p { r with requestID := some (toString (σ.requestCounter + 1)) }])
          <+: σ'.trace) ∧
      (1 ≤ GetAttemptsFromContext r → σ.requestCounter + 3 < 2 ^ 64 →
        σ'.stampsIncreasing) := by
    intro resp σ' h
    have hpre := lb_stamp_prefix net fuel σ r hle resp σ' h
    rw [hmod] at hpre
    refine ⟨hpre.1, hpre.2, fun hα hwrap3 => ?_⟩
    exact (stamps_increasing net (fuel + 1)).1 σ r resp σ' 3 hα (by omega) hwrap3 hinv h
  refine ⟨hmod, rfl, Nat.succ_pos _, ?_, ?_, hpart, ?_⟩
  · intro id hid
    have := (hinv.2 id hid).2
    omega
  · intro hα hρ hfuel
    obtain ⟨resp, σ', hrun, _⟩ := lb_run_bound net (fuel + 1) σ r hα hρ (by omega)
    obtain ⟨hpre, hfwd, hinc⟩ := hpart resp σ' hrun
    obtain ⟨rest, hrest⟩ := hpre
    refine ⟨resp, σ', rest, hrun, ?_, ?_, hinc hα⟩
    · rw [← hrest, List.append_assoc, List.singleton_append]
    · intro p pool hsel
      obtain ⟨rest', hrest'⟩ := hfwd p pool hsel
      refine ⟨rest', ?_⟩
      rw [← hrest'] at hrest
      simp only [List.append_assoc, List.singleton_append] at hrest
      have := List.append_cancel_left hrest
      exact (List.cons.inj this).2
  · intro urls
    unfold State.stampsIncreasing initialState
    simp [stampedIds]

/-- C12, amended, at two configured backends right after start-up, for a
fresh request on a transport on which every forward fails: the invocation
returns, and its run starts with the stamp of id 1. -/
theorem lb_stamps_request_id_witness :
    (twoBackends.requestCounter + 1) % 2 ^ 64 = twoBackends.requestCounter + 1 ∧
    toString (twoBackends.requestCounter + 1) =
      (Nat.toDigits 10 (twoBackends.requestCounter + 1)).asString ∧
    0 < twoBackends.requestCounter + 1 ∧
    (∀ id, id ∈ stampedIds twoBackends.trace → id < twoBackends.requestCounter + 1) ∧
    (∃ resp σ' rest, lb allFail (15 + 1) twoBackends Request.fresh = some (resp, σ') ∧
      σ'.trace = twoBackends.trace ++ Event.stamped (twoBackends.requestCounter + 1) :: rest ∧
      (∀ p pool, twoBackends.serverPool.GetNextPeer = (some (some p), pool) →
        ∃ rest', rest = Event.selected (GetAttemptsFromContext Request.fresh) (some p) ::
          Event.forward p
            { Request.fresh with
              requestID := some (toString (twoBackends.requestCounter + 1)) } ::
          rest') ∧
      (twoBackends.requestCounter + 3 < 2 ^ 64 → σ'.stampsIncreasing)) ∧
    (∀ urls : List String, (initialState urls).stampsIncreasing) :=
  have h := lb_stamps_request_id allFail 15 twoBackends Request.fresh
    (by decide) (by decide) (by decide)
  ⟨h.1, h.2.1, h.2.2.1, h.2.2.2.1, h.2.2.2.2.1 (by decide) (by decide) (by decide),
    h.2.2.2.2.2.2⟩

/-! ## The request router: peer selections of one request -/

theorem range_map_int_shift (a : Int) (m : Nat) :
    a :: (List.range m).map (fun (i : Nat) => a + 1 + (i : Int)) =
      (List.range (m + 1)).map (fun (i : Nat) => a + (i : Int)) := by
  rw [List.range_succ_eq_map, List.map_cons, List.map_map]
  simp only [Nat.cast_zero, add_zero, List.cons.injEq, true_and]
  apply List.map_congr_left
  intro i _
  simp only [Function.comp_apply, Nat.cast_succ]
  omega

/-- The shape of a run.  The attempts values with which `GetNextPeer` is
called count up by one from the attempts value of the request and stay at
most 3; every forwarded request holds an attempts value at most 3; every
forward goes to a backend that a `GetNextPeer` call of the run returned (or,
inside `ReverseProxy.ServeHTTP` and the error handler, to their own
backend). -/
theorem run_selections (net : Transport) : ∀ fuel : Nat,
    (∀ σ r resp σ', 1 ≤ GetAttemptsFromContext r → lb net fuel σ r = some (resp, σ') →
      ∃ rest, σ'.trace = σ.trace ++ rest ∧
        (∃ m : Nat, (GetAttemptsFromContext r + m ≤ 4 ∨ m = 0) ∧
          selectedAttempts rest =
            (List.range m).map (fun (i : Nat) => GetAttemptsFromContext r + (i : Int))) ∧
        (∀ q, q ∈ forwardedRequests rest →
          GetAttemptsFromContext r ≤ GetAttemptsFromContext q ∧ GetAttemptsFromContext q ≤ 3) ∧
        (∀ x, x ∈ forwardPeers rest → x ∈ selectedPeers rest) ∧
        (selectedPeers rest).length ≤ (selectedAttempts rest).length) ∧
    (∀ p u σ r resp σ', 1 ≤ GetAttemptsFromContext r → GetAttemptsFromContext r ≤ 3 →
      ServeHTTP net fuel p u σ r = some (resp, σ') →
      ∃ rest, σ'.trace = σ.trace ++ rest ∧
        (∃ m : Nat, GetAttemptsFromContext r + 1 + m ≤ 4 ∧
          selectedAttempts rest =
            (List.range m).map (fun (i : Nat) => GetAttemptsFromContext r + 1 + (i : Int))) ∧
        (∀ q, q ∈ forwardedRequests rest →
          GetAttemptsFromContext r ≤ GetAttemptsFromContext q ∧ GetAttemptsFromContext q ≤ 3) ∧
        (∀ x, x ∈ forwardPeers rest → x = p ∨ x ∈ selectedPeers rest) ∧
        (selectedPeers rest).length ≤ (selectedAttempts rest).length) ∧
    (∀ p u σ r resp σ', 1 ≤ GetAttemptsFromContext r → GetAttemptsFromContext r ≤ 3 →
      ErrorHandler net fuel p u σ r = some (resp, σ') →
      ∃ rest, σ'.trace = σ.trace ++ rest ∧
        (∃ m : Nat, GetAttemptsFromContext r + 1 + m ≤ 4 ∧
          selectedAttempts rest =
            (List.range m).map (fun (i : Nat) => GetAttemptsFromContext r + 1 + (i : Int))) ∧
        (∀ q, q ∈ forwardedRequests rest →
          GetAttemptsFromContext r ≤ GetAttemptsFromContext q ∧ GetAttemptsFromContext q ≤ 3) ∧
        (∀ x, x ∈ forwardPeers rest → x = p ∨ x ∈ selectedPeers rest) ∧
        (selectedPeers rest).length ≤ (selectedAttempts rest).length) := by
  intro fuel
  induction fuel with
  | zero =>
    refine ⟨?_, ?_, ?_⟩
    · intro σ r resp σ' _ h; simp [lb] at h
    · intro p u σ r resp σ' _ _ h; simp [ServeHTTP] at h
    · intro p u σ r resp σ' _ _ h; simp [ErrorHandler] at h
  | succ fuel ih =>
    obtain ⟨ihlb, ihserve, iheh⟩ := ih
    refine ⟨?_, ?_, ?_⟩
    · intro σ r resp σ' hα h
      rw [lb_succ] at h
      split at h
      · cases h
        exact ⟨[], by simp, ⟨0, Or.inr rfl, rfl⟩, by simp [forwardedRequests],
          by simp [forwardPeers], by simp [selectedPeers, selectedAttempts]⟩
      · rename_i hgt
        split at h
        · cases h
          exact ⟨[Event.stamped ((σ.requestCounter + 1) % 2 ^ 64)], rfl, ⟨0, Or.inr rfl, rfl⟩,
            by simp [forwardedRequests], by simp [forwardPeers],
            by simp [selectedPeers, selectedAttempts]⟩
        · cases h
          refine ⟨[Event.stamped ((σ.requestCounter + 1) % 2 ^ 64)] ++
            [Event.selected (GetAttemptsFromContext r) none], List.append_assoc _ _ _,
            ⟨1, Or.inl (by omega), by simp [selectedAttempts, List.range_succ]⟩,
            by simp [forwardedRequests], by simp [forwardPeers],
            by simp [selectedPeers, selectedAttempts]⟩
        · rename_i q pool hsel
          split at h
          · obtain ⟨rest, hrest, ⟨m, hm, hatt⟩, hreq, hpeers, hlen⟩ :=
              ihserve _ _ _ _ _ _ (by exact hα) (by show GetAttemptsFromContext r ≤ 3; omega) h
            refine ⟨[Event.stamped ((σ.requestCounter + 1) % 2 ^ 64)] ++
              [Event.selected (GetAttemptsFromContext r) (some q)] ++ rest,
              by rw [hrest]; simp only [List.append_assoc], ⟨m + 1, Or.inl ?_, ?_⟩, ?_, ?_, ?_⟩
            · have : GetAttemptsFromContext r + 1 + (m : Int) ≤ 4 := hm
              push_cast
              omega
            · rw [selectedAttempts_append, hatt]
              simp only [List.singleton_append, selectedAttempts, List.cons_append,
                List.nil_append]
              exact range_map_int_shift _ _
            · intro x hx
              rw [forwardedRequests_append] at hx
              simp only [List.singleton_append, forwardedRequests, List.nil_append] at hx
              exact hreq x hx
            · intro x hx
              rw [forwardPeers_append] at hx
              simp only [List.singleton_append, forwardPeers, List.nil_append] at hx
              rw [selectedPeers_append]
              simp only [List.singleton_append, selectedPeers, List.cons_append, List.nil_append,
                List.mem_cons]
              exact hpeers x hx
            · rw [selectedPeers_append, selectedAttempts_append]
              simp only [List.singleton_append, selectedPeers, selectedAttempts,
                List.cons_append, List.nil_append, List.length_cons]
              omega
          · cases h
            refine ⟨[Event.stamped ((σ.requestCounter + 1) % 2 ^ 64)] ++
              [Event.selected (GetAttemptsFromContext r) (some q)], List.append_assoc _ _ _,
              ⟨1, Or.inl (by omega), by simp [selectedAttempts, List.range_succ]⟩,
              by simp [forwardedRequests], by simp [forwardPeers],
              by simp [selectedPeers, selectedAttempts]⟩
    · intro p u σ r resp σ' hα hα3 h
      rw [ServeHTTP_succ] at h
      split at h
      · cases h
        refine ⟨[Event.forward p r], rfl, ⟨0, by omega, rfl⟩, ?_, ?_, ?_⟩
        · intro q hq
          simp only [forwardedRequests, List.mem_singleton] at hq
          subst hq
          exact ⟨le_refl _, hα3⟩
        · intro x hx
          simp only [forwardPeers, List.mem_singleton] at hx
          exact Or.inl hx
        · simp [selectedPeers, selectedAttempts]
      · obtain ⟨rest, hrest, hm, hreq, hpeers, hlen⟩ :=
          iheh p u { σ with trace := σ.trace ++ [Event.forward p r] } r resp σ' hα hα3 h
        refine ⟨[Event.forward p r] ++ rest, by rw [hrest]; simp only [List.append_assoc],
          ?_, ?_, ?_, ?_⟩
        · simpa [selectedAttempts_append, selectedAttempts] using hm
        · intro q hq
          rw [forwardedRequests_append] at hq
          simp only [forwardedRequests, List.singleton_append, List.mem_cons] at hq
          rcases hq with hq | hq
          · subst hq; exact ⟨le_refl _, hα3⟩
          · exact hreq q hq
        · intro x hx
          rw [forwardPeers_append] at hx
          simp only [forwardPeers, List.singleton_append, List.mem_cons] at hx
          rw [selectedPeers_append]
          simp only [selectedPeers, List.nil_append]
          rcases hx with hx | hx
          · exact Or.inl hx
          · exact hpeers x hx
        · simpa [selectedPeers_append, selectedAttempts_append, selectedPeers,
            selectedAttempts] using hlen
    · intro p u σ r resp σ' hα hα3 h
      rw [ErrorHandler_succ] at h
      split at h
      · obtain ⟨rest, hrest, hm, hreq, hpeers, hlen⟩ :=
          ihserve p u σ { r with retry := some (intAdd (GetRetryFromContext r) 1) } resp σ'
            (by exact hα) (by exact hα3) h
        exact ⟨rest, hrest, hm, hreq, hpeers, hlen⟩
      · rw [intAdd_one _ (by omega) (by omega)] at h
        obtain ⟨rest, hrest, ⟨m, hm, hatt⟩, hreq, hpeers, hlen⟩ :=
          ihlb _ { r with attempts := some (GetAttemptsFromContext r + 1) } resp σ'
            (by show 1 ≤ GetAttemptsFromContext r + 1; omega) h
        have hatt' : selectedAttempts rest =
            (List.range m).map (fun (i : Nat) => GetAttemptsFromContext r + 1 + (i : Int)) := hatt
        have hm' : GetAttemptsFromContext r + 1 + (m : Int) ≤ 4 ∨ m = 0 := hm
        refine ⟨[Event.marked u] ++ rest, by rw [hrest]; simp only [List.append_assoc],
          ?_, ?_, ?_, ?_⟩
        · rcases hm' with hm' | hm'
          · exact ⟨m, hm', by simpa [selectedAttempts_append, selectedAttempts] using hatt'⟩
          · subst hm'
            exact ⟨0, by omega, by simpa [selectedAttempts_append, selectedAttempts] using hatt'⟩
        · intro q hq
          rw [forwardedRequests_append] at hq
          simp only [forwardedRequests, List.nil_append] at hq
          have := hreq q hq
          have h1 : GetAttemptsFromContext r + 1 ≤ GetAttemptsFromContext q := this.1
          exact ⟨by omega, this.2⟩
        · intro x hx
          rw [forwardPeers_append] at hx
          simp only [forwardPeers, List.nil_append] at hx
          rw [selectedPeers_append]
          simp only [selectedPeers, List.nil_append]
          exact Or.inr (hpeers x hx)
        · simpa [selectedPeers_append, selectedAttempts_append, selectedPeers,
            selectedAttempts] using hlen

/-- C16: a request that starts without attempts in its context (and with
retries not negative), whatever the outcomes of the forwards, is answered
within recursion depth 16; in its run `GetNextPeer` is called at most 3
times, with the attempts values 1, 2, 3 in this order; every forwarded
request holds an attempts value between 1 and 3, so the error handler
re-enters `lb` with at most 4; every forward goes to a backend one of the
`GetNextPeer` calls returned, so at most 3 backends are tried; and `lb`
entered with attempts 4 answers 503 and leaves the state as it is, without
a peer selection. -/
theorem lb_at_most_three_selections (net : Transport) (fuel : Nat) (σ : State) (r : Request)
    (hr : r.attempts = none) (hρ : 0 ≤ GetRetryFromContext r) (hfuel : 16 ≤ fuel) :
    ∃ resp σ' rest, lb net fuel σ r = some (resp, σ') ∧ σ'.trace = σ.trace ++ rest ∧
      (∃ m : Nat, m ≤ 3 ∧
        selectedAttempts rest = (List.range m).map (fun (i : Nat) => 1 + (i : Int))) ∧
      (∀ a, a ∈ selectedAttempts rest → a = 1 ∨ a = 2 ∨ a = 3) ∧
      (∀ q, q ∈ forwardedRequests rest →
        1 ≤ GetAttemptsFromContext q ∧ GetAttemptsFromContext q ≤ 3 ∧
        intAdd (GetAttemptsFromContext q) 1 ≤ 4) ∧
      (∀ x, x ∈ forwardPeers rest → x ∈ selectedPeers rest) ∧
      (selectedPeers rest).length ≤ 3 ∧
      (forwardPeers rest).toFinset.card ≤ 3 ∧
      (∀ (f : Nat) (τ : State) (q : Request), GetAttemptsFromContext q = 4 →
        lb net (f + 1) τ q = some (Response.error "Service not available" 503, τ)) := by
  have hα : GetAttemptsFromContext r = 1 := by simp [GetAttemptsFromContext, hr]
  obtain ⟨resp, σ', hrun, _⟩ := lb_run_bound net fuel σ r (by omega) hρ hfuel
  obtain ⟨rest, hrest, ⟨m, hm, hatt⟩, hreq, hpeers, hlen⟩ :=
    (run_selections net fuel).1 σ r resp σ' (by omega) hrun
  rw [hα] at hatt hm hreq
  have hm3 : m ≤ 3 := by omega
  have hsel3 : (selectedPeers rest).length ≤ 3 := by
    rw [hatt, List.length_map, List.length_range] at hlen
    omega
  refine ⟨resp, σ', rest, hrun, hrest, ⟨m, hm3, hatt⟩, ?_, ?_, hpeers, hsel3, ?_, ?_⟩
  · intro a ha
    rw [hatt] at ha
    obtain ⟨i, hi, rfl⟩ := List.mem_map.mp ha
    have := List.mem_range.mp hi
    omega
  · intro q hq
    have := hreq q hq
    refine ⟨this.1, this.2, ?_⟩
    rw [intAdd_one _ (by omega) (by omega)]
    omega
  · calc (forwardPeers rest).toFinset.card
        ≤ (selectedPeers rest).toFinset.card := by
          apply Finset.card_le_card
          intro x hx
          rw [List.mem_toFinset] at hx ⊢
          exact hpeers x hx
      _ ≤ (selectedPeers rest).length := List.toFinset_card_le _
      _ ≤ 3 := hsel3
  · intro f τ q hq
    rw [lb_succ, if_pos (by omega)]
    rfl

/-- C16 at two configured backends right after start-up, every forward
failing. -/
theorem lb_at_most_three_selections_witness :
    ∃ resp σ' rest, lb allFail 16 twoBackends Request.fresh = some (resp, σ') ∧
      σ'.trace = twoBackends.trace ++ rest ∧
      (∃ m : Nat, m ≤ 3 ∧
        selectedAttempts rest = (List.range m).map (fun (i : Nat) => 1 + (i : Int))) ∧
      (∀ a, a ∈ selectedAttempts rest → a = 1 ∨ a = 2 ∨ a = 3) ∧
      (∀ q, q ∈ forwardedRequests rest →
        1 ≤ GetAttemptsFromContext q ∧ GetAttemptsFromContext q ≤ 3 ∧
        intAdd (GetAttemptsFromContext q) 1 ≤ 4) ∧
      (∀ x, x ∈ forwardPeers rest → x ∈ selectedPeers rest) ∧
      (selectedPeers rest).length ≤ 3 ∧
      (forwardPeers rest).toFinset.card ≤ 3 ∧
      (∀ (f : Nat) (τ : State) (q : Request), GetAttemptsFromContext q = 4 →
        lb allFail (f + 1) τ q = some (Response.error "Service not available" 503, τ)) :=
  lb_at_most_three_selections allFail 16 twoBackends Request.fresh rfl (by decide) (by decide)

/-! ## The request router: failover -/

/-- Marking the address of the backend at position `p` down, when `p` is the
first position with that address, leaves that backend not alive. -/
theorem ServerPool.MarkBackendStatus_aliveAt_first (s : ServerPool) (p : Nat) (b : Backend)
    (hget : s.backends[p]? = some b)
    (hfirst : ∀ k c, k < p → s.backends[k]? = some c → c.URL ≠ b.URL) (i : Nat) :
    (s.MarkBackendStatus b.URL false).aliveAt i = if i = p then false else s.aliveAt i := by
  have hp : p < s.backends.length := by
    by_contra hlt
    rw [List.getElem?_eq_none (by omega)] at hget
    simp at hget
  have hloop : (s.MarkBackendStatus b.URL false).backends =
      s.backends.set p (b.SetAlive false) :=
    ServerPool.MarkBackendStatus.loop_first_match b.URL false s.backends p b hget rfl hfirst
  unfold ServerPool.aliveAt
  rw [hloop]
  by_cases hip : i = p
  · subst hip
    simp [hp, Backend.SetAlive, Backend.IsAlive]
  · rw [if_neg hip, List.getElem?_set_ne (fun h => hip h.symm)]

/-- C15, evaluated on the registry configured with `http://b` twice, both
backends alive (`twinB`, the state after start-up with that backend list).
A failed forward to the second backend (position 1, server-2) with retries
at 3 makes the error handler mark the address `http://b` down, which sets the
flag of the first backend with that address (position 0, server-1): the
backend whose forward failed stays alive, and the re-entry of `lb` selects it
again.  On a transport on which every forward fails, a fresh request is
forwarded to backend 1 four times, then once more after each of the two
failovers; backend 1 is selected at attempts 1, 2 and 3 and is alive at the
end, while backend 0, never forwarded to, is down. -/
theorem ErrorHandler_failover_marks_other_backend :
    (ErrorHandler allSucceed 3 1 "http://b" twinB
        { attempts := none, retry := some 3, requestID := some "1" }).map
        (fun x => (x.1, x.2.trace, x.2.serverPool.aliveAt 0, x.2.serverPool.aliveAt 1)) =
      some (Response.proxied 1,
        [Event.marked "http://b", Event.stamped 1, Event.selected 2 (some 1),
          Event.forward 1 { attempts := some 2, retry := some 3, requestID := some "1" }],
        false, true) ∧
    twinB = initialState ["http://b", "http://b"] ∧
    (lb allFail 16 twinB Request.fresh).map
        (fun x => (x.1, x.2.trace, x.2.serverPool.aliveAt 0, x.2.serverPool.aliveAt 1)) =
      some (Response.error "Service not available" 503,
        [Event.stamped 1,
         Event.selected 1 (some 1),
         Event.forward 1 { attempts := none, retry := none, requestID := some "1" },
         Event.forward 1 { attempts := none, retry := some 1, requestID := some "1" },
         Event.forward 1 { attempts := none, retry := some 2, requestID := some "1" },
         Event.forward 1 { attempts := none, retry := some 3, requestID := some "1" },
         Event.marked "http://b",
         Event.stamped 2,
         Event.selected 2 (some 1),
         Event.forward 1 { attempts := some 2, retry := some 3, requestID := some "2" },
         Event.marked "http://b",
         Event.stamped 3,
         Event.selected 3 (some 1),
         Event.forward 1 { attempts := some 3, retry := some 3, requestID := some "3" },
         Event.marked "http://b"],
        false, true) := by
  refine ⟨by decide, by decide, by decide!⟩

/-- Where the failed backend is the first of the registry with its address,
the handler does mark it: when the forward of a request with attempts between
1 and 3 to the backend `b` at position `p` fails with retries at 3 or more,
and `b` is the first backend of the registry with its address, the error
handler marks `b` down (its liveness flag is false afterwards) and re-enters
`lb` with attempts incremented by one and the retries value unchanged; a
`GetNextPeer` call on the registry so left never returns `b`; and in a run
that returns, the re-entry either is rejected without a selection or
selects a peer that is nil or a backend other than `b`. -/
theorem ErrorHandler_failover (net : Transport) (fuel : Nat) (σ : State) (request : Request)
    (p : Nat) (b : Backend) (hget : σ.serverPool.backends[p]? = some b)
    (hfirst : ∀ k c, k < p → σ.serverPool.backends[k]? = some c → c.URL ≠ b.URL)
    (hretry : 3 ≤ GetRetryFromContext request)
    (hα : 1 ≤ GetAttemptsFromContext request) (hα3 : GetAttemptsFromContext request ≤ 3) :
    ErrorHandler net (fuel + 1) p b.URL σ request =
      lb net fuel
        { σ with serverPool := σ.serverPool.MarkBackendStatus b.URL false,
                 trace := σ.trace ++ [Event.marked b.URL] }
        { request with attempts := some (GetAttemptsFromContext request + 1) } ∧
    (σ.serverPool.MarkBackendStatus b.URL false).aliveAt p = false ∧
    GetAttemptsFromContext
        { request with attempts := some (GetAttemptsFromContext request + 1) } =
      GetAttemptsFromContext request + 1 ∧
    GetRetryFromContext
        { request with attempts := some (GetAttemptsFromContext request + 1) } =
      GetRetryFromContext request ∧
    (∀ x pool, (σ.serverPool.MarkBackendStatus b.URL false).GetNextPeer = (x, pool) →
      x ≠ some (some p)) ∧
    (∀ resp σ', ErrorHandler net (fuel + 1) p b.URL σ request = some (resp, σ') →
      σ'.trace = σ.trace ++ [Event.marked b.URL] ∨
      ∃ id peer, peer ≠ some p ∧
        (σ.trace ++ [Event.marked b.URL] ++ [Event.stamped id] ++
          [Event.selected (GetAttemptsFromContext request + 1) peer]) <+: σ'.trace) := by
  have hdead : (σ.serverPool.MarkBackendStatus b.URL false).aliveAt p = false := by
    rw [ServerPool.MarkBackendStatus_aliveAt_first σ.serverPool p b hget hfirst p]
    simp
  have hnot : ∀ x pool, (σ.serverPool.MarkBackendStatus b.URL false).GetNextPeer = (x, pool) →
      x ≠ some (some p) := by
    intro x pool hsel hx
    have halive := ServerPool.GetNextPeer_some_alive
      (σ.serverPool.MarkBackendStatus b.URL false) p (by rw [hsel, hx])
    rw [hdead] at halive
    simp at halive
  have hrun : ErrorHandler net (fuel + 1) p b.URL σ request =
      lb net fuel
        { σ with serverPool := σ.serverPool.MarkBackendStatus b.URL false,
                 trace := σ.trace ++ [Event.marked b.URL] }
        { request with attempts := some (GetAttemptsFromContext request + 1) } := by
    rw [ErrorHandler_succ, if_neg (by omega), intAdd_one _ (by omega) (by omega)]
  refine ⟨hrun, hdead, rfl, rfl, hnot, ?_⟩
  intro resp σ' h
  rw [hrun] at h
  cases fuel with
  | zero => simp [lb] at h
  | succ f =>
    rw [lb_succ] at h
    split at h
    · cases h
      exact Or.inl rfl
    · right
      split at h
      · rename_i pool hsel
        exfalso
        have hN : 0 < (σ.serverPool.MarkBackendStatus b.URL false).backends.length := by
          rw [ServerPool.MarkBackendStatus_length]
          by_contra hlt
          rw [List.getElem?_eq_none (by omega)] at hget
          simp at hget
        obtain ⟨_, hx | ⟨_, _, hx, _, _⟩⟩ := ServerPool.GetNextPeer_ok _ hN _ _ hsel
        · simp at hx
        · simp at hx
      · cases h
        exact ⟨_, none, by simp, List.prefix_refl _⟩
      · rename_i q pool hsel
        have hq : some q ≠ some p := by
          intro hqp
          exact hnot _ _ hsel (by rw [hqp])
        split at h
        · exact ⟨_, some q, hq,
            (List.prefix_append _ _).trans ((trace_extends net f).2.1 _ _ _ _ _ _ h)⟩
        · cases h
          exact ⟨_, some q, hq, List.prefix_refl _⟩

/-- The failover at backend 1 of two configured backends with distinct
addresses. -/
theorem ErrorHandler_failover_witness :
    ErrorHandler allFail (15 + 1) 1 "http://b" twoBackends
        { attempts := none, retry := some 3, requestID := some "1" } =
      lb allFail 15
        { twoBackends with
          serverPool := twoBackends.serverPool.MarkBackendStatus "http://b" false,
          trace := twoBackends.trace ++ [Event.marked "http://b"] }
        { attempts := some (1 + 1), retry := some 3, requestID := some "1" } ∧
    (twoBackends.serverPool.MarkBackendStatus "http://b" false).aliveAt 1 = false ∧
    GetAttemptsFromContext { attempts := some (1 + 1), retry := some 3, requestID := some "1" } =
      1 + 1 ∧
    GetRetryFromContext { attempts := some (1 + 1), retry := some 3, requestID := some "1" } =
      3 ∧
    (∀ x pool, (twoBackends.serverPool.MarkBackendStatus "http://b" false).GetNextPeer
        = (x, pool) → x ≠ some (some 1)) ∧
    (∀ resp σ',
      ErrorHandler allFail (15 + 1) 1 "http://b" twoBackends
        { attempts := none, retry := some 3, requestID := some "1" } = some (resp, σ') →
      σ'.trace = twoBackends.trace ++ [Event.marked "http://b"] ∨
      ∃ id peer, peer ≠ some 1 ∧
        (twoBackends.trace ++ [Event.marked "http://b"] ++ [Event.stamped id] ++
          [Event.selected (1 + 1) peer]) <+: σ'.trace) :=
  ErrorHandler_failover allFail 15 twoBackends
    { attempts := none, retry := some 3, requestID := some "1" } 1
    ⟨"server-2", "http://b", true⟩ (by decide)
    (by
      intro k c hk hc
      have hk0 : k = 0 := by omega
      subst hk0
      have hc0 : c = ⟨"server-1", "http://a", true⟩ := by
        simpa [twoBackends, initialState, configuredPool] using hc.symm
      subst hc0
      decide)
    (by decide) (by decide) (by decide)

/-! ## The request router: every forward fails -/

theorem ServerPool.first_of_nodup (bs : List Backend)
    (h : (bs.map Backend.URL).Nodup) (p : Nat) (b : Backend) (hget : bs[p]? = some b) :
    ∀ k c, k < p → bs[k]? = some c → c.URL ≠ b.URL := by
  intro k c hk hc heq
  have hp : p < (bs.map Backend.URL).length := by
    rw [List.length_map]
    by_contra hlt
    rw [List.getElem?_eq_none (by omega)] at hget
    simp at hget
  have hne := List.nodup_iff_getElem?_ne_getElem?.mp h k p hk hp
  apply hne
  rw [List.getElem?_map, List.getElem?_map, hc, hget]
  simp [heq]

theorem ServerPool.MarkBackendStatus.loop_urls (backendUrl : String) (alive : Bool) :
    ∀ bs : List Backend,
      (ServerPool.MarkBackendStatus.loop backendUrl alive bs).map Backend.URL =
        bs.map Backend.URL := by
  intro bs
  induction bs with
  | nil => rfl
  | cons b bs ih =>
    unfold ServerPool.MarkBackendStatus.loop
    split
    · simp [Backend.SetAlive]
    · simp [ih]

/-- The two outcomes of `GetNextPeer` on a non-empty registry. -/
theorem ServerPool.GetNextPeer_result (s : ServerPool) (hN : 0 < s.backends.length) :
    ∃ x pool, s.GetNextPeer = (x, pool) ∧ pool.backends = s.backends ∧
      ((x = some none ∧ ∀ i, s.aliveAt i = false) ∨
        (∃ q b, x = some (some q) ∧ pool.backends[q]? = some b ∧ s.aliveAt q = true)) := by
  rcases hg : s.GetNextPeer with ⟨y, pool⟩
  obtain ⟨hb, hx | ⟨q, b, hx, hpb, halive⟩⟩ := ServerPool.GetNextPeer_ok s hN y pool hg
  · subst hx
    refine ⟨some none, pool, rfl, hb, Or.inl ⟨rfl, ?_⟩⟩
    rcases ServerPool.GetNextPeer_cases s hN with ⟨_, hall⟩ | ⟨j, _, _, _, hret⟩
    · exact hall
    · rw [hret] at hg
      simp at hg
  · subst hx
    exact ⟨some (some q), pool, rfl, hb, Or.inr ⟨q, b, rfl, hpb, halive⟩⟩

/-- With every forward failing, a forward made with the retries used up is
followed by the marking of the backend's address and the re-entry of `lb`
with attempts incremented. -/
theorem ServeHTTP_all_fail_exhausted (net : Transport) (hfail : ∀ n p, net n p = false)
    (f p : Nat) (u : String) (σ : State) (r : Request)
    (hρ : 3 ≤ GetRetryFromContext r) (hα : 1 ≤ GetAttemptsFromContext r)
    (hα3 : GetAttemptsFromContext r ≤ 3) :
    ServeHTTP net (f + 2) p u σ r =
      lb net f
        { σ with serverPool := σ.serverPool.MarkBackendStatus u false,
                 trace := σ.trace ++ [Event.forward p r, Event.marked u] }
        { r with attempts := some (GetAttemptsFromContext r + 1) } := by
  rw [ServeHTTP_succ, hfail, if_neg (by simp), ErrorHandler_succ, if_neg (by omega),
    intAdd_one _ (by omega) (by omega)]
  simp only [List.append_assoc, List.singleton_append]

/-- With every forward failing, the first forward of a request without
retries in its context is followed by three retries, the marking of the
backend's address and the re-entry of `lb` with attempts incremented and
the retries value 3. -/
theorem ServeHTTP_all_fail_fresh (net : Transport) (hfail : ∀ n p, net n p = false)
    (f p : Nat) (u : String) (σ : State) (a : Option Int) (i : Option String)
    (hα : 1 ≤ GetAttemptsFromContext { attempts := a, retry := none, requestID := i })
    (hα3 : GetAttemptsFromContext { attempts := a, retry := none, requestID := i } ≤ 3) :
    ServeHTTP net (f + 8) p u σ { attempts := a, retry := none, requestID := i } =
      lb net f
        { σ with serverPool := σ.serverPool.MarkBackendStatus u false,
                 trace := σ.trace ++
                   [Event.forward p { attempts := a, retry := none, requestID := i },
                    Event.forward p { attempts := a, retry := some 1, requestID := i },
                    Event.forward p { attempts := a, retry := some 2, requestID := i },
                    Event.forward p { attempts := a, retry := some 3, requestID := i },
                    Event.marked u] }
        { attempts :=
            some (GetAttemptsFromContext { attempts := a, retry := none, requestID := i } + 1),
          retry := some 3, requestID := i } := by
  have e1 : intAdd 0 1 = 1 := by decide
  have e2 : intAdd 1 1 = 2 := by decide
  have e3 : intAdd 2 1 = 3 := by decide
  have l0 : (0 : Int) < 3 := by decide
  have l1 : (1 : Int) < 3 := by decide
  have l2 : (2 : Int) < 3 := by decide
  have l3 : ¬ (3 : Int) < 3 := by decide
  have hatt : ∀ x : Option Int,
      GetAttemptsFromContext { attempts := a, retry := x, requestID := i } =
        GetAttemptsFromContext { attempts := a, retry := none, requestID := i } := fun _ => rfl
  simp only [ServeHTTP_succ, ErrorHandler_succ, hfail, GetRetryFromContext_none,
    GetRetryFromContext_some, e1, e2, e3, l0, l1, l2, l3, Bool.false_eq_true, if_false, if_true,
    List.append_assoc, List.singleton_append, List.cons_append, List.nil_append, hatt]
  rw [intAdd_one _ (by omega) (by omega)]

theorem ServerPool.aliveAt_lt_iff_of_all (s : ServerPool)
    (halive : ∀ i, i < s.backends.length → s.aliveAt i = true) (i : Nat) :
    s.aliveAt i = decide (i < s.backends.length) := by
  by_cases h : i < s.backends.length
  · simp [h, halive i h]
  · simp [h, ServerPool.aliveAt_ge (Nat.le_of_not_lt h)]

/-- One failover step when every forward fails, for a request with the
retries value 3 and an attempts value `a` between 1 and 3, on a registry
with pairwise distinct addresses: either no backend is alive and `lb`
answers 503 after the stamp and the selection; or `GetNextPeer` returns an
alive backend `q`, which is forwarded to once and marked down, and `lb` is
re-entered with attempts `a + 1`. -/
theorem lb_failover_step (net : Transport) (hfail : ∀ n p, net n p = false) (f : Nat)
    (τ : State) (a : Int) (i : Option String) (ha : 1 ≤ a) (ha3 : a ≤ 3)
    (hN : 0 < τ.serverPool.backends.length)
    (hnodup : (τ.serverPool.backends.map Backend.URL).Nodup) :
    ((∀ k, τ.serverPool.aliveAt k = false) ∧
      ∃ pool : ServerPool, pool.backends = τ.serverPool.backends ∧
        lb net (f + 3) τ { attempts := some a, retry := some 3, requestID := i } =
          some (Response.error "Service not available" 503,
            { serverPool := pool, requestCounter := (τ.requestCounter + 1) % 2 ^ 64,
              trace := τ.trace ++ noPeerSteps ((τ.requestCounter + 1) % 2 ^ 64) a })) ∨
    (∃ (q : Nat) (b : Backend) (pool : ServerPool), τ.serverPool.aliveAt q = true ∧ pool.backends = τ.serverPool.backends ∧
      pool.backends[q]? = some b ∧
      (∀ k, (pool.MarkBackendStatus b.URL false).aliveAt k =
        if k = q then false else τ.serverPool.aliveAt k) ∧
      lb net (f + 3) τ { attempts := some a, retry := some 3, requestID := i } =
        lb net f
          { serverPool := pool.MarkBackendStatus b.URL false,
            requestCounter := (τ.requestCounter + 1) % 2 ^ 64,
            trace := τ.trace ++ failoverSteps ((τ.requestCounter + 1) % 2 ^ 64) a q b.URL }
          { attempts := some (a + 1), retry := some 3,
            requestID := some (toString ((τ.requestCounter + 1) % 2 ^ 64)) }) := by
  have hle : ¬ GetAttemptsFromContext { attempts := some a, retry := some 3, requestID := i } > 3 := by
    show ¬ a > 3
    omega
  obtain ⟨x, pool, hsel, hb, ⟨hx, hdead⟩ | ⟨q, b, hx, hpb, halive⟩⟩ :=
    ServerPool.GetNextPeer_result τ.serverPool hN
  · left
    subst hx
    refine ⟨hdead, pool, hb, ?_⟩
    rw [lb_succ, if_neg hle]
    simp only [hsel, GetAttemptsFromContext_some, noPeerSteps, List.append_assoc,
      List.singleton_append]
    rfl
  · right
    subst hx
    refine ⟨q, b, pool, halive, hb, hpb, ?_, ?_⟩
    · intro k
      rw [ServerPool.MarkBackendStatus_aliveAt_first pool q b hpb
        (ServerPool.first_of_nodup pool.backends (by rw [hb]; exact hnodup) q b hpb) k,
        ServerPool.aliveAt_congr hb]
    · rw [lb_succ, if_neg hle]
      simp only [hsel, hpb]
      rw [ServeHTTP_all_fail_exhausted net hfail f q b.URL _ _
        (by show (3 : Int) ≤ 3; decide) (by show 1 ≤ a; exact ha) (by show a ≤ 3; exact ha3)]
      simp only [GetAttemptsFromContext_some, failoverSteps, List.append_assoc,
        List.singleton_append, List.cons_append, List.nil_append]

/-- The first backend of a fresh request when every forward fails, on a
registry with all backends alive: the backend at the start index is selected,
forwarded to four times and marked down, and `lb` is re-entered with
attempts 2 and retries 3. -/
theorem lb_first_backend_all_fail (net : Transport) (hfail : ∀ n p, net n p = false) (f : Nat)
    (σ : State) (hN : 1 ≤ σ.serverPool.backends.length)
    (halive : ∀ i, i < σ.serverPool.backends.length → σ.serverPool.aliveAt i = true)
    (hnodup : (σ.serverPool.backends.map Backend.URL).Nodup) :
    ∃ (p : Nat) (b : Backend) (pool : ServerPool), σ.serverPool.backends[p]? = some b ∧ pool.backends = σ.serverPool.backends ∧
      (∀ k, (pool.MarkBackendStatus b.URL false).aliveAt k =
        if k = p then false else σ.serverPool.aliveAt k) ∧
      lb net (f + 9) σ Request.fresh =
        lb net f
          { serverPool := pool.MarkBackendStatus b.URL false,
            requestCounter := (σ.requestCounter + 1) % 2 ^ 64,
            trace := σ.trace ++ firstBackendSteps ((σ.requestCounter + 1) % 2 ^ 64) p b.URL }
          { attempts := some 2, retry := some 3,
            requestID := some (toString ((σ.requestCounter + 1) % 2 ^ 64)) } := by
  obtain ⟨x, pool, hsel, hb, ⟨_, hdead⟩ | ⟨q, b, hx, hpb, _⟩⟩ :=
    ServerPool.GetNextPeer_result σ.serverPool hN
  · have := halive 0 hN
    rw [hdead 0] at this
    simp at this
  · subst hx
    refine ⟨q, b, pool, by rw [← hb]; exact hpb, hb, ?_, ?_⟩
    · intro k
      rw [ServerPool.MarkBackendStatus_aliveAt_first pool q b hpb
        (ServerPool.first_of_nodup pool.backends (by rw [hb]; exact hnodup) q b hpb) k,
        ServerPool.aliveAt_congr hb]
    · have hle : ¬ GetAttemptsFromContext Request.fresh > 3 := by decide
      rw [lb_succ, if_neg hle]
      simp only [hsel, hpb, Request.fresh]
      rw [ServeHTTP_all_fail_fresh net hfail f q b.URL _ none _
        (by show (1 : Int) ≤ 1; decide) (by show (1 : Int) ≤ 3; decide)]
      simp only [GetAttemptsFromContext_none, firstBackendSteps, List.append_assoc,
        List.singleton_append, List.cons_append, List.nil_append]
      rfl

theorem ServerPool.urlAt_of_getElem? (s pool : ServerPool) (q : Nat) (b : Backend)
    (hurls : pool.backends.map Backend.URL = s.backends.map Backend.URL)
    (hpb : pool.backends[q]? = some b) :
    (s.backends.map Backend.URL)[q]? = some b.URL := by
  rw [← hurls, List.getElem?_map, hpb]
  rfl

theorem ServerPool.MarkBackendStatus_urls (s : ServerPool) (backendUrl : String) (alive : Bool) :
    (s.MarkBackendStatus backendUrl alive).backends.map Backend.URL =
      s.backends.map Backend.URL :=
  ServerPool.MarkBackendStatus.loop_urls backendUrl alive s.backends

theorem exists_third (p q : Nat) : ∃ i, i < 3 ∧ i ≠ p ∧ i ≠ q := by
  by_cases h0 : 0 ≠ p ∧ 0 ≠ q
  · exact ⟨0, by omega, h0.1, h0.2⟩
  · by_cases h1 : 1 ≠ p ∧ 1 ≠ q
    · exact ⟨1, by omega, h1.1, h1.2⟩
    · exact ⟨2, by omega, by omega, by omega⟩

/-- C18: the Retry value is not reset on failover.  For a fresh request on a
registry of `N ≥ 1` backends with pairwise distinct addresses, all alive,
when every forward fails, `lb` answers 503 (within recursion depth 16) after
exactly `4 + min (N - 1) 2` forwards, at most 6.  The run is: the first
selected backend is forwarded to four times (retries absent, 1, 2, 3) and
marked down; then, while a backend is still alive and attempts are at most
3, the next selected backend, different from the earlier ones, is forwarded
to once with retries still 3 and marked down on that failure.  Every
selected backend is not alive at the end. -/
theorem lb_all_fail_distinct_addresses (net : Transport) (fuel : Nat) (σ : State)
    (hN : 1 ≤ σ.serverPool.backends.length)
    (halive : ∀ i, i < σ.serverPool.backends.length → σ.serverPool.aliveAt i = true)
    (hnodup : (σ.serverPool.backends.map Backend.URL).Nodup)
    (hfail : ∀ n p, net n p = false) (hfuel : 16 ≤ fuel) :
    ∃ (σ' : State) (rest : List Event),
      lb net fuel σ Request.fresh =
        some (Response.error "Service not available" 503, σ') ∧
      σ'.trace = σ.trace ++ rest ∧
      forwardCount rest = 4 + min (σ.serverPool.backends.length - 1) 2 ∧
      forwardCount rest ≤ 6 ∧
      ∃ (id1 id2 id3 p1 : Nat) (u1 : String),
        (σ.serverPool.backends.map Backend.URL)[p1]? = some u1 ∧
        σ'.serverPool.aliveAt p1 = false ∧
        ((σ.serverPool.backends.length = 1 ∧
            rest = firstBackendSteps id1 p1 u1 ++ noPeerSteps id2 2) ∨
          (σ.serverPool.backends.length = 2 ∧
            ∃ (p2 : Nat) (u2 : String), p2 ≠ p1 ∧
              (σ.serverPool.backends.map Backend.URL)[p2]? = some u2 ∧
              σ'.serverPool.aliveAt p2 = false ∧
              rest = firstBackendSteps id1 p1 u1 ++ failoverSteps id2 2 p2 u2 ++
                noPeerSteps id3 3) ∨
          (3 ≤ σ.serverPool.backends.length ∧
            ∃ (p2 p3 : Nat) (u2 u3 : String), p2 ≠ p1 ∧ p3 ≠ p1 ∧ p3 ≠ p2 ∧
              (σ.serverPool.backends.map Backend.URL)[p2]? = some u2 ∧
              (σ.serverPool.backends.map Backend.URL)[p3]? = some u3 ∧
              σ'.serverPool.aliveAt p2 = false ∧ σ'.serverPool.aliveAt p3 = false ∧
              rest = firstBackendSteps id1 p1 u1 ++ failoverSteps id2 2 p2 u2 ++
                failoverSteps id3 3 p3 u3)) := by
  obtain ⟨f, rfl⟩ : ∃ f, fuel = f + 16 := ⟨fuel - 16, by omega⟩
  have hall := ServerPool.aliveAt_lt_iff_of_all σ.serverPool halive
  -- the first backend
  obtain ⟨p1, b1, pool1, hpb1, hb1, halive1, hrun1⟩ :=
    lb_first_backend_all_fail net hfail (f + 7) σ hN halive hnodup
  have hp1 : p1 < σ.serverPool.backends.length := by
    by_contra hlt
    rw [List.getElem?_eq_none (by omega)] at hpb1
    simp at hpb1
  have hurls1 : (pool1.MarkBackendStatus b1.URL false).backends.map Backend.URL =
      σ.serverPool.backends.map Backend.URL := by
    rw [ServerPool.MarkBackendStatus_urls, hb1]
  have hlen1 : (pool1.MarkBackendStatus b1.URL false).backends.length =
      σ.serverPool.backends.length := by
    rw [ServerPool.MarkBackendStatus_length, hb1]
  have hu1 : (σ.serverPool.backends.map Backend.URL)[p1]? = some b1.URL := by
    rw [List.getElem?_map, hpb1]; rfl
  rw [show f + 16 = f + 7 + 9 by omega, hrun1]
  -- the second selection
  rcases lb_failover_step net hfail (f + 4)
      { serverPool := pool1.MarkBackendStatus b1.URL false,
        requestCounter := (σ.requestCounter + 1) % 2 ^ 64,
        trace := σ.trace ++ firstBackendSteps ((σ.requestCounter + 1) % 2 ^ 64) p1 b1.URL }
      2 (some (toString ((σ.requestCounter + 1) % 2 ^ 64))) (by decide) (by decide)
      (by show 0 < (pool1.MarkBackendStatus b1.URL false).backends.length; rw [hlen1]; exact hN)
      (by show ((pool1.MarkBackendStatus b1.URL false).backends.map Backend.URL).Nodup
          rw [hurls1]; exact hnodup)
    with ⟨hdead, pool2, hb2, hrun2⟩ | ⟨p2, b2, pool2, halive2q, hb2, hpb2, halive2, hrun2⟩
  · -- no backend left: N = 1
    dsimp only at hb2 hrun2
    have hN1 : σ.serverPool.backends.length = 1 := by
      by_contra hne
      have hi : ∃ i, i < 2 ∧ i ≠ p1 := by
        by_cases hp0 : p1 = 0
        · exact ⟨1, by omega, by omega⟩
        · exact ⟨0, by omega, fun h => hp0 h.symm⟩
      obtain ⟨i, hi2, hi1⟩ := hi
      have h' : (pool1.MarkBackendStatus b1.URL false).aliveAt i = false := hdead i
      rw [halive1, if_neg hi1, halive i (by omega)] at h'
      simp at h'
    rw [show f + 7 = f + 4 + 3 by omega, hrun2]
    refine ⟨_, _, rfl, List.append_assoc _ _ _, ?_, ?_, _, _, 0, p1, b1.URL, hu1, ?_,
      Or.inl ⟨hN1, rfl⟩⟩
    · rw [hN1]
      simp [forwardCount, firstBackendSteps, noPeerSteps, Event.isForward]
    · simp [forwardCount, firstBackendSteps, noPeerSteps, Event.isForward]
    · show pool2.aliveAt p1 = false
      rw [ServerPool.aliveAt_congr hb2]
      exact hdead p1
  · dsimp only at halive2q hb2 halive2 hrun2
    rw [show (2 : Int) + 1 = 3 by decide] at hrun2
    have halive2q' : (pool1.MarkBackendStatus b1.URL false).aliveAt p2 = true := halive2q
    rw [halive1, hall] at halive2q'
    have hp21 : p2 ≠ p1 := by
      intro h; rw [if_pos h] at halive2q'; simp at halive2q'
    have hp2 : p2 < σ.serverPool.backends.length := by
      rw [if_neg hp21] at halive2q'; simpa using halive2q'
    have hb2' : pool2.backends = (pool1.MarkBackendStatus b1.URL false).backends := hb2
    have hurls2 : (pool2.MarkBackendStatus b2.URL false).backends.map Backend.URL =
        σ.serverPool.backends.map Backend.URL := by
      rw [ServerPool.MarkBackendStatus_urls, hb2', hurls1]
    have hlen2 : (pool2.MarkBackendStatus b2.URL false).backends.length =
        σ.serverPool.backends.length := by
      rw [ServerPool.MarkBackendStatus_length, hb2', hlen1]
    have hu2 : (σ.serverPool.backends.map Backend.URL)[p2]? = some b2.URL :=
      ServerPool.urlAt_of_getElem? σ.serverPool pool2 p2 b2 (by rw [hb2', hurls1]) hpb2
    have halive2' : ∀ k, (pool2.MarkBackendStatus b2.URL false).aliveAt k =
        if k = p2 then false else if k = p1 then false
          else decide (k < σ.serverPool.backends.length) := by
      intro k
      have h := halive2 k
      have h1 : (pool1.MarkBackendStatus b1.URL false).aliveAt k =
          if k = p1 then false else decide (k < σ.serverPool.backends.length) := by
        rw [halive1, hall]
      rw [h]
      show (if k = p2 then false else (pool1.MarkBackendStatus b1.URL false).aliveAt k) = _
      rw [h1]
    rw [show f + 7 = f + 4 + 3 by omega, hrun2]
    -- the third selection
    rcases lb_failover_step net hfail (f + 1)
        { serverPool := pool2.MarkBackendStatus b2.URL false,
          requestCounter := ((σ.requestCounter + 1) % 2 ^ 64 + 1) % 2 ^ 64,
          trace := σ.trace ++ firstBackendSteps ((σ.requestCounter + 1) % 2 ^ 64) p1 b1.URL ++
            failoverSteps (((σ.requestCounter + 1) % 2 ^ 64 + 1) % 2 ^ 64) 2 p2 b2.URL }
        3 (some (toString (((σ.requestCounter + 1) % 2 ^ 64 + 1) % 2 ^ 64)))
        (by decide) (by decide)
        (by show 0 < (pool2.MarkBackendStatus b2.URL false).backends.length
            rw [hlen2]; exact hN)
        (by show ((pool2.MarkBackendStatus b2.URL false).backends.map Backend.URL).Nodup
            rw [hurls2]; exact hnodup)
      with ⟨hdead, pool3, hb3, hrun3⟩ | ⟨p3, b3, pool3, halive3q, hb3, hpb3, halive3, hrun3⟩
    · -- no backend left: N = 2
      have hN2 : σ.serverPool.backends.length = 2 := by
        by_contra hne
        obtain ⟨i, hi, hi1, hi2⟩ := exists_third p1 p2
        have h' : (pool2.MarkBackendStatus b2.URL false).aliveAt i = false := hdead i
        rw [halive2', if_neg hi2, if_neg hi1] at h'
        simp at h'
        omega
      dsimp only at hb3 hrun3
      rw [show f + 4 = f + 1 + 3 by omega]
      rw [hrun3]
      refine ⟨_, firstBackendSteps ((σ.requestCounter + 1) % 2 ^ 64) p1 b1.URL ++
          failoverSteps (((σ.requestCounter + 1) % 2 ^ 64 + 1) % 2 ^ 64) 2 p2 b2.URL ++
          noPeerSteps ((((σ.requestCounter + 1) % 2 ^ 64 + 1) % 2 ^ 64 + 1) % 2 ^ 64) 3,
        rfl, ?_, ?_, ?_, _, _, _, p1, b1.URL, hu1, ?_,
        Or.inr (Or.inl ⟨hN2, p2, b2.URL, hp21, hu2, ?_, rfl⟩)⟩
      · show _ ++ _ ++ _ ++ _ = _ ++ (_ ++ _ ++ _)
        simp only [List.append_assoc]
      · rw [hN2]
        simp [forwardCount, firstBackendSteps, failoverSteps, noPeerSteps, Event.isForward]
      · simp [forwardCount, firstBackendSteps, failoverSteps, noPeerSteps, Event.isForward]
      · show pool3.aliveAt p1 = false
        rw [ServerPool.aliveAt_congr hb3]
        exact hdead p1
      · show pool3.aliveAt p2 = false
        rw [ServerPool.aliveAt_congr hb3]
        exact hdead p2
    · dsimp only at halive3q hb3 halive3 hrun3
      have halive3q' : (pool2.MarkBackendStatus b2.URL false).aliveAt p3 = true := halive3q
      rw [halive2'] at halive3q'
      have hp32 : p3 ≠ p2 := by
        intro h; rw [if_pos h] at halive3q'; simp at halive3q'
      rw [if_neg hp32] at halive3q'
      have hp31 : p3 ≠ p1 := by
        intro h; rw [if_pos h] at halive3q'; simp at halive3q'
      have hp3 : p3 < σ.serverPool.backends.length := by
        rw [if_neg hp31] at halive3q'; simpa using halive3q'
      have hN3 : 3 ≤ σ.serverPool.backends.length := by omega
      have hb3' : pool3.backends = (pool2.MarkBackendStatus b2.URL false).backends := hb3
      have hu3 : (σ.serverPool.backends.map Backend.URL)[p3]? = some b3.URL :=
        ServerPool.urlAt_of_getElem? σ.serverPool pool3 p3 b3 (by rw [hb3', hurls2]) hpb3
      have halive3' : ∀ k, (pool3.MarkBackendStatus b3.URL false).aliveAt k =
          if k = p3 then false else (pool2.MarkBackendStatus b2.URL false).aliveAt k :=
        halive3
      rw [show f + 4 = f + 1 + 3 by omega, hrun3, lb_succ,
        if_pos (by show (3 : Int) + 1 > 3; decide)]
      refine ⟨_, firstBackendSteps ((σ.requestCounter + 1) % 2 ^ 64) p1 b1.URL ++
          failoverSteps (((σ.requestCounter + 1) % 2 ^ 64 + 1) % 2 ^ 64) 2 p2 b2.URL ++
          failoverSteps ((((σ.requestCounter + 1) % 2 ^ 64 + 1) % 2 ^ 64 + 1) % 2 ^ 64) 3
            p3 b3.URL,
        rfl, ?_, ?_, ?_, _, _, _, p1, b1.URL, hu1, ?_,
        Or.inr (Or.inr ⟨hN3, p2, p3, b2.URL, b3.URL, hp21, hp31, hp32, hu2, hu3, ?_, ?_, rfl⟩)⟩
      · show _ ++ _ ++ _ ++ _ = _ ++ (_ ++ _ ++ _)
        simp only [List.append_assoc]
      · have : min (σ.serverPool.backends.length - 1) 2 = 2 := by omega
        rw [this]
        simp [forwardCount, firstBackendSteps, failoverSteps, Event.isForward]
      · simp [forwardCount, firstBackendSteps, failoverSteps, Event.isForward]
      · show (pool3.MarkBackendStatus b3.URL false).aliveAt p1 = false
        rw [halive3', halive2']
        simp
      · show (pool3.MarkBackendStatus b3.URL false).aliveAt p2 = false
        rw [halive3', halive2']
        simp
      · show (pool3.MarkBackendStatus b3.URL false).aliveAt p3 = false
        rw [halive3']
        simp

/-- C18 at two configured backends right after start-up. -/
theorem lb_all_fail_distinct_addresses_witness :
    ∃ (σ' : State) (rest : List Event),
      lb allFail 16 twoBackends Request.fresh =
        some (Response.error "Service not available" 503, σ') ∧
      σ'.trace = twoBackends.trace ++ rest ∧
      forwardCount rest = 4 + min (twoBackends.serverPool.backends.length - 1) 2 ∧
      forwardCount rest ≤ 6 ∧
      ∃ (id1 id2 id3 p1 : Nat) (u1 : String),
        (twoBackends.serverPool.backends.map Backend.URL)[p1]? = some u1 ∧
        σ'.serverPool.aliveAt p1 = false ∧
        ((twoBackends.serverPool.backends.length = 1 ∧
            rest = firstBackendSteps id1 p1 u1 ++ noPeerSteps id2 2) ∨
          (twoBackends.serverPool.backends.length = 2 ∧
            ∃ (p2 : Nat) (u2 : String), p2 ≠ p1 ∧
              (twoBackends.serverPool.backends.map Backend.URL)[p2]? = some u2 ∧
              σ'.serverPool.aliveAt p2 = false ∧
              rest = firstBackendSteps id1 p1 u1 ++ failoverSteps id2 2 p2 u2 ++
                noPeerSteps id3 3) ∨
          (3 ≤ twoBackends.serverPool.backends.length ∧
            ∃ (p2 p3 : Nat) (u2 u3 : String), p2 ≠ p1 ∧ p3 ≠ p1 ∧ p3 ≠ p2 ∧
              (twoBackends.serverPool.backends.map Backend.URL)[p2]? = some u2 ∧
              (twoBackends.serverPool.backends.map Backend.URL)[p3]? = some u3 ∧
              σ'.serverPool.aliveAt p2 = false ∧ σ'.serverPool.aliveAt p3 = false ∧
              rest = firstBackendSteps id1 p1 u1 ++ failoverSteps id2 2 p2 u2 ++
                failoverSteps id3 3 p3 u3)) :=
  lb_all_fail_distinct_addresses allFail 16 twoBackends (by decide) (by decide) (by decide)
    (fun _ _ => rfl) (by decide)

/-! ## Peer selection: rotation over the alive backends -/

/-- One call on a pool with the registry of `s` whose cursor increment does
not wrap: with `st` the scan start, either no backend is alive, or the
backend at the least alive offset `j` from `st` is returned and the next
scan starts right after it. -/
theorem ServerPool.call_step (s t : ServerPool) (hN : 0 < s.backends.length)
    (hlen : s.backends.length < 2 ^ 63) (ht : t.backends = s.backends)
    (hw : t.current + 1 < 2 ^ 64) :
    (∀ i, s.aliveAt i = false) ∨
    ∃ j, j < s.backends.length ∧
      s.aliveAt (((t.current + 1) % s.backends.length + j) % s.backends.length) = true ∧
      (∀ k, k < j →
        s.aliveAt (((t.current + 1) % s.backends.length + k) % s.backends.length) = false) ∧
      t.GetNextPeer.1 =
        some (some (((t.current + 1) % s.backends.length + j) % s.backends.length)) ∧
      (t.GetNextPeer.2.current + 1) % s.backends.length =
        ((t.current + 1) % s.backends.length + j + 1) % s.backends.length := by
  have hN' : 0 < t.backends.length := by rw [ht]; exact hN
  have hmod : (t.current + 1) % 2 ^ 64 = t.current + 1 := Nat.mod_eq_of_lt hw
  rcases ServerPool.GetNextPeer_cases t hN' with ⟨_, hall⟩ | ⟨j, hj, halive, hbefore, hret⟩
  · left
    intro i
    rw [← ServerPool.aliveAt_congr ht]
    exact hall i
  · right
    simp only [hmod, ht] at hj halive hbefore hret
    rw [ServerPool.aliveAt_congr ht] at halive
    refine ⟨j, hj, halive, ?_, by rw [hret], ?_⟩
    · intro k hk
      rw [← ServerPool.aliveAt_congr ht]
      exact hbefore k hk
    · rw [hret]
      by_cases hj0 : j = 0
      · subst hj0
        simp only [ne_eq, not_true_eq_false, if_false, Nat.add_zero]
        show (t.current + 1 + 1) % s.backends.length = _
        rw [Nat.mod_add_mod]
      · rw [if_pos hj0]
        show (((t.current + 1) % s.backends.length + j) % s.backends.length % 2 ^ 64 + 1)
          % s.backends.length = _
        have hidx : ((t.current + 1) % s.backends.length + j) % s.backends.length
            < s.backends.length := Nat.mod_lt _ hN
        rw [Nat.mod_eq_of_lt (by omega : ((t.current + 1) % s.backends.length + j)
          % s.backends.length < 2 ^ 64), Nat.mod_add_mod]

/-- A stretch of dead candidates adds nothing to the alive candidates met. -/
theorem filter_dead_stretch (a : Nat → Bool) (W : Nat → Nat) (T : Nat) : ∀ j,
    (∀ k, k < j → a (W (T + k)) = false) →
    ((List.range (T + j)).map W).filter a = ((List.range T).map W).filter a := by
  intro j
  induction j with
  | zero => intro _; rfl
  | succ j ih =>
    intro hdead
    rw [← Nat.add_assoc, List.range_succ, List.map_append, List.filter_append,
      ih (fun k hk => hdead k (by omega))]
    simp [hdead j (Nat.lt_succ_self j)]

/-- If fewer alive candidates were met before walk time `T` than there are
among all `N` candidates, an alive candidate lies at a walk time in
`[T, N)`. -/
theorem exists_alive_later (a : Nat → Bool) (W : Nat → Nat) (T N : Nat) (hT : T ≤ N)
    (hlt : (((List.range T).map W).filter a).length
      < (((List.range N).map W).filter a).length) :
    ∃ d, T + d < N ∧ a (W (T + d)) = true := by
  obtain ⟨m, rfl⟩ : ∃ m, N = T + m := ⟨N - T, by omega⟩
  rw [List.range_add, List.map_append, List.filter_append, List.length_append] at hlt
  have hpos : 0 < ((List.map W (List.map (fun x => T + x) (List.range m))).filter a).length := by
    omega
  obtain ⟨x, hx⟩ := List.exists_mem_of_length_pos hpos
  rw [List.mem_filter, List.mem_map] at hx
  obtain ⟨⟨y, hy, rfl⟩, hax⟩ := hx
  rw [List.mem_map] at hy
  obtain ⟨d, hd, rfl⟩ := hy
  exact ⟨d, by have := List.mem_range.mp hd; omega, hax⟩

/-- The results of the first `n ≤ k` calls are the alive candidates met up
to a walk time `T`, in walk order, and the next scan starts at walk time
`T`; the walk visits `(current + 1 + t) mod N` at time `t`. -/
theorem ServerPool.rotation_invariant (s : ServerPool) (hN : 0 < s.backends.length)
    (hlen : s.backends.length < 2 ^ 63) (k : Nat)
    (hk : ((s.candidates ((s.current + 1) % s.backends.length)).filter s.aliveAt).length = k)
    (hwrap : ∀ n, n < k → (s.afterCalls n).current + 1 < 2 ^ 64) :
    ∀ n, n ≤ k → ∃ T, T ≤ s.backends.length ∧
      (List.range n).map s.nthCall =
        (((List.range T).map
            (fun t => ((s.current + 1) % s.backends.length + t) % s.backends.length)).filter
          s.aliveAt).map (fun i => some (some i)) ∧
      ((s.afterCalls n).current + 1) % s.backends.length =
        ((s.current + 1) % s.backends.length + T) % s.backends.length := by
  intro n
  induction n with
  | zero =>
    intro _
    refine ⟨0, Nat.zero_le _, rfl, ?_⟩
    show (s.current + 1) % s.backends.length = _
    simp
  | succ n ih =>
    intro hn
    obtain ⟨T, hT, hres, hcur⟩ := ih (by omega)
    have hback : (s.afterCalls n).backends = s.backends := ServerPool.afterCalls_backends s n
    have hcount : (((List.range T).map
        (fun t => ((s.current + 1) % s.backends.length + t) % s.backends.length)).filter
          s.aliveAt).length = n := by
      have := congrArg List.length hres
      simpa using this.symm
    obtain ⟨d, hd, hdalive⟩ := exists_alive_later s.aliveAt
      (fun t => ((s.current + 1) % s.backends.length + t) % s.backends.length) T
      s.backends.length hT (by
        rw [hcount]
        have : (((List.range s.backends.length).map
            (fun t => ((s.current + 1) % s.backends.length + t) % s.backends.length)).filter
              s.aliveAt).length = k := hk
        omega)
    have hwalk : ∀ x, (((s.afterCalls n).current + 1) % s.backends.length + x)
        % s.backends.length =
        ((s.current + 1) % s.backends.length + (T + x)) % s.backends.length := by
      intro x
      rw [hcur, Nat.mod_add_mod, Nat.add_assoc]
    rcases ServerPool.call_step s (s.afterCalls n) hN hlen hback (hwrap n (by omega)) with
      hall | ⟨j, hj, halive, hbefore, hret, hnext⟩
    · rw [hall] at hdalive
      simp at hdalive
    · rw [hwalk] at halive hret
      have hjd : j ≤ d := by
        by_contra hlt
        have := hbefore d (by omega)
        rw [hwalk] at this
        rw [this] at hdalive
        simp at hdalive
      refine ⟨T + j + 1, by omega, ?_, ?_⟩
      · rw [List.range_succ, List.map_append, hres, List.range_succ (T + j), List.map_append,
          List.filter_append,
          filter_dead_stretch s.aliveAt
            (fun t => ((s.current + 1) % s.backends.length + t) % s.backends.length) T j
            (fun x hx => by have := hbefore x hx; rwa [hwalk] at this),
          List.map_append]
        congr 1
        show [s.nthCall n] = _
        have hn' : s.nthCall n = some (some
            (((s.current + 1) % s.backends.length + (T + j)) % s.backends.length)) := hret
        rw [hn']
        simp only [List.map_cons, List.map_nil]
        rw [List.filter_cons_of_pos (by exact halive)]
        rfl
      · show ((s.afterCalls n).GetNextPeer.2.current + 1) % s.backends.length = _
        rw [hnext, Nat.add_assoc, hwalk]
        congr 2

/-- The alive backends counted along the candidates of a scan are the alive
backends of the registry. -/
theorem ServerPool.alive_candidates_length (s : ServerPool) (start : Nat) :
    ((s.candidates start).filter s.aliveAt).length =
      ((List.range s.backends.length).filter s.aliveAt).length := by
  apply List.Perm.length_eq
  apply List.Perm.filter
  rw [List.perm_ext_iff_of_nodup (ServerPool.candidates_nodup s start) (List.nodup_range _)]
  intro i
  rw [ServerPool.mem_candidates, List.mem_range]

/-- C17: on a registry with `N ≥ 1` backends (a slice length, so below
`2^63`) of which exactly `k ≥ 1` are alive, with liveness unchanged and no
wrap-around of the cursor increment in any of the calls, `k` consecutive
`GetNextPeer` calls return the alive backends in the order in which the scan
from `start = ((c + 1) mod 2^64) mod N` meets them: the results are pairwise
distinct, every alive backend is returned by one of the calls, and each call
after the first returns the first alive backend met when scanning cyclically
from the index after the one returned before. -/
theorem ServerPool.fair_rotation (s : ServerPool) (hN : 1 ≤ s.backends.length)
    (hlen : s.backends.length < 2 ^ 63) (k : Nat) (hk1 : 1 ≤ k)
    (hk : ((List.range s.backends.length).filter s.aliveAt).length = k)
    (hwrap : ∀ n, n < k → (s.afterCalls n).current + 1 < 2 ^ 64) :
    (List.range k).map s.nthCall =
      ((s.candidates ((s.current + 1) % 2 ^ 64 % s.backends.length)).filter s.aliveAt).map
        (fun i => some (some i)) ∧
    ((List.range k).map s.nthCall).Nodup ∧
    (∀ i, i < s.backends.length → s.aliveAt i = true →
      ∃ n, n < k ∧ s.nthCall n = some (some i)) ∧
    (∀ n prev, n + 1 < k → s.nthCall n = some (some prev) →
      ∃ j, j < s.backends.length ∧
        s.nthCall (n + 1) = some (some ((prev + 1 + j) % s.backends.length)) ∧
        s.aliveAt ((prev + 1 + j) % s.backends.length) = true ∧
        ∀ i, i < j → s.aliveAt ((prev + 1 + i) % s.backends.length) = false) := by
  have hmod0 : (s.current + 1) % 2 ^ 64 = s.current + 1 :=
    Nat.mod_eq_of_lt (hwrap 0 (by omega))
  have hk' : ((s.candidates ((s.current + 1) % s.backends.length)).filter s.aliveAt).length
      = k := by
    rw [ServerPool.alive_candidates_length, hk]
  have hmain : (List.range k).map s.nthCall =
      ((s.candidates ((s.current + 1) % 2 ^ 64 % s.backends.length)).filter s.aliveAt).map
        (fun i => some (some i)) := by
    obtain ⟨T, hT, hres, _⟩ :=
      ServerPool.rotation_invariant s hN hlen k hk' hwrap k (Nat.le_refl k)
    rw [hres, hmod0]
    congr 1
    have hpre : ((List.range T).map
        (fun t => ((s.current + 1) % s.backends.length + t) % s.backends.length)).filter
          s.aliveAt <+:
        (s.candidates ((s.current + 1) % s.backends.length)).filter s.aliveAt := by
      apply List.IsPrefix.filter
      unfold ServerPool.candidates
      obtain ⟨m, hm⟩ : ∃ m, s.backends.length = T + m := ⟨s.backends.length - T, by omega⟩
      rw [hm, List.range_add, List.map_append]
      exact List.prefix_append _ _
    apply hpre.eq_of_length
    rw [hk']
    have := congrArg List.length hres
    simpa using this.symm
  refine ⟨hmain, ?_, ?_, ?_⟩
  · rw [hmain]
    apply List.Nodup.map
    · intro a b hab
      exact Option.some.inj (Option.some.inj hab)
    · exact (ServerPool.candidates_nodup s _).filter _
  · intro i hi halive
    have hmem : some (some i) ∈ (List.range k).map s.nthCall := by
      rw [hmain]
      apply List.mem_map_of_mem
      rw [List.mem_filter]
      exact ⟨(ServerPool.mem_candidates s _ i).mpr hi, halive⟩
    obtain ⟨n, hn, hcall⟩ := List.mem_map.mp hmem
    exact ⟨n, List.mem_range.mp hn, hcall⟩
  · intro n prev hn hprev
    have hb0 := ServerPool.afterCalls_backends s n
    have hb1 := ServerPool.afterCalls_backends s (n + 1)
    rcases ServerPool.call_step s (s.afterCalls n) hN hlen hb0 (hwrap n (by omega)) with
      hall | ⟨j0, _, halive0, _, hret0, hnext0⟩
    · exfalso
      have := ServerPool.GetNextPeer_some_alive (s.afterCalls n) prev hprev
      rw [ServerPool.aliveAt_congr hb0, hall] at this
      simp at this
    · have hprev' : (s.afterCalls n).GetNextPeer.1 = some (some prev) := hprev
      rw [hret0] at hprev'
      have hidx := Option.some.inj (Option.some.inj hprev')
      have hstart : ((s.afterCalls (n + 1)).current + 1) % s.backends.length =
          (prev + 1) % s.backends.length := by
        show ((s.afterCalls n).GetNextPeer.2.current + 1) % s.backends.length = _
        rw [hnext0, ← hidx, Nat.mod_add_mod]
      have hwalk : ∀ x, (((s.afterCalls (n + 1)).current + 1) % s.backends.length + x)
          % s.backends.length = (prev + 1 + x) % s.backends.length := by
        intro x
        rw [hstart, Nat.mod_add_mod]
      rcases ServerPool.call_step s (s.afterCalls (n + 1)) hN hlen hb1 (hwrap (n + 1) hn) with
        hall | ⟨j, hj, halive, hbefore, hret, _⟩
      · rw [hall] at halive0
        simp at halive0
      · rw [hwalk] at halive hret
        exact ⟨j, hj, hret, halive, fun i hi => by have := hbefore i hi; rwa [hwalk] at this⟩

/-- C17 at four backends of which the second is dead, cursor at 0: three
calls return the backends 2, 3 and 0. -/
theorem ServerPool.fair_rotation_witness :
    (List.range 3).map (oneDeadOfFour 0).nthCall =
      (((oneDeadOfFour 0).candidates
          (((oneDeadOfFour 0).current + 1) % 2 ^ 64 % (oneDeadOfFour 0).backends.length)).filter
        (oneDeadOfFour 0).aliveAt).map (fun i => some (some i)) ∧
    ((List.range 3).map (oneDeadOfFour 0).nthCall).Nodup ∧
    (∀ i, i < (oneDeadOfFour 0).backends.length → (oneDeadOfFour 0).aliveAt i = true →
      ∃ n, n < 3 ∧ (oneDeadOfFour 0).nthCall n = some (some i)) ∧
    (∀ n prev, n + 1 < 3 → (oneDeadOfFour 0).nthCall n = some (some prev) →
      ∃ j, j < (oneDeadOfFour 0).backends.length ∧
        (oneDeadOfFour 0).nthCall (n + 1) =
          some (some ((prev + 1 + j) % (oneDeadOfFour 0).backends.length)) ∧
        (oneDeadOfFour 0).aliveAt ((prev + 1 + j) % (oneDeadOfFour 0).backends.length) = true ∧
        ∀ i, i < j →
          (oneDeadOfFour 0).aliveAt ((prev + 1 + i) % (oneDeadOfFour 0).backends.length)
            = false) :=
  ServerPool.fair_rotation (oneDeadOfFour 0) (by decide) (by decide) 3 (by decide) (by decide)
    (by decide)

end GoLB
